import Mathlib

/-!
# Natron, `Engine/EffectInstance.cpp`: the on-demand render pipeline

A shallow embedding of `EffectInstance` (region of definition, frame range,
region of interest, `getImage`, `renderRoI`, `tiledRenderingFunctor`).

* An effect's inputs are pointers to other effects whose virtual methods are
  called through the pointer: an input is an `EffectRef`, the record of the
  methods this file calls on it.
* The mutable program state touched by the file (node cache, image buffers,
  the per-node registry of images being rendered, the abort flags and the
  thread-local render arguments) is the record `World`; stateful code is a
  function `World → Res α` returning a value or a raised error, the new state
  and the list of calls made to the collaborators (`Event`).
* `int` values are only copied and compared in this file, never computed with,
  so they are `Int`; `INT_MIN` and `INT_MAX` are the 32-bit bounds.
-/

namespace Natron

/-! ## Plain data -/

/-- `typedef int SequenceTime`. -/
abbrev SequenceTime := Int

/-- Smallest value of a 32-bit `int`. -/
def INT_MIN : Int := -2147483648

/-- Largest value of a 32-bit `int`. -/
def INT_MAX : Int := 2147483647

/-- The statuses `Natron::Status` this file returns or tests. -/
inductive Status where
  | StatOK
  | StatFailed
  | StatReplyDefault
deriving DecidableEq, Repr

/-- The cache policies tested by `renderRoI`. -/
inductive CachePolicy where
  | ALWAYS_CACHE
  | NEVER_CACHE
deriving DecidableEq, Repr

/-- The thread-safety tiers of `EffectInstance::RenderSafety`. -/
inductive RenderSafety where
  | UNSAFE
  | INSTANCE_SAFE
  | FULLY_SAFE
  | FULLY_SAFE_FRAME
deriving DecidableEq, Repr

/-- The render scale: two `double`s that this file only copies and compares. -/
structure RenderScale where
  x : Rat
  y : Rat
deriving DecidableEq

/-- Modelled from the spec: `RectI` (declared in `Engine/Rect.h`), the axis-aligned
integer rectangle (left, bottom, right, top); a pixel `(x, y)` lies in it when
`left ≤ x < right` and `bottom ≤ y < top`. -/
structure RectI where
  left : Int
  bottom : Int
  right : Int
  top : Int
deriving DecidableEq, Repr

namespace RectI

/-- Modelled from the spec: the canonical empty region, the value of a
default-constructed `RectI`. -/
def empty : RectI := ⟨0, 0, 0, 0⟩

/-- Modelled from the spec: a region holding no pixel. -/
def isNull (a : RectI) : Bool := decide (a.right ≤ a.left) || decide (a.top ≤ a.bottom)

/-- The pixel `(x, y)` lies in the region. -/
def contains (a : RectI) (x y : Int) : Prop :=
  a.left ≤ x ∧ x < a.right ∧ a.bottom ≤ y ∧ y < a.top

/-- Membership of a pixel is decidable. -/
instance (a : RectI) (x y : Int) : Decidable (a.contains x y) := by
  unfold contains; infer_instance

/-- Modelled from the spec: `merge`, the smallest region containing both; an
empty operand is a no-op. -/
def merge (a b : RectI) : RectI :=
  if b.isNull then a
  else if a.isNull then b
  else ⟨min a.left b.left, min a.bottom b.bottom, max a.right b.right, max a.top b.top⟩

/-- Modelled from the spec: `intersect`, the smallest region contained in both,
the empty region if they are disjoint. -/
def intersect (a b : RectI) : RectI :=
  let c : RectI := ⟨max a.left b.left, max a.bottom b.bottom, min a.right b.right, min a.top b.top⟩
  if a.isNull || b.isNull || c.isNull then empty else c

/-- Modelled from the spec: `split(region, n)`, an ordered sequence of at most
`n` non-overlapping sub-regions whose union is the region: band `i` of `n`
horizontal bands spans the rows `bottom + i*h/n` to `bottom + (i+1)*h/n`, and
bands without rows are dropped. A count below one is read as one. -/
def splitRectIntoSmallerRect (rect : RectI) (splitsCount : Int) : List RectI :=
  if rect.isNull then []
  else
    let n : Nat := max 1 splitsCount.toNat
    let h : Int := rect.top - rect.bottom
    ((List.range n).map fun (i : Nat) =>
        (⟨rect.left, rect.bottom + ((i : Int) * h) / (n : Int), rect.right,
          rect.bottom + (((i : Int) + 1) * h) / (n : Int)⟩ : RectI)).filter
      fun band => !band.isNull

/-- Modelled from the spec: the part of `a` outside `m`, as non-overlapping
sub-regions of `a`: the rows of `a` below `m`, the rows above it, and on the
rows they share the columns left of `m` and right of it. -/
def subtract (a m : RectI) : List RectI :=
  if (a.intersect m).isNull then (if a.isNull then [] else [a])
  else
    let lo := max a.bottom m.bottom
    let hi := min a.top m.top
    (if a.bottom < m.bottom then [(⟨a.left, a.bottom, a.right, m.bottom⟩ : RectI)] else [])
    ++ (if m.top < a.top then [(⟨a.left, m.top, a.right, a.top⟩ : RectI)] else [])
    ++ (if a.left < m.left then [(⟨a.left, lo, m.left, hi⟩ : RectI)] else [])
    ++ (if m.right < a.right then [(⟨m.right, lo, a.right, hi⟩ : RectI)] else [])

end RectI

/-- The fields `renderRoI` passes to `Image::makeKey`. -/
structure ImageKey where
  cost : Int
  nodeHashKey : Nat
  time : SequenceTime
  scale : RenderScale
  view : Int
  rod : RectI
deriving DecidableEq

/-- Modelled from the spec: the image buffer (declared in `Engine/Image.h`): a raster
over the bounding region `rod` with the set of sub-regions already computed. -/
structure Image where
  rod : RectI
  scale : RenderScale
  time : SequenceTime
  rendered : List RectI
deriving DecidableEq

namespace Image

/-- Modelled from the spec: `allocate(region, scale, time)`, nothing rendered. -/
def new (rod : RectI) (scale : RenderScale) (time : SequenceTime) : Image :=
  ⟨rod, scale, time, []⟩

/-- The bounding region of the buffer. -/
def getRoD (img : Image) : RectI := img.rod

/-- Modelled from the spec: `restToRender(requestedRegion)`, the non-overlapping
sub-regions of the requested region not yet marked rendered, the empty list
once it is covered. -/
def getRestToRender (img : Image) (roi : RectI) : List RectI :=
  img.rendered.foldl (fun rest m => rest.flatMap fun a => a.subtract m)
    (if roi.isNull then [] else [roi])

/-- Modelled from the spec: `markRendered(subRegion)`, idempotent and monotonic;
the rendered sub-regions stay inside the bounding region. -/
def markForRendered (img : Image) (roi : RectI) : Image :=
  let c := roi.intersect img.rod
  if c.isNull || decide (c ∈ img.rendered) then img
  else { img with rendered := img.rendered ++ [c] }

end Image

/-- The thread-local `EffectInstance::RenderArgs`. -/
structure RenderArgs where
  _roi : RectI
  _time : SequenceTime
  _scale : RenderScale
  _view : Int
deriving DecidableEq

/-! ## Program state, raised errors and the calls made to collaborators -/

/-- The mutable state this file reads and writes. A pointer to an effect is its
address, a pointer to an image buffer is its index in `images`. -/
structure World where
  /-- Every image buffer allocated so far. -/
  images : List Image
  /-- The node cache, most recently used entry first. -/
  nodeCache : List (ImageKey × Nat)
  /-- The number of entries the node cache may keep. -/
  maximumCacheSize : Nat
  /-- The per-node registry of images being rendered: node, time, view, image. -/
  imagesBeingRendered : List (Nat × SequenceTime × Int × Nat)
  /-- The effects whose `renderAborted` flag is set. -/
  aborted : List Nat
  /-- The `QThreadStorage<RenderArgs>` of each effect, for the calling thread. -/
  renderArgs : List (Nat × RenderArgs)
  /-- The value of `QThread::idealThreadCount()`. -/
  idealThreadCount : Int
deriving DecidableEq

/-- What the code raises: a `std::runtime_error`, a failed `assert`, or an
access the language leaves undefined (a null or out-of-range dereference). -/
inductive Err where
  | runtime_error (what : String)
  | assertion (expr : String)
  | undefined_behaviour (what : String)
deriving DecidableEq

/-- A call made to a collaborator (cache, image buffer, node, project, plug-in). -/
inductive Event where
  | getImageFromCache (key : ImageKey) (isCached : Bool)
  | newImage (image : Nat)
  | setOrAddProjectFormat (rod : RectI)
  | addImageBeingRendered (node : Nat) (image : Nat) (time : SequenceTime) (view : Int)
  | removeImageBeingRendered (node : Nat) (time : SequenceTime) (view : Int)
  | notifyInputNIsRendering (node : Nat) (inputNb : Int)
  | notifyInputNIsFinishedRendering (node : Nat) (inputNb : Int)
  | notifyRenderingStarted (node : Nat)
  | notifyRenderingEnded (node : Nat)
  | lock (pluginID : String)
  | unlock (pluginID : String)
  | render (node : Nat) (time : SequenceTime) (scale : RenderScale) (roi : RectI) (view : Int)
      (image : Nat) (status : Status)
  | markForRendered (image : Nat) (roi : RectI)
  | removeFromNodeCache (image : Nat)
  | clearExceedingEntriesFromNodeCache
deriving DecidableEq

deriving instance DecidableEq for Except

/-- The outcome of running stateful code: the value returned or the error
raised, the state left behind, and the collaborator calls made, in order. -/
structure Res (α : Type) where
  val : Except Err α
  world : World
  events : List Event
deriving DecidableEq

/-- The outcome of code that ran after the calls `evs` were made. -/
def Res.prepend {α : Type} (evs : List Event) (r : Res α) : Res α :=
  ⟨r.val, r.world, evs ++ r.events⟩

/-- Stateful code that may raise. -/
def Render (α : Type) : Type := World → Res α

namespace Render

/-- Return a value without touching the state. -/
def ret {α : Type} (a : α) : Render α := fun w => ⟨.ok a, w, []⟩

/-- Sequencing: an error raised by the first part skips the second. -/
def andThen {α β : Type} (m : Render α) (f : α → Render β) : Render β := fun w =>
  match (m w).val with
  | .error err => ⟨.error err, (m w).world, (m w).events⟩
  | .ok a => (f a (m w).world).prepend (m w).events

/-- Stateful code is sequenced with `do`. -/
instance : Monad Render where
  pure := ret
  bind := andThen

/-- Raise an error: `throw`, or a failed `assert`. -/
def raise {α : Type} (err : Err) : Render α := fun w => ⟨.error err, w, []⟩

/-- Read the state. -/
def get : Render World := fun w => ⟨.ok w, w, []⟩

/-- Change the state. -/
def modify (f : World → World) : Render Unit := fun w => ⟨.ok (), f w, []⟩

/-- Record a call made to a collaborator. -/
def emit (ev : Event) : Render Unit := fun w => ⟨.ok (), w, [ev]⟩

end Render

/-! ## Effects -/

/-- A pointer to an input effect: its address and the methods this file calls
through it (the virtual ones resolve in the input's own class). -/
structure EffectRef where
  addr : Nat
  /-- The call `getRegionOfDefinition(time, &rod)`: the status and the rectangle
  left in `rod`, from the rectangle it held. -/
  getRegionOfDefinition : SequenceTime → RectI → Status × RectI
  /-- The call `getFrameRange(&first, &last)`. -/
  getFrameRange : SequenceTime × SequenceTime
  /-- The call `renderRoI(time, scale, view, renderWindow, byPassCache)`. -/
  renderRoI : SequenceTime → RenderScale → Int → RectI → Bool → Render (Option Nat)

/-- An effect instance: its address, `_imp->inputs` (a slot is `none` when not
connected), `_imp->hashValue.value()`, and the virtual methods of the plug-in.
`isIdentity` is `some (inputTime, inputNb)` when the plug-in answers `true`.
`render` is the plug-in's computation: the status it returns and whether the
abort flag of this instance was raised by another thread while it ran. -/
structure Effect where
  addr : Nat
  inputs : List (Option EffectRef)
  hashValue : Nat
  pluginID : String
  isWriter : Bool
  isReader : Bool
  getRenderFormat : RectI
  shouldRenderedDataBePersistent : Bool
  getCachePolicy : SequenceTime → CachePolicy
  renderThreadSafety : RenderSafety
  isIdentity : SequenceTime → RenderScale → RectI → Int → Option (SequenceTime × Int)
  render : SequenceTime → RenderScale → RectI → Int → Nat → World → Status × Bool

/-- The loop of `getRegionOfDefinition` over the input slots; `atBegin` is
`it == _imp->inputs.begin()`. Each input fills a fresh `RectI inputRod`. -/
def getRegionOfDefinition_loop (time : SequenceTime) :
    Bool → List (Option EffectRef) → RectI → Status × RectI
  | _, [], rod => (Status.StatReplyDefault, rod)
  | _, none :: rest, rod => getRegionOfDefinition_loop time false rest rod
  | atBegin, some inp :: rest, rod =>
      let r := inp.getRegionOfDefinition time RectI.empty
      if r.1 = Status.StatFailed then (r.1, rod)
      else getRegionOfDefinition_loop time false rest (if atBegin then r.2 else rod.merge r.2)

/-- `EffectInstance::getRegionOfDefinition(time, rod)`: the status returned and
the rectangle left in `*rod`, from the rectangle `*rod` held at the call. -/
def getRegionOfDefinition (e : Effect) (time : SequenceTime) (rod : RectI) : Status × RectI :=
  if e.isWriter then (Status.StatReplyDefault, e.getRenderFormat)
  else getRegionOfDefinition_loop time true e.inputs rod

/-- Modelled from the spec: the type `RoIMap` (declared in `EffectInstance.h`)
returned by `getRegionOfInterest`, the "mapping from connected input node to
the region requested from it". The code uses it as an associative container
keyed by the pointer to the input (`insert(std::make_pair(*it, renderWindow))`,
`it2->first`, `it2->second`): one entry per distinct input, iterated in
increasing key order. -/
abbrev RoIMap := List (EffectRef × RectI)

/-- The call `ret.insert(std::make_pair(input, roi))`: a key already present
keeps its entry. -/
def RoIMap_insert : RoIMap → EffectRef → RectI → RoIMap
  | [], k, v => [(k, v)]
  | (k', v') :: m, k, v =>
      if k.addr < k'.addr then (k, v) :: (k', v') :: m
      else if k.addr = k'.addr then (k', v') :: m
      else (k', v') :: RoIMap_insert m k v

/-- `EffectInstance::getRegionOfInterest(time, scale, renderWindow)`. -/
def getRegionOfInterest (e : Effect) (_time : SequenceTime) (_scale : RenderScale)
    (renderWindow : RectI) : RoIMap :=
  e.inputs.foldl
    (fun ret it => match it with
      | some inp => RoIMap_insert ret inp renderWindow
      | none => ret)
    []

/-- The loop of `getFrameRange` over the input slots; `atBegin` is
`it == _imp->inputs.begin()`. -/
def getFrameRange_loop :
    Bool → List (Option EffectRef) → SequenceTime × SequenceTime → SequenceTime × SequenceTime
  | _, [], range => range
  | _, none :: rest, range => getFrameRange_loop false rest range
  | atBegin, some inp :: rest, range =>
      let inpRange := inp.getFrameRange
      if atBegin then getFrameRange_loop false rest inpRange
      else getFrameRange_loop false rest
        (if inpRange.1 < range.1 then inpRange.1 else range.1,
         if inpRange.2 > range.2 then inpRange.2 else range.2)

/-- `EffectInstance::getFrameRange(first, last)`: the pair left in
`(*first, *last)`. -/
def getFrameRange (e : Effect) : SequenceTime × SequenceTime :=
  getFrameRange_loop true e.inputs (INT_MIN, INT_MAX)

/-- The loop of `getInputNumber`, from slot `i` on. -/
def getInputNumber_loop (inputEffect : Nat) : Nat → List (Option EffectRef) → Int
  | _, [] => -1
  | i, it :: rest =>
      if it.map (fun inp => inp.addr) = some inputEffect then (i : Int)
      else getInputNumber_loop inputEffect (i + 1) rest

/-- `EffectInstance::getInputNumber(inputEffect)`: the first slot holding the
pointer, or -1. -/
def getInputNumber (e : Effect) (inputEffect : EffectRef) : Int :=
  getInputNumber_loop inputEffect.addr 0 e.inputs

/-- `EffectInstance::input(n)`: the pointer in slot `n`, `NULL` past the last
slot. A negative `n` passes the bound test and indexes the vector out of
range. -/
def input (e : Effect) (n : Int) : Except Err (Option EffectRef) :=
  if n < (e.inputs.length : Int) then
    if n < 0 then Except.error (Err.undefined_behaviour "_imp->inputs[n], n < 0")
    else Except.ok (e.inputs.getD n.toNat none)
  else Except.ok none

/-! ## Collaborators of `renderRoI` -/

/-- `EffectInstance::aborted()`. -/
def aborted (e : Effect) : Render Bool := fun w =>
  ⟨Except.ok (decide (e.addr ∈ w.aborted)), w, []⟩

/-- `_imp->renderArgs.setLocalData(args)`. -/
def setLocalData (e : Effect) (args : RenderArgs) : Render Unit :=
  Render.modify fun w =>
    { w with renderArgs := (e.addr, args) :: w.renderArgs.filter fun p => p.1 ≠ e.addr }

/-- The array access `images[image]` behind a pointer to a buffer; a pointer
that designates no allocated buffer reads as a buffer over the empty region. -/
def World.image (w : World) (image : Nat) : Image :=
  w.images.getD image (Image.new RectI.empty ⟨0, 0⟩ 0)

/-- The call `new Natron::Image(rod, scale, time)`: the pointer to the buffer. -/
def newImage (rod : RectI) (scale : RenderScale) (time : SequenceTime) : Render Nat := fun w =>
  ⟨Except.ok w.images.length, { w with images := w.images ++ [Image.new rod scale time] },
    [Event.newImage w.images.length]⟩

/-- Modelled from the spec: `Natron::getImageFromCache(key, &image)`, the cache
`lookup(key)`. On a hit the entry becomes the most recently used and its buffer
is returned. `renderRoI` dereferences `image` after a miss without allocating
it, so on a miss the cache returns a freshly allocated buffer over the key's
region, entered under the key. -/
def getImageFromCache (key : ImageKey) : Render (Bool × Option Nat) := fun w =>
  match w.nodeCache.find? (fun p => decide (p.1 = key)) with
  | some p =>
      ⟨Except.ok (true, some p.2),
        { w with nodeCache := (key, p.2) :: w.nodeCache.filter fun q => decide (q.1 ≠ key) },
        [Event.getImageFromCache key true]⟩
  | none =>
      ⟨Except.ok (false, some w.images.length),
        { w with
          images := w.images ++ [Image.new key.rod key.scale key.time]
          nodeCache := (key, w.images.length) :: w.nodeCache },
        [Event.getImageFromCache key false]⟩

/-- Modelled from the spec: `appPTR->removeFromNodeCache(image)`, the cache
`forceRemove`: no entry holds the buffer afterwards. -/
def removeFromNodeCache (image : Nat) : Render Unit := fun w =>
  ⟨Except.ok (), { w with nodeCache := w.nodeCache.filter fun q => decide (q.2 ≠ image) },
    [Event.removeFromNodeCache image]⟩

/-- Eviction of `excess` entries, least recently used first, sparing the
buffers in `inFlight`. -/
def evictOldest (inFlight : List Nat) : Nat → List (ImageKey × Nat) → List (ImageKey × Nat)
  | 0, oldestFirst => oldestFirst
  | _ + 1, [] => []
  | excess + 1, q :: oldestFirst =>
      if q.2 ∈ inFlight then q :: evictOldest inFlight (excess + 1) oldestFirst
      else evictOldest inFlight excess oldestFirst

/-- Modelled from the spec: `appPTR->clearExceedingEntriesFromNodeCache()`, the
cache `evictExcess()`: least recently used entries are dropped until the cache
holds at most `maximumCacheSize` entries; a buffer registered as being rendered
is never dropped. -/
def clearExceedingEntriesFromNodeCache : Render Unit := fun w =>
  ⟨Except.ok (),
    { w with
      nodeCache :=
        (evictOldest (w.imagesBeingRendered.map fun r => r.2.2.2)
          (w.nodeCache.length - w.maximumCacheSize) w.nodeCache.reverse).reverse },
    [Event.clearExceedingEntriesFromNodeCache]⟩

/-- Modelled from the spec: `_node->addImageBeingRendered(image, time, view)`,
registration in the node's "currently rendering at (time, view)" registry. -/
def addImageBeingRendered (e : Effect) (image : Nat) (time : SequenceTime) (view : Int) :
    Render Unit := fun w =>
  ⟨Except.ok (),
    { w with imagesBeingRendered := (e.addr, time, view, image) :: w.imagesBeingRendered },
    [Event.addImageBeingRendered e.addr image time view]⟩

/-- Modelled from the spec: `_node->removeImageBeingRendered(time, view)`,
deregistration from that registry. -/
def removeImageBeingRendered (e : Effect) (time : SequenceTime) (view : Int) : Render Unit :=
  fun w =>
  ⟨Except.ok (),
    { w with
      imagesBeingRendered :=
        w.imagesBeingRendered.filter fun r => decide (¬ (r.1 = e.addr ∧ r.2.1 = time ∧ r.2.2.1 = view)) },
    [Event.removeImageBeingRendered e.addr time view]⟩

/-- The call `image->markForRendered(roi)`. -/
def markForRendered (image : Nat) (roi : RectI) : Render Unit := fun w =>
  ⟨Except.ok (), { w with images := w.images.modify (fun img => img.markForRendered roi) image },
    [Event.markForRendered image roi]⟩

/-- The virtual call `render(time, scale, roi, view, image)` into the plug-in:
its status; the abort flag of the instance is set when another thread raised
it meanwhile. -/
def callRender (e : Effect) (time : SequenceTime) (scale : RenderScale) (roi : RectI) (view : Int)
    (image : Nat) : Render Status := fun w =>
  ⟨Except.ok (e.render time scale roi view image w).1,
    if (e.render time scale roi view image w).2 then { w with aborted := e.addr :: w.aborted } else w,
    [Event.render e.addr time scale roi view image (e.render time scale roi view image w).1]⟩

/-- Modelled from the spec: the value of `byPassCache` when `renderRoI` is
called without it (the default is declared in `EffectInstance.h`); the cache is
queried "unless cache-bypass is requested". -/
def byPassCache_default : Bool := false

/-! ## `getImage`, `tiledRenderingFunctor`, `renderRoI` -/

/-- The region `getImage` requests from the input `n` (lines 201-207): the
region of the thread-local render arguments of this effect when the calling
thread has some, else the region of definition of the input, asserted not to
have failed. -/
def getImage_roi (e : Effect) (n : EffectRef) (time : SequenceTime) : Render RectI := fun w =>
  match w.renderArgs.lookup e.addr with
  | some args => ⟨Except.ok args._roi, w, []⟩
  | none =>
      if (n.getRegionOfDefinition time RectI.empty).1 = Status.StatFailed then
        ⟨Except.error (Err.assertion "stat != Natron::StatFailed"), w, []⟩
      else ⟨Except.ok (n.getRegionOfDefinition time RectI.empty).2, w, []⟩

/-- `EffectInstance::getImage(inputNb, time, scale, view)`. -/
def getImage (e : Effect) (inputNb : Int) (time : SequenceTime) (scale : RenderScale) (view : Int) :
    Render (Option Nat) :=
  match input e inputNb with
  | Except.error err => Render.raise err
  | Except.ok none => pure none
  | Except.ok (some n) => do
      let roi ← getImage_roi e n time
      n.renderRoI time scale view roi byPassCache_default

/-- `EffectInstance::tiledRenderingFunctor(args, roi, output)`. -/
def tiledRenderingFunctor (e : Effect) (args : RenderArgs) (roi : RectI) (output : Nat) :
    Render Status := do
  setLocalData e args
  let st ← callRender e args._time args._scale roi args._view output
  if st ≠ Status.StatOK then pure st
  else do
    let isAborted ← aborted e
    if !isAborted then markForRendered output roi
    pure Status.StatOK

/-- `QtConcurrent::mapped(splitRects, functor)` followed by `waitForFinished()`:
the results in the order of the sequence. The calls are made one after the
other. -/
def mapped (functor : RectI → Render Status) : List RectI → Render (List Status)
  | [] => pure []
  | r :: rs => do
      let st ← functor r
      let sts ← mapped functor rs
      pure (st :: sts)

/-- The loop of `renderRoI` over `inputsRoi` (lines 400-421). The result is
`true` when the render was found aborted after an input and `renderRoI`
returns `image` at once. -/
def renderRoI_inputs (e : Effect) (time : SequenceTime) (scale : RenderScale) (view : Int)
    (byPassCache : Bool) (image : Nat) : RoIMap → Render Bool
  | [] => pure false
  | it2 :: rest => do
      let inputNb := getInputNumber e it2.1
      if inputNb = -1 then Render.raise (Err.assertion "inputNb != -1")
      else do
        Render.emit (Event.notifyInputNIsRendering e.addr inputNb)
        let _inputImg ← it2.1.renderRoI time scale view it2.2 byPassCache
        Render.emit (Event.notifyInputNIsFinishedRendering e.addr inputNb)
        let isAborted ← aborted e
        if isAborted then do
          removeFromNodeCache image
          removeImageBeingRendered e time view
          pure true
        else renderRoI_inputs e time scale view byPassCache image rest

/-- The `switch (safety)` of `renderRoI` (lines 428-472) for the rectangle
`roi`. -/
def renderRoI_switch (e : Effect) (args : RenderArgs) (roi : RectI) (image : Nat) : Render Unit :=
  match e.renderThreadSafety with
  | RenderSafety.FULLY_SAFE_FRAME => do
      let w ← Render.get
      let splitRects := RectI.splitRectIntoSmallerRect roi w.idealThreadCount
      let ret ← mapped (fun tile => tiledRenderingFunctor e args tile image) splitRects
      if Status.StatFailed ∈ ret then Render.raise (Err.runtime_error "rendering failed")
      else pure ()
  | RenderSafety.INSTANCE_SAFE | RenderSafety.FULLY_SAFE => do
      let st ← callRender e args._time args._scale roi args._view image
      if st ≠ Status.StatOK then Render.raise (Err.runtime_error "rendering failed")
      else do
        let isAborted ← aborted e
        if !isAborted then markForRendered image roi
  | RenderSafety.UNSAFE => do
      Render.emit (Event.lock e.pluginID)
      let st ← callRender e args._time args._scale roi args._view image
      Render.emit (Event.unlock e.pluginID)
      if st ≠ Status.StatOK then Render.raise (Err.runtime_error "rendering failed")
      else do
        let isAborted ← aborted e
        if !isAborted then markForRendered image roi

/-- The loop of `renderRoI` over `rectsToRender` (lines 379-476). The result is
`true` when the render was found aborted after an input and `renderRoI`
returns `image` at once. -/
def renderRoI_rects (e : Effect) (time : SequenceTime) (scale : RenderScale) (view : Int)
    (byPassCache : Bool) (image : Nat) : List RectI → Render Bool
  | [] => pure false
  | it :: rest => do
      let args : RenderArgs := ⟨it, time, scale, view⟩
      setLocalData e args
      let inputsRoi := getRegionOfInterest e time scale it
      let returned ← renderRoI_inputs e time scale view byPassCache image inputsRoi
      if returned then pure true
      else do
        Render.emit (Event.notifyRenderingStarted e.addr)
        renderRoI_switch e args it image
        Render.emit (Event.notifyRenderingEnded e.addr)
        renderRoI_rects e time scale view byPassCache image rest

/-- The image `renderRoI` works on (lines 348-365): the buffer returned by the
cache, or a new buffer when the cache is bypassed. -/
def renderRoI_lookup (key : ImageKey) (scale : RenderScale) (time : SequenceTime)
    (byPassCache : Bool) : Render (Option Nat) := do
  let cached ← if !byPassCache then getImageFromCache key else pure (false, none)
  if !cached.1 && byPassCache then
    match cached.2 with
    | some _ => Render.raise (Err.assertion "!image")
    | none => do
        let image ← newImage key.rod scale time
        pure (some image)
  else pure cached.2

/-- The part of `renderRoI` that renders `image` (lines 366-490). -/
def renderRoI_image (e : Effect) (time : SequenceTime) (scale : RenderScale) (view : Int)
    (renderWindow : RectI) (byPassCache : Bool) (image : Nat) : Render (Option Nat) := do
  addImageBeingRendered e image time view
  let w ← Render.get
  let intersection := renderWindow.intersect (w.image image).getRoD
  let rectsToRender := (w.image image).getRestToRender intersection
  let returned ← renderRoI_rects e time scale view byPassCache image rectsToRender
  if returned then pure (some image)
  else do
    removeImageBeingRendered e time view
    clearExceedingEntriesFromNodeCache
    let isAborted ← aborted e
    if isAborted then removeFromNodeCache image
    pure (some image)

/-- The part of `renderRoI` after the identity test (lines 318-490). -/
def renderRoI_render (e : Effect) (time : SequenceTime) (scale : RenderScale) (view : Int)
    (renderWindow : RectI) (byPassCache : Bool) : Render (Option Nat) :=
  let cost : Int := if e.shouldRenderedDataBePersistent then 1 else 0
  let rod := getRegionOfDefinition e time RectI.empty
  if rod.1 = Status.StatFailed then pure none
  else do
    if e.isReader then Render.emit (Event.setOrAddProjectFormat rod.2)
    let key : ImageKey := ⟨cost, e.hashValue, time, scale, view, rod.2⟩
    let byPassCache := byPassCache || decide (e.getCachePolicy time = CachePolicy.NEVER_CACHE)
    let image ← renderRoI_lookup key scale time byPassCache
    match image with
    | none => Render.raise (Err.undefined_behaviour "image is NULL")
    | some image => renderRoI_image e time scale view renderWindow byPassCache image

/-- `EffectInstance::renderRoI(time, scale, view, renderWindow, byPassCache)`:
the pointer to the image returned (`none` is the null pointer) or the error
raised. -/
def renderRoI (e : Effect) (time : SequenceTime) (scale : RenderScale) (view : Int)
    (renderWindow : RectI) (byPassCache : Bool) : Render (Option Nat) :=
  match e.isIdentity time scale renderWindow view with
  | some (inputTimeIdentity, inputNbIdentity) => do
      let inputImage ← getImage e inputNbIdentity inputTimeIdentity scale view
      match inputImage with
      | none =>
          Render.raise
            (Err.runtime_error "Error in EffectInstance::renderRoI(): getImage(...) returned NULL")
      | some inputImage => pure (some inputImage)
  | none => renderRoI_render e time scale view renderWindow byPassCache

/-- The pointer to an effect of this class, as an input of another effect. -/
def Effect.toRef (e : Effect) : EffectRef :=
  { addr := e.addr
    getRegionOfDefinition := getRegionOfDefinition e
    getFrameRange := getFrameRange e
    renderRoI := renderRoI e }

/-! ## The hash of an effect -/

/-- Modelled from the spec: `Hash64` (declared in `Engine/Hash64.h`), the
accumulator of the "order-sensitive mixing function (e.g., rolling 64-bit
hash)": the values appended since the last `reset`, in order, and the value
computed from them by the last `computeHash`. -/
structure Hash64 where
  node_values : List Nat
  hash : Nat
deriving DecidableEq

namespace Hash64

/-- Modelled from the spec: the mixing function, a rolling hash over 64 bits. -/
def mix (values : List Nat) : Nat :=
  values.foldl (fun acc v => (acc * 1099511628211 + v) % 2 ^ 64) 14695981039346656037

/-- Modelled from the spec: `reset()`, the accumulator before any value. -/
def reset (_h : Hash64) : Hash64 := ⟨[], 0⟩

/-- Modelled from the spec: `append(value)`. -/
def append (h : Hash64) (value : Nat) : Hash64 := { h with node_values := h.node_values ++ [value] }

/-- Modelled from the spec: `computeHash()`, the mix of the values appended. -/
def computeHash (h : Hash64) : Hash64 := { h with hash := mix h.node_values }

/-- Modelled from the spec: `value()`. -/
def value (h : Hash64) : Nat := h.hash

end Hash64

/-- Modelled from the spec: a parameter (`Knob`, declared in `Engine/Knob.h`),
reduced to "a serialization of [its] current parameter values". -/
structure Knob where
  hashVector : List Nat
deriving DecidableEq

/-- Modelled from the spec: `Knob::appendHashVectorToHash(hash)`, which appends
the serialization of the parameter, value after value. -/
def Knob.appendHashVectorToHash (knob : Knob) (hash : Hash64) : Hash64 :=
  knob.hashVector.foldl Hash64.append hash

/-- Modelled from the spec: `::Hash64_appendQString(hash, str)`, which appends
the string, character after character. -/
def Hash64_appendQString (hash : Hash64) (str : String) : Hash64 :=
  str.toList.foldl (fun h c => h.append c.toNat) hash

/-- The hash fields of `EffectInstance::Implementation`. -/
structure HashFields where
  hashValue : Hash64
  hashAge : Int
deriving DecidableEq

/-- The first loop of `computeHash`, `for (U32 i = 0; i < knobs.size(); ++i)`,
from the counter `i` on. The counter has 32 bits and wraps; `none` is a loop
that has not come to its end after `fuel` tests of its condition. -/
def computeHash_knobs (knobs : List Knob) : Nat → Nat → Hash64 → Option Hash64
  | 0, _, _ => none
  | fuel + 1, i, hashValue =>
      if h : i < knobs.length then
        computeHash_knobs knobs fuel ((i + 1) % 2 ^ 32) (knobs[i].appendHashVectorToHash hashValue)
      else some hashValue

/-- The second loop of `computeHash`, `for (U32 i = 0; i < inputsHashs.size();
++i)`, from the counter `i` on, with the same 32-bit counter. -/
def computeHash_inputs (inputsHashs : List Nat) : Nat → Nat → Hash64 → Option Hash64
  | 0, _, _ => none
  | fuel + 1, i, hashValue =>
      if h : i < inputsHashs.length then
        computeHash_inputs inputsHashs fuel ((i + 1) % 2 ^ 32) (hashValue.append inputsHashs[i])
      else some hashValue

/-- `EffectInstance::computeHash(inputsHashs, knobsAge)`, with `getKnobs()` as
the parameter `knobs`: the value returned and the hash fields left, or `none`
when a loop does not terminate (a vector of 2^32 elements or more, which the
32-bit counter never passes). Each loop is given one test more than the
vector has elements. -/
def computeHash (e : Effect) (knobs : List Knob) (inputsHashs : List Nat) (knobsAge : Int)
    (imp : HashFields) : Option (Nat × HashFields) :=
  let imp1 : HashFields := { imp with hashAge := knobsAge }
  let imp2 : HashFields := { imp1 with hashValue := imp1.hashValue.reset }
  match computeHash_knobs knobs (knobs.length + 1) 0 imp2.hashValue with
  | none => none
  | some h3 =>
      match computeHash_inputs inputsHashs (inputsHashs.length + 1) 0 h3 with
      | none => none
      | some h4 =>
          let imp5 : HashFields := { imp2 with hashValue := (Hash64_appendQString h4 e.pluginID).computeHash }
          some (imp5.hashValue.value, imp5)

/-! ## Concrete effects used to evaluate the code -/

/-- An input of another class: its region of definition is `rod` at every time,
its frame range is `[first, last]`, and its `renderRoI` returns a new buffer
over `rod`. -/
def sourceRef (addr : Nat) (rod : RectI) (first last : SequenceTime) : EffectRef :=
  { addr := addr
    getRegionOfDefinition := fun _ _ => (Status.StatOK, rod)
    getFrameRange := (first, last)
    renderRoI := fun time scale _ _ _ => (newImage rod scale time).andThen fun img => pure (some img) }

/-- An input whose region of definition cannot be computed: it leaves the
rectangle as it was, and its `renderRoI` returns the null pointer. -/
def failingRef (addr : Nat) : EffectRef :=
  { addr := addr
    getRegionOfDefinition := fun _ rod => (Status.StatFailed, rod)
    getFrameRange := (INT_MIN, INT_MAX)
    renderRoI := fun _ _ _ _ _ => pure none }

/-- An effect of the base class over the given input slots: neither writer nor
reader, cached, never an identity, whose computation succeeds. -/
def plainEffect (addr : Nat) (inputs : List (Option EffectRef)) : Effect :=
  { addr := addr
    inputs := inputs
    hashValue := 1000 + addr
    pluginID := "Plain"
    isWriter := false
    isReader := false
    getRenderFormat := ⟨0, 0, 1920, 1080⟩
    shouldRenderedDataBePersistent := false
    getCachePolicy := fun _ => CachePolicy.ALWAYS_CACHE
    renderThreadSafety := RenderSafety.FULLY_SAFE
    isIdentity := fun _ _ _ _ => none
    render := fun _ _ _ _ _ _ => (Status.StatOK, false) }

/-- A state with no buffer, an empty cache of ten entries, no render in flight,
no abort flag set, no thread-local render arguments, and two worker threads. -/
def World.init : World := ⟨[], [], 10, [], [], [], 2⟩

/-- A writer of render format (0,0,4,4) without inputs, whose computation
succeeds: an effect of the base class that renders on its own. -/
def writerEffect (addr : Nat) (safety : RenderSafety) : Effect :=
  { plainEffect addr [] with
    isWriter := true
    getRenderFormat := ⟨0, 0, 4, 4⟩
    renderThreadSafety := safety }

/-- An effect that declares itself the identity of its input `inputNb` at the
time `inputTime`, on every request. -/
def identityEffect (addr : Nat) (inputs : List (Option EffectRef)) (inputTime : SequenceTime)
    (inputNb : Int) : Effect :=
  { plainEffect addr inputs with isIdentity := fun _ _ _ _ => some (inputTime, inputNb) }

/-- An input of another class whose region of definition is (0,0,4,4) and whose
`renderRoI` registers a buffer in the cache and returns the null pointer. -/
def nullImageRef (addr : Nat) : EffectRef :=
  { addr := addr
    getRegionOfDefinition := fun _ _ => (Status.StatOK, ⟨0, 0, 4, 4⟩)
    getFrameRange := (1, 10)
    renderRoI := fun time scale view _ _ =>
      (getImageFromCache ⟨0, 77, time, scale, view, ⟨0, 0, 4, 4⟩⟩).andThen fun _ => pure none }

/-- A writer of render format (0,0,4,4) without inputs whose computation
returns the given status on every call. -/
def statusEffect (addr : Nat) (safety : RenderSafety) (st : Status) : Effect :=
  { writerEffect addr safety with render := fun _ _ _ _ _ _ => (st, false) }

/-- An input of another class, of region of definition `rod`, during whose
`renderRoI` the abort flag of the effect at `downstream` is raised. -/
def abortingRef (addr downstream : Nat) (rod : RectI) : EffectRef :=
  { addr := addr
    getRegionOfDefinition := fun _ _ => (Status.StatOK, rod)
    getFrameRange := (1, 10)
    renderRoI := fun time scale _ _ _ =>
      (Render.modify fun w => { w with aborted := downstream :: w.aborted }).andThen fun _ =>
        (newImage rod scale time).andThen fun img => pure (some img) }

/-- The pixel `(x, y)` lies in a sub-region of buffer `image` marked rendered. -/
def World.covered (w : World) (image : Nat) (x y : Int) : Prop :=
  ∃ m ∈ (w.image image).rendered, m.contains x y

/-- From the state `w` to the state `w'`, buffer `image` stays allocated if it
was, and keeps its bounding region and every sub-region marked rendered. -/
def World.keeps (w w' : World) (image : Nat) : Prop :=
  (image < w.images.length → image < w'.images.length) ∧
    (w'.image image).rod = (w.image image).rod ∧
    ∀ m ∈ (w.image image).rendered, m ∈ (w'.image image).rendered

/-- The call is a computation call into a plug-in. -/
def Event.isRender : Event → Bool
  | Event.render _ _ _ _ _ _ _ => true
  | _ => false

/-- A writer of render format (0,0,4,4) without inputs that is never cached. -/
def neverCachedEffect (addr : Nat) : Effect :=
  { writerEffect addr RenderSafety.FULLY_SAFE with getCachePolicy := fun _ => CachePolicy.NEVER_CACHE }

/-- The inputs of `e` leave buffer `image` and the abort flag of `e` alone:
whatever call of `renderRoI` is made on an input in a state where the buffer
is allocated, the buffer stays allocated and keeps its bounding region and its
sub-regions marked rendered, and the abort flag of `e` is not cleared. -/
def Effect.inputsLeave (e : Effect) (image : Nat) : Prop :=
  ∀ inp, some inp ∈ e.inputs → ∀ t s v r b w, image < w.images.length →
    World.keeps w (inp.renderRoI t s v r b w).world image ∧
      (e.addr ∈ w.aborted → e.addr ∈ (inp.renderRoI t s v r b w).world.aborted)

/-- The initial state on a thread that has rendered the rectangle (2,2,4,4)
through the effect at address 1 before: the thread-local render arguments of
that effect hold it. -/
def staleArgsWorld : World :=
  { World.init with renderArgs := [(1, ⟨⟨2, 2, 4, 4⟩, 0, ⟨1, 1⟩, 0⟩)] }

/-- The two regions have no pixel in common. -/
def RectI.disjoint (a b : RectI) : Prop :=
  ∀ x y, ¬ (a.contains x y ∧ b.contains x y)

/-- The call is a computation call into the plug-in of the effect at `node`. -/
def Event.isRenderOf (node : Nat) : Event → Bool
  | Event.render n _ _ _ _ _ _ => decide (n = node)
  | _ => false

/-- The call marks a sub-region of buffer `image` rendered. -/
def Event.isMarkOf (image : Nat) : Event → Bool
  | Event.markForRendered i _ => decide (i = image)
  | _ => false

/-- The regions the specification has `renderRoI` compute for one sub-region
still to render: the sub-region itself and, in the tier `FULLY_SAFE_FRAME`, the
tiles into which `splitRectIntoSmallerRect` cuts it for `threads` threads. -/
def renderRoI_tiles (e : Effect) (threads : Int) (rect : RectI) : List RectI :=
  if e.renderThreadSafety = RenderSafety.FULLY_SAFE_FRAME then
    RectI.splitRectIntoSmallerRect rect threads
  else [rect]

/-- The regions the specification has `renderRoI` compute when it works on
`buffer`: those of the sub-regions that `getRestToRender` returns for the
requested region intersected with the bounding region of the buffer, in
order. -/
def renderRoI_regions (e : Effect) (renderWindow : RectI) (threads : Int) (buffer : Image) :
    List RectI :=
  (buffer.getRestToRender (renderWindow.intersect buffer.getRoD)).flatMap
    (renderRoI_tiles e threads)

/-- The calls the specification has `renderRoI` make for one region: the
computation of the region, returning `StatOK`, then the marking of the region
as rendered in the buffer. -/
def renderRoI_computed (e : Effect) (time : SequenceTime) (scale : RenderScale) (view : Int)
    (image : Nat) (region : RectI) : List Event :=
  [Event.render e.addr time scale region view image Status.StatOK,
    Event.markForRendered image region]

/-- The call is a computation call of the effect at `node` or the marking of a
sub-region of buffer `image`. -/
def Event.isOwn (node image : Nat) (ev : Event) : Bool :=
  Event.isRenderOf node ev || Event.isMarkOf image ev

/-- The step of `renderRoI` that obtains the buffer of a request that is not
an identity (lines 343-365): the lookup with the key and the bypass flag that
`renderRoI` computes. -/
def renderRoI_found (e : Effect) (time : SequenceTime) (scale : RenderScale) (view : Int)
    (byPassCache : Bool) : Render (Option Nat) :=
  renderRoI_lookup
    ⟨if e.shouldRenderedDataBePersistent then 1 else 0, e.hashValue, time, scale, view,
      (getRegionOfDefinition e time RectI.empty).2⟩
    scale time (byPassCache || decide (e.getCachePolicy time = CachePolicy.NEVER_CACHE))

/-- An effect of the tier `FULLY_SAFE_FRAME` that is neither a reader nor a
writer, whose computation succeeds. -/
def frameEffect (addr : Nat) (inputs : List (Option EffectRef)) : Effect :=
  { plainEffect addr inputs with renderThreadSafety := RenderSafety.FULLY_SAFE_FRAME }

/-- A state left by an interrupted render: the cache holds, under the key of
the effect of hash 1001 at time 0, scale 1 and view 0, the buffer 0 over
(0,0,4,4), whose lower half (0,0,4,2) is marked rendered. -/
def halfRenderedWorld : World :=
  { World.init with
    images := [⟨⟨0, 0, 4, 4⟩, ⟨1, 1⟩, 0, [⟨0, 0, 4, 2⟩]⟩]
    nodeCache := [(⟨0, 1001, 0, ⟨1, 1⟩, 0, ⟨0, 0, 4, 4⟩⟩, 0)] }

/-- A frame condition on runs of stateful code: an invariant of the state, a
reflexive and transitive relation between the state before and the state
after, and a property of the collaborator calls made. -/
structure Frame where
  inv : World → Prop
  rel : World → World → Prop
  ev : Event → Prop
  refl : ∀ w, rel w w
  trans : ∀ w1 w2 w3, rel w1 w2 → rel w2 w3 → rel w1 w3

/-- The code `m` respects the frame condition `F`: run from a state that
satisfies the invariant, whether it returns or raises, it leaves a state that
satisfies the invariant and is related to the first, it makes only calls with
the property, and a value it returns satisfies `V`. -/
def Render.respects (F : Frame) {α : Type} (V : α → Prop) (m : Render α) : Prop :=
  ∀ w, F.inv w →
    F.inv (m w).world ∧ F.rel w (m w).world ∧ (∀ ev ∈ (m w).events, F.ev ev) ∧
      ∀ a, (m w).val = Except.ok a → V a

/-- The frame condition `F` holds of the steps of the `switch` of `renderRoI`
for the effect `x` working on buffer `img`. -/
structure Frame.ToleratesSwitch (F : Frame) (x : Effect) (img : Nat) : Prop where
  setLocalData : ∀ args, Render.respects F (fun _ => True) (setLocalData x args)
  callRender : ∀ t s roi v, Render.respects F (fun _ => True) (callRender x t s roi v img)
  markForRendered : ∀ roi, Render.respects F (fun _ => True) (markForRendered img roi)
  lock : F.ev (Event.lock x.pluginID)
  unlock : F.ev (Event.unlock x.pluginID)

/-- The frame condition `F` holds of the steps of the loop of `renderRoI` over
the inputs, apart from the calls of `renderRoI` on the inputs, for the effect
`x` working on buffer `img`. -/
structure Frame.ToleratesInputs (F : Frame) (x : Effect) (img : Nat) : Prop where
  notifyInputNIsRendering : ∀ n, F.ev (Event.notifyInputNIsRendering x.addr n)
  notifyInputNIsFinishedRendering : ∀ n, F.ev (Event.notifyInputNIsFinishedRendering x.addr n)
  removeFromNodeCache : Render.respects F (fun _ => True) (removeFromNodeCache img)
  removeImageBeingRendered :
    ∀ t v, Render.respects F (fun _ => True) (removeImageBeingRendered x t v)

/-- The frame condition `F` holds of every step that `renderRoI` makes for the
effect `x` on buffer `img` once it has the buffer, apart from the calls of
`renderRoI` on the inputs. -/
structure Frame.Tolerates (F : Frame) (x : Effect) (img : Nat) : Prop where
  switch : F.ToleratesSwitch x img
  inputs : F.ToleratesInputs x img
  notifyRenderingStarted : F.ev (Event.notifyRenderingStarted x.addr)
  notifyRenderingEnded : F.ev (Event.notifyRenderingEnded x.addr)
  addImageBeingRendered :
    ∀ t v, Render.respects F (fun _ => True) (addImageBeingRendered x img t v)
  clearExceedingEntriesFromNodeCache :
    Render.respects F (fun _ => True) clearExceedingEntriesFromNodeCache

/-- The key `renderRoI` makes for the buffer of a request (line 343):
`Image::makeKey(cost, hashValue, time, scale, view, rod)`, the region being
the one `getRegionOfDefinition` leaves in an empty rectangle. -/
def renderRoI_key (e : Effect) (time : SequenceTime) (scale : RenderScale) (view : Int) :
    ImageKey :=
  ⟨if e.shouldRenderedDataBePersistent then 1 else 0, e.hashValue, time, scale, view,
    (getRegionOfDefinition e time RectI.empty).2⟩

/-- In the state `w`, buffer `image` is allocated and the cache holds it under
no key but `key`. -/
def World.owns (w : World) (key : ImageKey) (image : Nat) : Prop :=
  image < w.images.length ∧ ∀ q ∈ w.nodeCache, q.2 = image → q.1 = key

/-- The input `inp` leaves buffer `image` and the abort flag of the effect at
`node` alone: a call of its `renderRoI` made in a state where the buffer is
allocated keeps the buffer allocated, with its bounding region and its
sub-regions marked rendered, and does not clear the abort flag. -/
def EffectRef.leaves (inp : EffectRef) (node image : Nat) : Prop :=
  ∀ t s v r b w, image < w.images.length →
    World.keeps w (inp.renderRoI t s v r b w).world image ∧
      (node ∈ w.aborted → node ∈ (inp.renderRoI t s v r b w).world.aborted)

/-- The input `inp` is another node working on other buffers than the effect
at `node` that renders buffer `image` under `key`: a call of its `renderRoI`
made in a state where buffer `image` is allocated and cached under no other
key leaves such a state, leaves the ideal thread count as it is, calls no
computation of the effect at `node` and marks no sub-region of buffer
`image`. -/
def EffectRef.apart (inp : EffectRef) (node : Nat) (key : ImageKey) (image : Nat) : Prop :=
  ∀ t s v r b w, w.owns key image →
    (inp.renderRoI t s v r b w).world.owns key image ∧
      (inp.renderRoI t s v r b w).world.idealThreadCount = w.idealThreadCount ∧
      ∀ ev ∈ (inp.renderRoI t s v r b w).events, Event.isOwn node image ev = false

/-- The inputs of `e` are other nodes working on other buffers than `e`, which
renders buffer `image` under `key`. -/
def Effect.inputsApart (e : Effect) (key : ImageKey) (image : Nat) : Prop :=
  ∀ inp, some inp ∈ e.inputs → inp.apart e.addr key image

/-- The frame condition "buffer `image` stays allocated and keeps its bounding
region and its marks, and the abort flag of the effect at `node` is not
cleared". -/
def leavesFrame (node image : Nat) : Frame :=
  { inv := fun w => image < w.images.length
    rel := fun w w' =>
      World.keeps w w' image ∧ (node ∈ w.aborted → node ∈ w'.aborted)
    ev := fun _ => True
    refl := fun _ => ⟨⟨id, rfl, fun _ hm => hm⟩, id⟩
    trans := fun _ _ _ h12 h23 =>
      ⟨⟨fun h => h23.1.1 (h12.1.1 h), h23.1.2.1.trans h12.1.2.1,
          fun m hm => h23.1.2.2 m (h12.1.2.2 m hm)⟩,
        fun h => h23.2 (h12.2 h)⟩ }

/-- The frame condition "buffer `image` stays allocated and cached under no
key but `key`, the ideal thread count stays as it is, and every call made has
the property `P`". -/
def ownsFrame (key : ImageKey) (image : Nat) (P : Event → Prop) : Frame :=
  { inv := fun w => w.owns key image
    rel := fun w w' => w'.idealThreadCount = w.idealThreadCount
    ev := P
    refl := fun _ => rfl
    trans := fun _ _ _ h12 h23 => h23.trans h12 }

/-- The calls of one computation made from the state `c.2` on the region
`c.1`, as the specification has them: the computation call with the status it
returns, followed by the mark of the region in the buffer exactly when the
status is `StatOK` and the abort flag of the effect is unset in the state the
computation leaves. -/
def renderRoI_step (e : Effect) (time : SequenceTime) (scale : RenderScale) (view : Int)
    (image : Nat) (c : RectI × World) : List Event :=
  Event.render e.addr time scale c.1 view image (e.render time scale c.1 view image c.2).1 ::
    (if (e.render time scale c.1 view image c.2).1 = Status.StatOK ∧
        e.addr ∉ (callRender e time scale c.1 view image c.2).world.aborted then
      [Event.markForRendered image c.1]
    else [])

/-- The buffer a request of `e` works on, read in the state `w` in which the
request is made: buffer `image` of that state when it is allocated there (a
cache hit), else a new buffer over the region of definition of `e` with nothing
marked rendered (a cache miss, or the cache bypassed). -/
def renderRoI_buffer (e : Effect) (time : SequenceTime) (scale : RenderScale) (w : World)
    (image : Nat) : Image :=
  if image < w.images.length then w.image image
  else Image.new (getRegionOfDefinition e time RectI.empty).2 scale time

/-- Over unconnected slots the loop of `getRegionOfDefinition` leaves the
rectangle as it is. -/
theorem getRegionOfDefinition_loop_unconnected (time : SequenceTime) (inputs : List (Option EffectRef))
    (h : inputs.all (fun slot => slot.isNone) = true) :
    ∀ (atBegin : Bool) (rod : RectI),
      getRegionOfDefinition_loop time atBegin inputs rod = (Status.StatReplyDefault, rod) := by
  induction inputs with
  | nil => intro atBegin rod; rfl
  | cons slot rest ih =>
      intro atBegin rod
      cases slot with
      | none =>
          simp only [getRegionOfDefinition_loop]
          exact ih (by simpa using h) _ _
      | some inp => simp at h

/-- When slot 0 is connected and its input succeeds, the rectangle the caller
passed is overwritten: the result does not depend on it. -/
theorem getRegionOfDefinition_seeded (e : Effect) (time : SequenceTime) (inp : EffectRef)
    (rest : List (Option EffectRef)) (hin : e.inputs = some inp :: rest)
    (hok : (inp.getRegionOfDefinition time RectI.empty).1 ≠ Status.StatFailed) (rod rod' : RectI) :
    getRegionOfDefinition e time rod = getRegionOfDefinition e time rod' := by
  unfold getRegionOfDefinition
  cases e.isWriter with
  | true => rfl
  | false => simp [hin, getRegionOfDefinition_loop, hok]

/-- C4 (the code at the failing input): with slot 0 unconnected and slot 1
bound to an input whose region of definition is (10,10,20,20), a call made on a
rectangle holding (0,0,100,100) succeeds and leaves (0,0,100,100), and a call
made on a rectangle holding (5,5,30,30) leaves (5,5,30,30): the first connected
input does not seed the result, which is not the region of the only connected
input and depends on what the rectangle held. -/
theorem C4_first_connected_input_beyond_slot_0_does_not_seed :
    getRegionOfDefinition (plainEffect 1 [none, some (sourceRef 2 ⟨10, 10, 20, 20⟩ 1 10)]) 0
        ⟨0, 0, 100, 100⟩ = (Status.StatReplyDefault, ⟨0, 0, 100, 100⟩) ∧
    getRegionOfDefinition (plainEffect 1 [none, some (sourceRef 2 ⟨10, 10, 20, 20⟩ 1 10)]) 0
        ⟨5, 5, 30, 30⟩ = (Status.StatReplyDefault, ⟨5, 5, 30, 30⟩) ∧
    (sourceRef 2 ⟨10, 10, 20, 20⟩ 1 10).getRegionOfDefinition 0 RectI.empty
        = (Status.StatOK, ⟨10, 10, 20, 20⟩) := by
  decide

/-- Once past slot 0, the loop of `getFrameRange` keeps the whole `int` range
whatever the inputs report within that range. -/
theorem getFrameRange_loop_unbounded (inputs : List (Option EffectRef))
    (h : ∀ inp, some inp ∈ inputs → INT_MIN ≤ inp.getFrameRange.1 ∧ inp.getFrameRange.2 ≤ INT_MAX) :
    getFrameRange_loop false inputs (INT_MIN, INT_MAX) = (INT_MIN, INT_MAX) := by
  induction inputs with
  | nil => rfl
  | cons slot rest ih =>
      have hrest : ∀ inp, some inp ∈ rest →
          INT_MIN ≤ inp.getFrameRange.1 ∧ inp.getFrameRange.2 ≤ INT_MAX :=
        fun inp hi => h inp (List.mem_cons_of_mem _ hi)
      cases slot with
      | none => simpa only [getFrameRange_loop] using ih hrest
      | some inp =>
          have h0 := h inp (by simp)
          have h1 : ¬ inp.getFrameRange.1 < INT_MIN := not_lt.mpr h0.1
          have h2 : ¬ inp.getFrameRange.2 > INT_MAX := not_lt.mpr h0.2
          simp only [getFrameRange_loop, Bool.false_eq_true, if_false, h1, h2]
          exact ih hrest

/-- C5 (the code on the failing inputs): whenever slot 0 is unconnected,
`getFrameRange` returns [INT_MIN, INT_MAX], whatever frame ranges (of `int`
values) the connected inputs of the later slots report. -/
theorem C5_getFrameRange_slot_0_unconnected (e : Effect) (rest : List (Option EffectRef))
    (hin : e.inputs = none :: rest)
    (hint : ∀ inp, some inp ∈ rest → INT_MIN ≤ inp.getFrameRange.1 ∧ inp.getFrameRange.2 ≤ INT_MAX) :
    getFrameRange e = (INT_MIN, INT_MAX) := by
  unfold getFrameRange
  rw [hin]
  simpa only [getFrameRange_loop] using getFrameRange_loop_unbounded rest hint

/-- C5, at the failing input: slot 0 unconnected, slot 1 bound to an input of
frame range [1, 10]; the result is [INT_MIN, INT_MAX], not [1, 10]. -/
theorem C5_getFrameRange_slot_0_unconnected_witness :
    (plainEffect 1 [none, some (sourceRef 2 ⟨0, 0, 4, 4⟩ 1 10)]).inputs
        = none :: [some (sourceRef 2 ⟨0, 0, 4, 4⟩ 1 10)] ∧
      (∀ inp, some inp ∈ [some (sourceRef 2 ⟨0, 0, 4, 4⟩ 1 10)] →
        INT_MIN ≤ inp.getFrameRange.1 ∧ inp.getFrameRange.2 ≤ INT_MAX) ∧
      getFrameRange (plainEffect 1 [none, some (sourceRef 2 ⟨0, 0, 4, 4⟩ 1 10)])
        = (INT_MIN, INT_MAX) ∧
      (INT_MIN, INT_MAX) ≠ ((1 : Int), (10 : Int)) :=
  have hint : ∀ inp, some inp ∈ [some (sourceRef 2 ⟨0, 0, 4, 4⟩ 1 10)] →
      INT_MIN ≤ inp.getFrameRange.1 ∧ inp.getFrameRange.2 ≤ INT_MAX := by
    intro inp hi
    have : inp = sourceRef 2 ⟨0, 0, 4, 4⟩ 1 10 := by simpa using hi
    subst this
    decide
  ⟨rfl, hint,
    C5_getFrameRange_slot_0_unconnected (plainEffect 1 [none, some (sourceRef 2 ⟨0, 0, 4, 4⟩ 1 10)])
      [some (sourceRef 2 ⟨0, 0, 4, 4⟩ 1 10)] rfl hint,
    by decide⟩

/-- C6 (counterexample): an effect that is not a writer and has no input slot,
of render format (0,0,1920,1080), called on an empty rectangle, succeeds and
leaves the rectangle empty: the output region is not set to the format. -/
theorem C6_counterexample_non_writer_keeps_caller_rectangle :
    (plainEffect 1 []).inputs = [] ∧
      getRegionOfDefinition (plainEffect 1 []) 0 RectI.empty
        = (Status.StatReplyDefault, RectI.empty) ∧
      (getRegionOfDefinition (plainEffect 1 []) 0 RectI.empty).2
        ≠ (plainEffect 1 []).getRenderFormat :=
  ⟨rfl, by decide, by decide⟩

/-- C6 (amended): an effect none of whose slots is connected succeeds with
`StatReplyDefault`; a writer gets its render format in the output region, any
other effect leaves the output region as the caller passed it. -/
theorem C6_getRegionOfDefinition_no_connected_input (e : Effect) (time : SequenceTime) (rod : RectI)
    (h : e.inputs.all (fun slot => slot.isNone) = true) :
    getRegionOfDefinition e time rod =
      (Status.StatReplyDefault, if e.isWriter then e.getRenderFormat else rod) := by
  unfold getRegionOfDefinition
  cases e.isWriter with
  | true => rfl
  | false => simpa using getRegionOfDefinition_loop_unconnected time e.inputs h true rod

/-- C6 (amended), at an effect with two unconnected slots and a rectangle
holding (1,2,3,4). -/
theorem C6_getRegionOfDefinition_no_connected_input_witness :
    (plainEffect 1 [none, none]).inputs.all (fun slot => slot.isNone) = true ∧
      getRegionOfDefinition (plainEffect 1 [none, none]) 5 ⟨1, 2, 3, 4⟩ =
        (Status.StatReplyDefault,
          if (plainEffect 1 [none, none]).isWriter then (plainEffect 1 [none, none]).getRenderFormat
          else ⟨1, 2, 3, 4⟩) :=
  ⟨rfl, C6_getRegionOfDefinition_no_connected_input (plainEffect 1 [none, none]) 5 ⟨1, 2, 3, 4⟩ rfl⟩

/-- Running `pure`. -/
@[simp]
theorem Render.pure_run {α : Type} (a : α) (w : World) :
    (pure a : Render α) w = ⟨Except.ok a, w, []⟩ := rfl

/-- Running a sequence. -/
theorem Render.bind_run {α β : Type} (m : Render α) (f : α → Render β) (w : World) :
    (m >>= f) w = Render.andThen m f w := rfl

/-- Calls made earlier do not change the value. -/
@[simp]
theorem Res.prepend_val {α : Type} (evs : List Event) (r : Res α) :
    (r.prepend evs).val = r.val := rfl

/-- Calls made earlier do not change the state left. -/
@[simp]
theorem Res.prepend_world {α : Type} (evs : List Event) (r : Res α) :
    (r.prepend evs).world = r.world := rfl

/-- Calls made earlier come first. -/
@[simp]
theorem Res.prepend_events {α : Type} (evs : List Event) (r : Res α) :
    (r.prepend evs).events = evs ++ r.events := rfl

/-- No earlier call. -/
@[simp]
theorem Res.prepend_nil {α : Type} (r : Res α) : r.prepend [] = r := rfl

/-- Sequencing after a part that returns. -/
theorem Render.bind_ok {α β : Type} (m : Render α) (f : α → Render β) (w : World) (a : α)
    (h : (m w).val = Except.ok a) :
    (m >>= f) w = (f a (m w).world).prepend (m w).events := by
  simp only [Render.bind_run, Render.andThen, h]

/-- Sequencing after a part that raises. -/
theorem Render.bind_error {α β : Type} (m : Render α) (f : α → Render β) (w : World) (err : Err)
    (h : (m w).val = Except.error err) :
    (m >>= f) w = ⟨Except.error err, (m w).world, (m w).events⟩ := by
  simp only [Render.bind_run, Render.andThen, h]

/-- Running a sequence that starts with `pure`. -/
@[simp]
theorem Render.pure_bind_run {α β : Type} (a : α) (f : α → Render β) (w : World) :
    (pure a >>= f) w = f a w := rfl

/-- Running a sequence that starts by raising. -/
@[simp]
theorem Render.raise_bind_run {α β : Type} (err : Err) (f : α → Render β) (w : World) :
    (Render.raise err >>= f) w = ⟨Except.error err, w, []⟩ := rfl

/-- Running a sequence that starts by reading the state. -/
@[simp]
theorem Render.get_bind_run {β : Type} (f : World → Render β) (w : World) :
    (Render.get >>= f) w = f w w := rfl

/-- Running a sequence that starts with a recorded call. -/
@[simp]
theorem Render.emit_bind_run {β : Type} (ev : Event) (f : Unit → Render β) (w : World) :
    (Render.emit ev >>= f) w = (f () w).prepend [ev] := rfl

/-- Running a sequence that starts by reading the abort flag. -/
@[simp]
theorem aborted_bind_run {β : Type} (e : Effect) (f : Bool → Render β) (w : World) :
    (aborted e >>= f) w = f (decide (e.addr ∈ w.aborted)) w := rfl

/-- Running a sequence that starts by storing the render arguments. -/
@[simp]
theorem setLocalData_bind_run {β : Type} (e : Effect) (args : RenderArgs) (f : Unit → Render β)
    (w : World) :
    (setLocalData e args >>= f) w = f () (setLocalData e args w).world := rfl

/-- Running a sequence that starts by removing a buffer from the cache. -/
@[simp]
theorem removeFromNodeCache_bind_run {β : Type} (image : Nat) (f : Unit → Render β) (w : World) :
    (removeFromNodeCache image >>= f) w =
      (f () (removeFromNodeCache image w).world).prepend [Event.removeFromNodeCache image] := rfl

/-- Running a sequence that starts by deregistering the buffer. -/
@[simp]
theorem removeImageBeingRendered_bind_run {β : Type} (e : Effect) (time : SequenceTime) (view : Int)
    (f : Unit → Render β) (w : World) :
    (removeImageBeingRendered e time view >>= f) w =
      (f () (removeImageBeingRendered e time view w).world).prepend
        [Event.removeImageBeingRendered e.addr time view] := rfl

/-- Running a sequence that starts by registering the buffer. -/
@[simp]
theorem addImageBeingRendered_bind_run {β : Type} (e : Effect) (image : Nat) (time : SequenceTime)
    (view : Int) (f : Unit → Render β) (w : World) :
    (addImageBeingRendered e image time view >>= f) w =
      (f () (addImageBeingRendered e image time view w).world).prepend
        [Event.addImageBeingRendered e.addr image time view] := rfl

/-- Running a sequence that starts with the eviction request. -/
@[simp]
theorem clearExceedingEntriesFromNodeCache_bind_run {β : Type} (f : Unit → Render β) (w : World) :
    (clearExceedingEntriesFromNodeCache >>= f) w =
      (f () (clearExceedingEntriesFromNodeCache w).world).prepend
        [Event.clearExceedingEntriesFromNodeCache] := rfl

/-- Running a sequence that starts by marking a region rendered. -/
@[simp]
theorem markForRendered_bind_run {β : Type} (image : Nat) (roi : RectI) (f : Unit → Render β)
    (w : World) :
    (markForRendered image roi >>= f) w =
      (f () (markForRendered image roi w).world).prepend [Event.markForRendered image roi] := rfl

/-- Running a sequence that starts with a computation call. -/
@[simp]
theorem callRender_bind_run {β : Type} (e : Effect) (time : SequenceTime) (scale : RenderScale)
    (roi : RectI) (view : Int) (image : Nat) (f : Status → Render β) (w : World) :
    (callRender e time scale roi view image >>= f) w =
      (f (e.render time scale roi view image w).1
          (callRender e time scale roi view image w).world).prepend
        [Event.render e.addr time scale roi view image (e.render time scale roi view image w).1] :=
  rfl

/-! ## `renderRoI`: identity and failure of the region of definition -/

/-- C10: on a request that is not an identity and whose region of definition
fails, `renderRoI` returns the null image without raising, leaves the state
as it was and makes no call to the cache, the registry, an input or the
plug-in. -/
theorem C10_renderRoI_region_of_definition_failed (e : Effect) (time : SequenceTime)
    (scale : RenderScale) (view : Int) (renderWindow : RectI) (byPassCache : Bool) (w : World)
    (hid : e.isIdentity time scale renderWindow view = none)
    (hfail : (getRegionOfDefinition e time RectI.empty).1 = Status.StatFailed) :
    renderRoI e time scale view renderWindow byPassCache w = ⟨Except.ok none, w, []⟩ := by
  simp only [renderRoI, hid, renderRoI_render, hfail, if_true]
  rfl

/-- C10, at an effect whose only input fails to compute its region. -/
theorem C10_renderRoI_region_of_definition_failed_witness :
    (plainEffect 1 [some (failingRef 2)]).isIdentity 0 ⟨1, 1⟩ ⟨0, 0, 4, 4⟩ 0 = none ∧
      (getRegionOfDefinition (plainEffect 1 [some (failingRef 2)]) 0 RectI.empty).1
        = Status.StatFailed ∧
      renderRoI (plainEffect 1 [some (failingRef 2)]) 0 ⟨1, 1⟩ 0 ⟨0, 0, 4, 4⟩ false World.init
        = ⟨Except.ok none, World.init, []⟩ :=
  ⟨rfl, rfl,
    C10_renderRoI_region_of_definition_failed (plainEffect 1 [some (failingRef 2)]) 0 ⟨1, 1⟩ 0
      ⟨0, 0, 4, 4⟩ false World.init rfl rfl⟩

/-- On a slot that holds no input, `getImage` returns the null pointer and
leaves the state as it was. -/
theorem getImage_unconnected (e : Effect) (inputNb : Int) (time : SequenceTime) (scale : RenderScale)
    (view : Int) (w : World) (hin : input e inputNb = Except.ok none) :
    getImage e inputNb time scale view w = ⟨Except.ok none, w, []⟩ := by
  simp only [getImage, hin]
  rfl

/-- What `getImage` does on a connected input: it calls the input's
`renderRoI` on the region of the thread-local render arguments, or on the
input's region of definition when the thread has none. -/
theorem getImage_connected (e : Effect) (inputNb : Int) (time : SequenceTime) (scale : RenderScale)
    (view : Int) (w : World) (n : EffectRef) (hin : input e inputNb = Except.ok (some n))
    (hrod : w.renderArgs.lookup e.addr = none →
      (n.getRegionOfDefinition time RectI.empty).1 ≠ Status.StatFailed) :
    getImage e inputNb time scale view w =
      n.renderRoI time scale view
        (match w.renderArgs.lookup e.addr with
          | some args => args._roi
          | none => (n.getRegionOfDefinition time RectI.empty).2)
        byPassCache_default w := by
  simp only [getImage, hin, Render.bind_run, Render.andThen, getImage_roi]
  cases hl : w.renderArgs.lookup e.addr with
  | some args => simp [Res.prepend_nil]
  | none => simp [hrod hl, Res.prepend_nil]

/-- C1 (amended): on a request declared the identity of input `K` at time `t'`,
when input `K` yields an image, `renderRoI` returns exactly what input `K`'s
`renderRoI` returns and does at `(t', scale, view)`, without cache bypass, on
the region `R`: the region of the thread-local render arguments of the effect
when the calling thread has some, otherwise input `K`'s region of definition
at `t'`. The state left and the calls made are those of the input's render
alone: the identity node makes no cache lookup, no registration and no
computation call of its own. -/
theorem C1_renderRoI_identity_forwards_to_input (e : Effect) (time : SequenceTime)
    (scale : RenderScale) (view : Int) (renderWindow : RectI) (byPassCache : Bool) (w : World)
    (inputTime : SequenceTime) (inputNb : Int) (n : EffectRef) (img : Nat)
    (hid : e.isIdentity time scale renderWindow view = some (inputTime, inputNb))
    (hin : input e inputNb = Except.ok (some n))
    (hrod : w.renderArgs.lookup e.addr = none →
      (n.getRegionOfDefinition inputTime RectI.empty).1 ≠ Status.StatFailed)
    (himg : (n.renderRoI inputTime scale view
        (match w.renderArgs.lookup e.addr with
          | some args => args._roi
          | none => (n.getRegionOfDefinition inputTime RectI.empty).2)
        byPassCache_default w).val = Except.ok (some img)) :
    renderRoI e time scale view renderWindow byPassCache w =
      n.renderRoI inputTime scale view
        (match w.renderArgs.lookup e.addr with
          | some args => args._roi
          | none => (n.getRegionOfDefinition inputTime RectI.empty).2)
        byPassCache_default w := by
  have hget := getImage_connected e inputNb inputTime scale view w n hin hrod
  generalize n.renderRoI inputTime scale view
        (match w.renderArgs.lookup e.addr with
          | some args => args._roi
          | none => (n.getRegionOfDefinition inputTime RectI.empty).2)
        byPassCache_default w = r at hget himg
  obtain ⟨v, w1, ev1⟩ := r
  simp only at himg
  subst himg
  simp only [renderRoI, hid, Render.bind_run, Render.andThen, hget, Render.pure_run,
    List.append_nil, Render.ret, Res.prepend]

/-- C1 (counterexample): an identity of its input 0 at time 5, the input being
a writer of region of definition (0,0,4,4), is asked the region (0,0,2,2).
On a thread without render arguments the input yields an image, but the
result is not that of the input's `renderRoI` at (5, scale, view, (0,0,2,2)),
with or without cache bypass: the input is computed over (0,0,4,4), and the
buffer returned has (0,0,4,4) rendered where the direct request renders
(0,0,2,2). On a thread whose render arguments for the effect hold (2,2,4,4),
the buffer returned has (2,2,4,4) rendered and not the requested region. -/
theorem C1_counterexample_identity_does_not_forward_requested_region :
    (identityEffect 1 [some (writerEffect 2 RenderSafety.FULLY_SAFE).toRef] 5 0).isIdentity
        0 ⟨1, 1⟩ ⟨0, 0, 2, 2⟩ 0 = some (5, 0) ∧
      (renderRoI (identityEffect 1 [some (writerEffect 2 RenderSafety.FULLY_SAFE).toRef] 5 0)
        0 ⟨1, 1⟩ 0 ⟨0, 0, 2, 2⟩ false World.init).val = Except.ok (some 0) ∧
      renderRoI (identityEffect 1 [some (writerEffect 2 RenderSafety.FULLY_SAFE).toRef] 5 0)
          0 ⟨1, 1⟩ 0 ⟨0, 0, 2, 2⟩ false World.init
        ≠ (writerEffect 2 RenderSafety.FULLY_SAFE).toRef.renderRoI 5 ⟨1, 1⟩ 0 ⟨0, 0, 2, 2⟩ false
            World.init ∧
      renderRoI (identityEffect 1 [some (writerEffect 2 RenderSafety.FULLY_SAFE).toRef] 5 0)
          0 ⟨1, 1⟩ 0 ⟨0, 0, 2, 2⟩ false World.init
        ≠ (writerEffect 2 RenderSafety.FULLY_SAFE).toRef.renderRoI 5 ⟨1, 1⟩ 0 ⟨0, 0, 2, 2⟩ true
            World.init ∧
      (renderRoI (identityEffect 1 [some (writerEffect 2 RenderSafety.FULLY_SAFE).toRef] 5 0)
          0 ⟨1, 1⟩ 0 ⟨0, 0, 2, 2⟩ false World.init).events.filter Event.isRender
        = [Event.render 2 5 ⟨1, 1⟩ ⟨0, 0, 4, 4⟩ 0 0 Status.StatOK] ∧
      ((renderRoI (identityEffect 1 [some (writerEffect 2 RenderSafety.FULLY_SAFE).toRef] 5 0)
          0 ⟨1, 1⟩ 0 ⟨0, 0, 2, 2⟩ false World.init).world.image 0).rendered = [⟨0, 0, 4, 4⟩] ∧
      (((writerEffect 2 RenderSafety.FULLY_SAFE).toRef.renderRoI 5 ⟨1, 1⟩ 0 ⟨0, 0, 2, 2⟩ false
          World.init).world.image 0).rendered = [⟨0, 0, 2, 2⟩] ∧
      (renderRoI (identityEffect 1 [some (writerEffect 2 RenderSafety.FULLY_SAFE).toRef] 5 0)
        0 ⟨1, 1⟩ 0 ⟨0, 0, 2, 2⟩ false staleArgsWorld).val = Except.ok (some 0) ∧
      ((renderRoI (identityEffect 1 [some (writerEffect 2 RenderSafety.FULLY_SAFE).toRef] 5 0)
        0 ⟨1, 1⟩ 0 ⟨0, 0, 2, 2⟩ false staleArgsWorld).world.image 0).rendered
        = [⟨2, 2, 4, 4⟩] := by
  decide

/-- C1 (amended), at the identity of the counterexample. -/
theorem C1_renderRoI_identity_forwards_to_input_witness :
    (identityEffect 1 [some (writerEffect 2 RenderSafety.FULLY_SAFE).toRef] 5 0).isIdentity
        0 ⟨1, 1⟩ ⟨0, 0, 2, 2⟩ 0 = some (5, 0) ∧
      renderRoI (identityEffect 1 [some (writerEffect 2 RenderSafety.FULLY_SAFE).toRef] 5 0)
          0 ⟨1, 1⟩ 0 ⟨0, 0, 2, 2⟩ false World.init
        = (writerEffect 2 RenderSafety.FULLY_SAFE).toRef.renderRoI 5 ⟨1, 1⟩ 0 ⟨0, 0, 4, 4⟩
            byPassCache_default World.init :=
  ⟨rfl,
    C1_renderRoI_identity_forwards_to_input
      (identityEffect 1 [some (writerEffect 2 RenderSafety.FULLY_SAFE).toRef] 5 0)
      0 ⟨1, 1⟩ 0 ⟨0, 0, 2, 2⟩ false World.init 5 0
      (writerEffect 2 RenderSafety.FULLY_SAFE).toRef 0 rfl rfl (fun _ => by decide) (by decide)⟩

/-- For a slot number that is not negative, `input` is the content of the
slot, and `NULL` past the last slot. -/
theorem input_of_nonneg (e : Effect) (n : Int) (hn : 0 ≤ n) :
    input e n = Except.ok (e.inputs.getD n.toNat none) := by
  unfold input
  by_cases h : n < (e.inputs.length : Int)
  · simp [h, not_lt.mpr hn]
  · have hlen : e.inputs.length ≤ n.toNat := by omega
    simp [h, List.getElem?_eq_none hlen]

/-- C9: on a request declared the identity of input `K ≥ 0` at time `t'`:
when slot `K` is unconnected or beyond the last slot, `renderRoI` raises a
`runtime_error`, leaves the state as it was and makes no call; when the input
is connected and its `renderRoI` returns the null pointer, `renderRoI` raises
a `runtime_error`, and the state left and the calls made are those of the
input's render alone; when the input's region of definition has to be computed
and fails, the assertion of `getImage` fails before any call. In no case does
the identity node return an image, query the cache or register a buffer. -/
theorem C9_renderRoI_identity_without_image (e : Effect) (time : SequenceTime)
    (scale : RenderScale) (view : Int) (renderWindow : RectI) (byPassCache : Bool) (w : World)
    (inputTime : SequenceTime) (inputNb : Int)
    (hid : e.isIdentity time scale renderWindow view = some (inputTime, inputNb))
    (hnb : 0 ≤ inputNb) :
    (e.inputs.getD inputNb.toNat none = none →
      renderRoI e time scale view renderWindow byPassCache w =
        ⟨Except.error
          (Err.runtime_error "Error in EffectInstance::renderRoI(): getImage(...) returned NULL"),
          w, []⟩) ∧
    (∀ n, e.inputs.getD inputNb.toNat none = some n →
      (w.renderArgs.lookup e.addr = none →
        (n.getRegionOfDefinition inputTime RectI.empty).1 ≠ Status.StatFailed) →
      (n.renderRoI inputTime scale view
        (match w.renderArgs.lookup e.addr with
          | some args => args._roi
          | none => (n.getRegionOfDefinition inputTime RectI.empty).2)
        byPassCache_default w).val = Except.ok none →
      renderRoI e time scale view renderWindow byPassCache w =
        ⟨Except.error
          (Err.runtime_error "Error in EffectInstance::renderRoI(): getImage(...) returned NULL"),
          (n.renderRoI inputTime scale view
            (match w.renderArgs.lookup e.addr with
              | some args => args._roi
              | none => (n.getRegionOfDefinition inputTime RectI.empty).2)
            byPassCache_default w).world,
          (n.renderRoI inputTime scale view
            (match w.renderArgs.lookup e.addr with
              | some args => args._roi
              | none => (n.getRegionOfDefinition inputTime RectI.empty).2)
            byPassCache_default w).events⟩) ∧
    (∀ n, e.inputs.getD inputNb.toNat none = some n →
      w.renderArgs.lookup e.addr = none →
      (n.getRegionOfDefinition inputTime RectI.empty).1 = Status.StatFailed →
      renderRoI e time scale view renderWindow byPassCache w =
        ⟨Except.error (Err.assertion "stat != Natron::StatFailed"), w, []⟩) := by
  have hinput := input_of_nonneg e inputNb hnb
  refine ⟨fun hslot => ?_, fun n hslot hrod hnull => ?_, fun n hslot hargs hfail => ?_⟩
  · rw [hslot] at hinput
    have hget := getImage_unconnected e inputNb inputTime scale view w hinput
    simp only [renderRoI, hid, Render.bind_run, Render.andThen, hget, Render.raise,
      List.append_nil, Res.prepend]
  · rw [hslot] at hinput
    have hget := getImage_connected e inputNb inputTime scale view w n hinput hrod
    generalize n.renderRoI inputTime scale view
          (match w.renderArgs.lookup e.addr with
            | some args => args._roi
            | none => (n.getRegionOfDefinition inputTime RectI.empty).2)
          byPassCache_default w = r at hget hnull
    obtain ⟨v, w1, ev1⟩ := r
    simp only at hnull
    subst hnull
    simp only [renderRoI, hid, Render.bind_run, Render.andThen, hget, Render.raise,
      List.append_nil, Res.prepend]
  · rw [hslot] at hinput
    simp only [renderRoI, hid, Render.bind_run, Render.andThen, getImage, hinput, getImage_roi,
      hargs, hfail, if_true]

/-- C9, at two identities of input 0: over an unconnected slot, where nothing
is called, and over an input whose `renderRoI` returns the null pointer after a
cache lookup of its own, which is then the only call made. -/
theorem C9_renderRoI_identity_without_image_witness :
    (identityEffect 1 [none] 5 0).isIdentity 0 ⟨1, 1⟩ ⟨0, 0, 2, 2⟩ 0 = some (5, 0) ∧
      (0 : Int) ≤ 0 ∧
      renderRoI (identityEffect 1 [none] 5 0) 0 ⟨1, 1⟩ 0 ⟨0, 0, 2, 2⟩ false World.init =
        ⟨Except.error
          (Err.runtime_error "Error in EffectInstance::renderRoI(): getImage(...) returned NULL"),
          World.init, []⟩ ∧
      renderRoI (identityEffect 1 [some (nullImageRef 2)] 5 0) 0 ⟨1, 1⟩ 0 ⟨0, 0, 2, 2⟩ false
          World.init =
        ⟨Except.error
          (Err.runtime_error "Error in EffectInstance::renderRoI(): getImage(...) returned NULL"),
          ((nullImageRef 2).renderRoI 5 ⟨1, 1⟩ 0 ⟨0, 0, 4, 4⟩ byPassCache_default World.init).world,
          [Event.getImageFromCache ⟨0, 77, 5, ⟨1, 1⟩, 0, ⟨0, 0, 4, 4⟩⟩ false]⟩ :=
  ⟨rfl, le_refl 0,
    (C9_renderRoI_identity_without_image (identityEffect 1 [none] 5 0) 0 ⟨1, 1⟩ 0 ⟨0, 0, 2, 2⟩
      false World.init 5 0 rfl (le_refl 0)).1 rfl,
    (C9_renderRoI_identity_without_image (identityEffect 1 [some (nullImageRef 2)] 5 0) 0 ⟨1, 1⟩ 0
      ⟨0, 0, 2, 2⟩ false World.init 5 0 rfl (le_refl 0)).2.1 (nullImageRef 2) rfl
      (fun _ => by decide) (by decide)⟩

/-! ## `renderRoI`: failure of the computation -/

/-- In the tiers `UNSAFE`, `INSTANCE_SAFE` and `FULLY_SAFE`, a computation that
returns a status other than `StatOK` makes the `switch` raise "rendering
failed", and no buffer is touched: the rectangle is not marked rendered. -/
theorem renderRoI_switch_raises (e : Effect) (args : RenderArgs) (roi : RectI) (image : Nat)
    (w : World) (hsafety : e.renderThreadSafety ≠ RenderSafety.FULLY_SAFE_FRAME)
    (hst : (e.render args._time args._scale roi args._view image w).1 ≠ Status.StatOK) :
    (renderRoI_switch e args roi image w).val = Except.error (Err.runtime_error "rendering failed") ∧
      (renderRoI_switch e args roi image w).world.images = w.images := by
  unfold renderRoI_switch
  cases hs : e.renderThreadSafety with
  | FULLY_SAFE_FRAME => exact absurd hs hsafety
  | UNSAFE =>
      simp only [Render.bind_run, Render.andThen, Render.emit, callRender, hst, ne_eq,
        not_false_eq_true, if_true, Render.raise]
      constructor
      · trivial
      · split <;> rfl
  | INSTANCE_SAFE =>
      simp only [Render.bind_run, Render.andThen, callRender, hst, ne_eq,
        not_false_eq_true, if_true, Render.raise]
      constructor
      · trivial
      · split <;> rfl
  | FULLY_SAFE =>
      simp only [Render.bind_run, Render.andThen, callRender, hst, ne_eq,
        not_false_eq_true, if_true, Render.raise]
      constructor
      · trivial
      · split <;> rfl

/-- C8 (the code at the failing input): a `FULLY_SAFE_FRAME` writer of region
(0,0,4,4) whose computation returns `StatReplyDefault` on every tile. The
request for (0,0,4,4) makes the two computation calls, one per tile, raises no
error and returns the buffer, in which nothing is marked rendered. The same
effect in the tier `FULLY_SAFE` raises "rendering failed". -/
theorem C8_fully_safe_frame_ignores_status_other_than_failed :
    (renderRoI (statusEffect 1 RenderSafety.FULLY_SAFE_FRAME Status.StatReplyDefault)
        0 ⟨1, 1⟩ 0 ⟨0, 0, 4, 4⟩ false World.init).val = Except.ok (some 0) ∧
      (renderRoI (statusEffect 1 RenderSafety.FULLY_SAFE_FRAME Status.StatReplyDefault)
        0 ⟨1, 1⟩ 0 ⟨0, 0, 4, 4⟩ false World.init).events.filter Event.isRender
        = [Event.render 1 0 ⟨1, 1⟩ ⟨0, 0, 4, 2⟩ 0 0 Status.StatReplyDefault,
           Event.render 1 0 ⟨1, 1⟩ ⟨0, 2, 4, 4⟩ 0 0 Status.StatReplyDefault] ∧
      ((renderRoI (statusEffect 1 RenderSafety.FULLY_SAFE_FRAME Status.StatReplyDefault)
        0 ⟨1, 1⟩ 0 ⟨0, 0, 4, 4⟩ false World.init).world.image 0).rendered = [] ∧
      (renderRoI (statusEffect 1 RenderSafety.FULLY_SAFE Status.StatReplyDefault)
        0 ⟨1, 1⟩ 0 ⟨0, 0, 4, 4⟩ false World.init).val
        = Except.error (Err.runtime_error "rendering failed") := by
  decide

/-! ## `renderRoI`: abort -/

/-- When the loop over the inputs reports an abort, the abort flag is set and
the buffer has left the cache. -/
theorem renderRoI_inputs_returned (e : Effect) (time : SequenceTime) (scale : RenderScale)
    (view : Int) (byPassCache : Bool) (image : Nat) :
    ∀ (inputsRoi : RoIMap) (w : World),
      (renderRoI_inputs e time scale view byPassCache image inputsRoi w).val = Except.ok true →
      e.addr ∈ (renderRoI_inputs e time scale view byPassCache image inputsRoi w).world.aborted ∧
        ∀ q ∈ (renderRoI_inputs e time scale view byPassCache image inputsRoi w).world.nodeCache,
          q.2 ≠ image := by
  intro inputsRoi
  induction inputsRoi with
  | nil => intro w h; simp [renderRoI_inputs] at h
  | cons it2 rest ih =>
      intro w
      unfold renderRoI_inputs
      by_cases hnb : getInputNumber e it2.1 = -1
      · simp [hnb, Render.raise]
      · simp only [hnb, if_false, Render.emit_bind_run, Res.prepend_val, Res.prepend_world]
        cases hr : (it2.1.renderRoI time scale view it2.2 byPassCache w).val with
        | error err => simp [Render.bind_error _ _ _ _ hr]
        | ok inputImg =>
            simp only [Render.bind_ok _ _ _ _ hr, Render.emit_bind_run, aborted_bind_run,
              Res.prepend_val, Res.prepend_world]
            by_cases hab : e.addr ∈ (it2.1.renderRoI time scale view it2.2 byPassCache w).world.aborted
            · simp only [hab, decide_True, if_true, removeFromNodeCache_bind_run,
                removeImageBeingRendered_bind_run, Render.pure_run, Res.prepend_val,
                Res.prepend_world, removeFromNodeCache, removeImageBeingRendered]
              intro _
              refine ⟨trivial, fun q hq => ?_⟩
              simp only [List.mem_filter, decide_eq_true_eq] at hq
              exact hq.2
            · simp only [hab, decide_False, Bool.false_eq_true, if_false]
              exact ih _

/-- When the loop over the rectangles reports an abort, the abort flag is set
and the buffer has left the cache. -/
theorem renderRoI_rects_returned (e : Effect) (time : SequenceTime) (scale : RenderScale)
    (view : Int) (byPassCache : Bool) (image : Nat) :
    ∀ (rects : List RectI) (w : World),
      (renderRoI_rects e time scale view byPassCache image rects w).val = Except.ok true →
      e.addr ∈ (renderRoI_rects e time scale view byPassCache image rects w).world.aborted ∧
        ∀ q ∈ (renderRoI_rects e time scale view byPassCache image rects w).world.nodeCache,
          q.2 ≠ image := by
  intro rects
  induction rects with
  | nil => intro w h; simp [renderRoI_rects] at h
  | cons it rest ih =>
      intro w
      unfold renderRoI_rects
      simp only [setLocalData_bind_run]
      generalize (setLocalData e ⟨it, time, scale, view⟩ w).world = w0
      cases hr : (renderRoI_inputs e time scale view byPassCache image
          (getRegionOfInterest e time scale it) w0).val with
      | error err => simp [Render.bind_error _ _ _ _ hr]
      | ok returned =>
          simp only [Render.bind_ok _ _ _ _ hr, Res.prepend_val, Res.prepend_world]
          cases returned with
          | true =>
              simp only [if_true, Render.pure_run]
              intro _
              exact renderRoI_inputs_returned e time scale view byPassCache image _ w0 hr
          | false =>
              simp only [Bool.false_eq_true, if_false, Render.emit_bind_run, Res.prepend_val,
                Res.prepend_world]
              generalize (renderRoI_inputs e time scale view byPassCache image
                (getRegionOfInterest e time scale it) w0).world = w1
              cases hs : (renderRoI_switch e ⟨it, time, scale, view⟩ it image w1).val with
              | error err => simp [Render.bind_error _ _ _ _ hs]
              | ok u =>
                  simp only [Render.bind_ok _ _ _ _ hs, Res.prepend_val, Res.prepend_world,
                    Render.emit_bind_run]
                  exact ih _

/-- The loop of `getInputNumber` finds a pointer that a slot holds. -/
theorem getInputNumber_loop_found (a : Nat) :
    ∀ (slots : List (Option EffectRef)) (i : Nat),
      (∃ inp, some inp ∈ slots ∧ inp.addr = a) → (i : Int) ≤ getInputNumber_loop a i slots := by
  intro slots
  induction slots with
  | nil => intro i h; simp at h
  | cons slot rest ih =>
      intro i h
      unfold getInputNumber_loop
      by_cases hs : slot.map (fun inp => inp.addr) = some a
      · simp [hs]
      · simp only [hs, if_false]
        have hrest : ∃ inp, some inp ∈ rest ∧ inp.addr = a := by
          obtain ⟨inp, hmem, haddr⟩ := h
          rcases List.mem_cons.mp hmem with hhead | htail
          · subst hhead
            exact absurd (by simp [haddr]) hs
          · exact ⟨inp, htail, haddr⟩
        have := ih (i + 1) hrest
        push_cast at this
        omega

/-- An entry of the map after `insert` was there before or is the new pair. -/
theorem RoIMap_insert_mem (k : EffectRef) (v : RectI) :
    ∀ (m : RoIMap) (it : EffectRef × RectI), it ∈ RoIMap_insert m k v → it ∈ m ∨ it = (k, v) := by
  intro m
  induction m with
  | nil => intro it h; simpa [RoIMap_insert] using h
  | cons hd tl ih =>
      intro it h
      unfold RoIMap_insert at h
      by_cases h1 : k.addr < hd.1.addr
      · simp only [h1, if_true, List.mem_cons] at h
        rcases h with h | h | h
        · exact Or.inr h
        · exact Or.inl (by simp [h])
        · exact Or.inl (List.mem_cons_of_mem _ h)
      · by_cases h2 : k.addr = hd.1.addr
        · simp only [h1, h2, if_false, if_true, lt_self_iff_false] at h
          exact Or.inl h
        · simp only [h1, h2, if_false, List.mem_cons] at h
          rcases h with h | h
          · exact Or.inl (by simp [h])
          · rcases ih it h with h' | h'
            · exact Or.inl (List.mem_cons_of_mem _ h')
            · exact Or.inr h'

/-- The keys of the map built by `getRegionOfInterest` are inputs of the
effect. -/
theorem getRegionOfInterest_mem (e : Effect) (time : SequenceTime) (scale : RenderScale)
    (renderWindow : RectI) (it : EffectRef × RectI)
    (h : it ∈ getRegionOfInterest e time scale renderWindow) :
    some it.1 ∈ e.inputs ∧ it.2 = renderWindow := by
  unfold getRegionOfInterest at h
  have key : ∀ (slots : List (Option EffectRef)) (acc : RoIMap),
      (∀ s ∈ slots, s ∈ e.inputs) →
      (∀ x ∈ acc, some x.1 ∈ e.inputs ∧ x.2 = renderWindow) →
      ∀ x ∈ slots.foldl
          (fun ret slot => match slot with
            | some inp => RoIMap_insert ret inp renderWindow
            | none => ret) acc,
        some x.1 ∈ e.inputs ∧ x.2 = renderWindow := by
    intro slots
    induction slots with
    | nil => intro acc _ hacc x hx; exact hacc x hx
    | cons slot rest ih =>
        intro acc hslots hacc x hx
        simp only [List.foldl_cons] at hx
        refine ih _ (fun s hs => hslots s (List.mem_cons_of_mem _ hs)) ?_ x hx
        intro y hy
        cases slot with
        | none => exact hacc y hy
        | some inp =>
            rcases RoIMap_insert_mem inp renderWindow acc y hy with h' | h'
            · exact hacc y h'
            · subst h'
              exact ⟨hslots _ (List.mem_cons_self _ _), rfl⟩
  exact key e.inputs [] (fun s hs => hs) (fun x hx => by simp at hx) it h

/-- An input of the effect has a slot number. -/
theorem getInputNumber_ne (e : Effect) (inp : EffectRef) (h : some inp ∈ e.inputs) :
    getInputNumber e inp ≠ -1 := by
  have := getInputNumber_loop_found inp.addr e.inputs 0 ⟨inp, h, rfl⟩
  unfold getInputNumber
  simp only [Nat.cast_zero] at this
  omega

/-- The tile functor returns `StatOK` when the computation does. -/
theorem tiledRenderingFunctor_ok (e : Effect) (args : RenderArgs) (roi : RectI) (output : Nat)
    (w : World)
    (hrender : ∀ t s r v i w', (e.render t s r v i w').1 = Status.StatOK) :
    (tiledRenderingFunctor e args roi output w).val = Except.ok Status.StatOK := by
  unfold tiledRenderingFunctor
  simp only [setLocalData_bind_run, callRender_bind_run, hrender, ne_eq, not_true_eq_false,
    if_false, Res.prepend_val, aborted_bind_run]
  split <;> simp

/-- The tiles all return `StatOK` when the computation does. -/
theorem mapped_tiledRenderingFunctor_ok (e : Effect) (args : RenderArgs) (output : Nat)
    (hrender : ∀ t s r v i w', (e.render t s r v i w').1 = Status.StatOK) :
    ∀ (tiles : List RectI) (w : World), ∃ sts,
      (mapped (fun tile => tiledRenderingFunctor e args tile output) tiles w).val = Except.ok sts ∧
        ∀ st ∈ sts, st = Status.StatOK := by
  intro tiles
  induction tiles with
  | nil => intro w; exact ⟨[], rfl, by simp⟩
  | cons tile rest ih =>
      intro w
      unfold mapped
      have h1 := tiledRenderingFunctor_ok e args tile output w hrender
      simp only [Render.bind_ok _ _ _ _ h1, Res.prepend_val]
      obtain ⟨sts, hsts, hall⟩ := ih (tiledRenderingFunctor e args tile output w).world
      simp only [Render.bind_ok _ _ _ _ hsts, Res.prepend_val, Render.pure_run]
      refine ⟨Status.StatOK :: sts, rfl, ?_⟩
      intro st hst
      rcases List.mem_cons.mp hst with h | h
      · exact h
      · exact hall st h

/-- The cache lookup or allocation raises nothing and yields a buffer. -/
theorem renderRoI_lookup_ok (key : ImageKey) (scale : RenderScale) (time : SequenceTime)
    (byPassCache : Bool) (w : World) :
    ∃ image, (renderRoI_lookup key scale time byPassCache w).val = Except.ok (some image) := by
  unfold renderRoI_lookup
  cases byPassCache with
  | true => exact ⟨w.images.length, rfl⟩
  | false =>
      simp only [Bool.not_false, if_true]
      cases hfind : w.nodeCache.find? (fun p => decide (p.1 = key)) with
      | some p =>
          have h1 : (getImageFromCache key w).val = Except.ok (true, some p.2) := by
            simp [getImageFromCache, hfind]
          exact ⟨p.2, by simp [Render.bind_ok _ _ _ _ h1]⟩
      | none =>
          have h1 : (getImageFromCache key w).val = Except.ok (false, some w.images.length) := by
            simp [getImageFromCache, hfind]
          exact ⟨w.images.length, by simp [Render.bind_ok _ _ _ _ h1]⟩

/-- A tile whose computation returns with the abort flag set is not marked
rendered: the tile functor leaves every buffer as it was. -/
theorem tiledRenderingFunctor_aborted (e : Effect) (args : RenderArgs) (roi : RectI) (output : Nat)
    (w : World)
    (hab : e.addr ∈ (callRender e args._time args._scale roi args._view output
      (setLocalData e args w).world).world.aborted) :
    (tiledRenderingFunctor e args roi output w).world.images = w.images := by
  unfold tiledRenderingFunctor
  simp only [setLocalData_bind_run, callRender_bind_run, Res.prepend_world]
  by_cases hst : (e.render args._time args._scale roi args._view output
      (setLocalData e args w).world).1 = Status.StatOK
  · simp only [hst, ne_eq, not_true_eq_false, if_false, aborted_bind_run, hab, decide_True,
      Bool.not_true, Bool.false_eq_true, Render.pure_bind_run, Render.pure_run]
    unfold callRender setLocalData Render.modify
    split <;> rfl
  · simp only [hst, ne_eq, not_false_eq_true, if_true, Render.pure_run]
    unfold callRender setLocalData Render.modify
    split <;> rfl

/-- In the tiers `UNSAFE`, `INSTANCE_SAFE` and `FULLY_SAFE`, a rectangle whose
computation returns with the abort flag set is not marked rendered: the
`switch` leaves every buffer as it was. -/
theorem renderRoI_switch_aborted (e : Effect) (args : RenderArgs) (roi : RectI) (image : Nat)
    (w : World) (hsafety : e.renderThreadSafety ≠ RenderSafety.FULLY_SAFE_FRAME)
    (hab : e.addr ∈ (callRender e args._time args._scale roi args._view image w).world.aborted) :
    (renderRoI_switch e args roi image w).world.images = w.images := by
  have himg : (callRender e args._time args._scale roi args._view image w).world.images
      = w.images := by
    unfold callRender
    split <;> rfl
  unfold renderRoI_switch
  cases hs : e.renderThreadSafety with
  | FULLY_SAFE_FRAME => exact absurd hs hsafety
  | UNSAFE =>
      simp only [Render.emit_bind_run, callRender_bind_run, Res.prepend_world, aborted_bind_run]
      by_cases hst : (e.render args._time args._scale roi args._view image w).1 = Status.StatOK
      · simp [hst, hab, himg]
      · simp [hst, Render.raise, himg]
  | INSTANCE_SAFE =>
      simp only [callRender_bind_run, Res.prepend_world, aborted_bind_run]
      by_cases hst : (e.render args._time args._scale roi args._view image w).1 = Status.StatOK
      · simp [hst, hab, himg]
      · simp [hst, Render.raise, himg]
  | FULLY_SAFE =>
      simp only [callRender_bind_run, Res.prepend_world, aborted_bind_run]
      by_cases hst : (e.render args._time args._scale roi args._view image w).1 = Status.StatOK
      · simp [hst, hab, himg]
      · simp [hst, Render.raise, himg]

/-- An abort raised during the render of an input, evaluated: the effect at
address 1 has one input, during whose `renderRoI` the abort flag of the effect
is raised. The request returns buffer 0 without raising, no entry of the cache
holds buffer 0, no registration is left, and no computation was called. -/
theorem renderRoI_aborted_during_input_example :
    (renderRoI (plainEffect 1 [some (abortingRef 2 1 ⟨0, 0, 4, 4⟩)]) 0 ⟨1, 1⟩ 0 ⟨0, 0, 4, 4⟩ false
        World.init).val = Except.ok (some 0) ∧
      (renderRoI (plainEffect 1 [some (abortingRef 2 1 ⟨0, 0, 4, 4⟩)]) 0 ⟨1, 1⟩ 0 ⟨0, 0, 4, 4⟩ false
        World.init).world.nodeCache = [] ∧
      (renderRoI (plainEffect 1 [some (abortingRef 2 1 ⟨0, 0, 4, 4⟩)]) 0 ⟨1, 1⟩ 0 ⟨0, 0, 4, 4⟩ false
        World.init).world.imagesBeingRendered = [] ∧
      (renderRoI (plainEffect 1 [some (abortingRef 2 1 ⟨0, 0, 4, 4⟩)]) 0 ⟨1, 1⟩ 0 ⟨0, 0, 4, 4⟩ false
        World.init).events =
        [Event.getImageFromCache ⟨0, 1001, 0, ⟨1, 1⟩, 0, ⟨0, 0, 4, 4⟩⟩ false,
          Event.addImageBeingRendered 1 0 0 0,
          Event.notifyInputNIsRendering 1 0,
          Event.newImage 1,
          Event.notifyInputNIsFinishedRendering 1 0,
          Event.removeFromNodeCache 0,
          Event.removeImageBeingRendered 1 0 0] := by
  decide

/-! ## Regions -/

/-- A region is null exactly when no pixel lies in it. -/
theorem RectI.isNull_iff (a : RectI) : a.isNull = true ↔ ∀ x y, ¬ a.contains x y := by
  simp only [RectI.isNull, RectI.contains, Bool.or_eq_true, decide_eq_true_eq]
  constructor
  · intro h x y hc
    omega
  · intro h
    by_contra hn
    exact h a.left a.bottom (by omega)

/-- A region that is not null holds its bottom-left pixel. -/
theorem RectI.contains_of_not_isNull (a : RectI) (h : a.isNull = false) :
    a.contains a.left a.bottom := by
  simp only [RectI.isNull, Bool.or_eq_false_iff, decide_eq_false_iff_not] at h
  simp only [RectI.contains]
  omega

/-- The pixels of the intersection are the pixels of both regions. -/
theorem RectI.contains_intersect (a b : RectI) (x y : Int) :
    (a.intersect b).contains x y ↔ a.contains x y ∧ b.contains x y := by
  simp only [RectI.intersect, RectI.isNull, RectI.empty]
  split
  · rename_i h
    simp only [Bool.or_eq_true, decide_eq_true_eq] at h
    simp only [RectI.contains]
    omega
  · simp only [RectI.contains]
    omega

/-- The pieces of `a` outside `m` are not null, and their pixels are the pixels
of `a` that are not in `m`. -/
theorem RectI.subtract_spec (a m : RectI) :
    (∀ p ∈ a.subtract m, p.isNull = false) ∧
      ∀ x y, (∃ p ∈ a.subtract m, p.contains x y) ↔ a.contains x y ∧ ¬ m.contains x y := by
  unfold RectI.subtract
  by_cases hi : (a.intersect m).isNull = true
  · simp only [hi, if_true]
    have hdisj := (RectI.isNull_iff _).mp hi
    by_cases ha : a.isNull = true
    · simp only [ha, if_true, List.not_mem_nil, false_implies, implies_true, false_and,
        exists_false, false_iff, true_and]
      intro x y h
      exact (RectI.isNull_iff a).mp ha x y h.1
    · simp only [ha, Bool.false_eq_true, if_false, List.mem_singleton, forall_eq, exists_eq_left]
      refine ⟨trivial, fun x y => ⟨fun h => ⟨h, fun hm => ?_⟩, fun h => h.1⟩⟩
      exact hdisj x y ((RectI.contains_intersect a m x y).mpr ⟨h, hm⟩)
  · simp only [hi, Bool.false_eq_true, if_false]
    have hnn : ¬ ((a.right ≤ a.left ∨ a.top ≤ a.bottom) ∨ (m.right ≤ m.left ∨ m.top ≤ m.bottom) ∨
        (min a.right m.right ≤ max a.left m.left ∨ min a.top m.top ≤ max a.bottom m.bottom)) := by
      intro h
      apply hi
      simp only [RectI.intersect, RectI.isNull, RectI.empty, Bool.or_eq_true, decide_eq_true_eq]
      rw [if_pos (by simpa [or_assoc] using h)]
      simp
    constructor
    · intro p hp
      simp only [List.mem_append, List.mem_ite_nil_right, List.mem_singleton] at hp
      simp only [RectI.isNull, Bool.or_eq_false_iff, decide_eq_false_iff_not]
      rcases hp with ((⟨h, rfl⟩ | ⟨h, rfl⟩) | ⟨h, rfl⟩) | ⟨h, rfl⟩ <;> simp only <;> omega
    · intro x y
      simp only [List.mem_append, List.mem_ite_nil_right, List.mem_singleton, RectI.contains]
      constructor
      · rintro ⟨p, ((⟨h, rfl⟩ | ⟨h, rfl⟩) | ⟨h, rfl⟩) | ⟨h, rfl⟩, hc⟩ <;> simp only at hc <;> omega
      · rintro ⟨hc, hm⟩
        by_cases h1 : y < m.bottom
        · exact ⟨_, Or.inl (Or.inl (Or.inl ⟨by omega, rfl⟩)), by simp only; omega⟩
        · by_cases h2 : m.top ≤ y
          · exact ⟨_, Or.inl (Or.inl (Or.inr ⟨by omega, rfl⟩)), by simp only; omega⟩
          · by_cases h3 : x < m.left
            · exact ⟨_, Or.inl (Or.inr ⟨by omega, rfl⟩), by simp only; omega⟩
            · exact ⟨_, Or.inr ⟨by omega, rfl⟩, by simp only; omega⟩

/-- Removing the regions `ms` one after the other from the pieces `acc` leaves
pieces that are not null, whose pixels are those of `acc` outside every region
of `ms`. -/
theorem getRestToRender_foldl (ms : List RectI) :
    ∀ (acc : List RectI), (∀ p ∈ acc, p.isNull = false) →
      (∀ p ∈ ms.foldl (fun rest m => rest.flatMap fun a => a.subtract m) acc, p.isNull = false) ∧
        ∀ x y,
          (∃ p ∈ ms.foldl (fun rest m => rest.flatMap fun a => a.subtract m) acc, p.contains x y) ↔
            (∃ p ∈ acc, p.contains x y) ∧ ∀ m ∈ ms, ¬ m.contains x y := by
  induction ms with
  | nil => intro acc hacc; simpa using hacc
  | cons m rest ih =>
      intro acc hacc
      simp only [List.foldl_cons]
      have hstep : ∀ p ∈ acc.flatMap (fun a => a.subtract m), p.isNull = false := by
        intro p hp
        obtain ⟨a, _, hpa⟩ := List.mem_flatMap.mp hp
        exact (RectI.subtract_spec a m).1 p hpa
      obtain ⟨hnull, hpix⟩ := ih _ hstep
      refine ⟨hnull, fun x y => ?_⟩
      rw [hpix x y]
      constructor
      · rintro ⟨⟨p, hp, hc⟩, hrest⟩
        obtain ⟨a, ha, hpa⟩ := List.mem_flatMap.mp hp
        have := ((RectI.subtract_spec a m).2 x y).mp ⟨p, hpa, hc⟩
        refine ⟨⟨a, ha, this.1⟩, ?_⟩
        intro m' hm'
        rcases List.mem_cons.mp hm' with h | h
        · subst h; exact this.2
        · exact hrest m' h
      · rintro ⟨⟨a, ha, hc⟩, hall⟩
        obtain ⟨p, hpa, hpc⟩ := ((RectI.subtract_spec a m).2 x y).mpr
          ⟨hc, hall m (List.mem_cons_self _ _)⟩
        exact ⟨⟨p, List.mem_flatMap.mpr ⟨a, ha, hpa⟩, hpc⟩,
          fun m' hm' => hall m' (List.mem_cons_of_mem _ hm')⟩

/-- The rest to render of a region: pieces that are not null, whose pixels are
the pixels of the region that lie in no sub-region marked rendered. -/
theorem Image.getRestToRender_spec (img : Image) (roi : RectI) :
    (∀ p ∈ img.getRestToRender roi, p.isNull = false) ∧
      ∀ x y, (∃ p ∈ img.getRestToRender roi, p.contains x y) ↔
        roi.contains x y ∧ ∀ m ∈ img.rendered, ¬ m.contains x y := by
  unfold Image.getRestToRender
  by_cases hnull : roi.isNull = true
  · have h := getRestToRender_foldl img.rendered [] (by simp)
    simp only [hnull, if_true]
    refine ⟨h.1, fun x y => ?_⟩
    rw [h.2 x y]
    simp only [List.not_mem_nil, false_and, exists_false, false_iff, not_and]
    intro hc
    exact absurd hc ((RectI.isNull_iff roi).mp hnull x y)
  · have h := getRestToRender_foldl img.rendered [roi]
      (by simpa using Bool.eq_false_iff.mpr hnull)
    simp only [hnull, Bool.false_eq_true, if_false]
    refine ⟨h.1, fun x y => ?_⟩
    rw [h.2 x y]
    simp

/-- Nothing is left to render exactly when every pixel of the region lies in a
sub-region marked rendered. -/
theorem Image.getRestToRender_eq_nil_iff (img : Image) (roi : RectI) :
    img.getRestToRender roi = [] ↔
      ∀ x y, roi.contains x y → ∃ m ∈ img.rendered, m.contains x y := by
  obtain ⟨hnull, hpix⟩ := Image.getRestToRender_spec img roi
  constructor
  · intro h x y hc
    by_contra hno
    have := (hpix x y).mpr ⟨hc, fun m hm hmc => hno ⟨m, hm, hmc⟩⟩
    rw [h] at this
    simp at this
  · intro h
    cases hrest : img.getRestToRender roi with
    | nil => rfl
    | cons p ps =>
        exfalso
        have hp : p ∈ img.getRestToRender roi := by rw [hrest]; exact List.mem_cons_self _ _
        have hc := RectI.contains_of_not_isNull p (hnull p hp)
        obtain ⟨hroi, hno⟩ := (hpix p.left p.bottom).mp ⟨p, hp, hc⟩
        obtain ⟨m, hm, hmc⟩ := h _ _ hroi
        exact hno m hm hmc

/-- Marking keeps the bounding region and every sub-region already marked, and
the pixels of the marked region inside the bounding region become rendered. -/
theorem Image.markForRendered_spec (img : Image) (roi : RectI) :
    (img.markForRendered roi).rod = img.rod ∧
      (∀ m ∈ img.rendered, m ∈ (img.markForRendered roi).rendered) ∧
      ∀ x y, roi.contains x y → img.rod.contains x y →
        ∃ m ∈ (img.markForRendered roi).rendered, m.contains x y := by
  unfold Image.markForRendered
  by_cases hnull : (roi.intersect img.rod).isNull = true
  · simp only [hnull, Bool.true_or, if_true, imp_self, implies_true, true_and]
    intro x y h1 h2
    exact absurd ((RectI.contains_intersect roi img.rod x y).mpr ⟨h1, h2⟩)
      ((RectI.isNull_iff _).mp hnull x y)
  · by_cases hmem : roi.intersect img.rod ∈ img.rendered
    · simp only [hmem, decide_True, Bool.or_true, if_true, imp_self, implies_true, true_and]
      intro x y h1 h2
      exact ⟨_, hmem, (RectI.contains_intersect roi img.rod x y).mpr ⟨h1, h2⟩⟩
    · simp only [hnull, hmem, decide_False, Bool.or_self, Bool.false_eq_true, if_false,
        List.mem_append, List.mem_singleton, true_and]
      refine ⟨fun m hm => Or.inl hm, fun x y h1 h2 => ?_⟩
      exact ⟨_, Or.inr rfl, (RectI.contains_intersect roi img.rod x y).mpr ⟨h1, h2⟩⟩

/-- The bands `i*h/n ≤ · < (i+1)*h/n` below `k` cover every row below `k*h/n`. -/
theorem band_exists (h : Int) (n : Nat) (y : Int) (hy : 0 ≤ y) :
    ∀ k : Nat, y < ((k : Int) * h) / n →
      ∃ i : Nat, i < k ∧ ((i : Int) * h) / n ≤ y ∧ y < (((i : Int) + 1) * h) / n := by
  intro k
  induction k with
  | zero => intro hk; simp at hk; omega
  | succ k ih =>
      intro hk
      by_cases hlt : y < ((k : Int) * h) / n
      · obtain ⟨i, hi, hb⟩ := ih hlt
        exact ⟨i, Nat.lt_succ_of_lt hi, hb⟩
      · refine ⟨k, Nat.lt_succ_self k, not_lt.mp hlt, ?_⟩
        push_cast at hk
        exact hk

/-- The tiles of a region cover exactly the region. -/
theorem RectI.splitRectIntoSmallerRect_spec (rect : RectI) (splitsCount : Int) (x y : Int) :
    (∃ tile ∈ RectI.splitRectIntoSmallerRect rect splitsCount, tile.contains x y) ↔
      rect.contains x y := by
  unfold RectI.splitRectIntoSmallerRect
  by_cases hnull : rect.isNull = true
  · simp only [hnull, if_true, List.not_mem_nil, false_and, exists_false, false_iff]
    exact (RectI.isNull_iff rect).mp hnull x y
  · simp only [hnull, Bool.false_eq_true, if_false]
    have hdim : rect.left < rect.right ∧ rect.bottom < rect.top := by
      simp only [RectI.isNull, Bool.or_eq_true, decide_eq_true_eq, not_or, not_le] at hnull
      exact hnull
    generalize hn : max 1 splitsCount.toNat = n
    have hn1 : 1 ≤ n := by rw [← hn]; exact le_max_left _ _
    have hnpos : (0 : Int) < (n : Int) := by exact_mod_cast hn1
    have hh : 0 < rect.top - rect.bottom := by omega
    constructor
    · rintro ⟨tile, htile, hc⟩
      simp only [List.mem_filter, List.mem_map, List.mem_range] at htile
      obtain ⟨⟨i, hi, rfl⟩, _⟩ := htile
      simp only [RectI.contains] at hc ⊢
      have h0 : 0 ≤ ((i : Int) * (rect.top - rect.bottom)) / n :=
        Int.ediv_nonneg (mul_nonneg (by exact_mod_cast Nat.zero_le i) hh.le) hnpos.le
      have h1 : (((i : Int) + 1) * (rect.top - rect.bottom)) / n ≤ rect.top - rect.bottom := by
        apply Int.ediv_le_of_le_mul hnpos
        have : (i : Int) + 1 ≤ n := by exact_mod_cast hi
        calc ((i : Int) + 1) * (rect.top - rect.bottom)
            ≤ (n : Int) * (rect.top - rect.bottom) := mul_le_mul_of_nonneg_right this hh.le
          _ = (rect.top - rect.bottom) * n := mul_comm _ _
      omega
    · intro hc
      simp only [RectI.contains] at hc
      have hfull : y - rect.bottom < ((n : Int) * (rect.top - rect.bottom)) / n := by
        rw [Int.mul_ediv_cancel_left _ hnpos.ne']
        omega
      obtain ⟨i, hi, hlo, hhi⟩ := band_exists (rect.top - rect.bottom) n (y - rect.bottom)
        (by omega) n hfull
      refine ⟨⟨rect.left, rect.bottom + ((i : Int) * (rect.top - rect.bottom)) / n, rect.right,
        rect.bottom + (((i : Int) + 1) * (rect.top - rect.bottom)) / n⟩, ?_, ?_⟩
      · simp only [List.mem_filter, List.mem_map, List.mem_range]
        refine ⟨⟨i, hi, rfl⟩, ?_⟩
        simp only [RectI.isNull, Bool.not_eq_true', Bool.or_eq_false_iff, decide_eq_false_iff_not]
        omega
      · simp only [RectI.contains]
        omega

/-! ## `renderRoI`: what a completed render leaves in the buffer -/

/-- A state keeps its own buffers. -/
theorem World.keeps_refl (w : World) (image : Nat) : World.keeps w w image :=
  ⟨fun h => h, rfl, fun _ h => h⟩

/-- Keeping a buffer composes. -/
theorem World.keeps_trans {w1 w2 w3 : World} {image : Nat} (h12 : World.keeps w1 w2 image)
    (h23 : World.keeps w2 w3 image) : World.keeps w1 w3 image :=
  ⟨fun h => h23.1 (h12.1 h), h23.2.1.trans h12.2.1, fun m hm => h23.2.2 m (h12.2.2 m hm)⟩

/-- States with the same buffers. -/
theorem World.keeps_of_images_eq {w w' : World} (image : Nat) (h : w'.images = w.images) :
    World.keeps w w' image := by
  unfold World.keeps World.image
  rw [h]
  exact ⟨fun hlt => hlt, rfl, fun _ hm => hm⟩

/-- A pixel marked rendered stays so in a state that keeps the buffer. -/
theorem World.covered_of_keeps {w w' : World} {image : Nat} (h : World.keeps w w' image)
    {x y : Int} (hc : w.covered image x y) : w'.covered image x y := by
  obtain ⟨m, hm, hmc⟩ := hc
  exact ⟨m, h.2.2 m hm, hmc⟩

/-- The buffer behind the pointer after `markForRendered` through it. -/
theorem image_markForRendered_same (image : Nat) (roi : RectI) (w : World) :
    (markForRendered image roi w).world.image image = (w.image image).markForRendered roi := by
  simp only [markForRendered, World.image, List.getD_eq_getElem?_getD, List.getElem?_modify_eq]
  cases h : w.images[image]? with
  | some img => rfl
  | none =>
      simp [Image.markForRendered, Image.new, RectI.intersect, RectI.isNull, RectI.empty]

/-- A buffer behind another pointer is untouched by `markForRendered`. -/
theorem image_markForRendered_other (image other : Nat) (roi : RectI) (w : World)
    (h : image ≠ other) :
    (markForRendered image roi w).world.image other = w.image other := by
  simp only [markForRendered, World.image, List.getD_eq_getElem?_getD,
    List.getElem?_modify_ne _ _ h]

/-- `markForRendered` keeps every buffer's region and marks. -/
theorem markForRendered_keeps (image : Nat) (roi : RectI) (w : World) (other : Nat) :
    World.keeps w (markForRendered image roi w).world other := by
  have hlen : other < w.images.length → other < (markForRendered image roi w).world.images.length := by
    intro h
    simpa [markForRendered] using h
  by_cases h : image = other
  · subst h
    unfold World.keeps
    rw [image_markForRendered_same]
    exact ⟨hlen, (Image.markForRendered_spec _ roi).1, (Image.markForRendered_spec _ roi).2.1⟩
  · unfold World.keeps
    rw [image_markForRendered_other image other roi w h]
    exact ⟨hlen, rfl, fun _ hm => hm⟩

/-- After `markForRendered`, the pixels of the region inside the bounding
region of the buffer are rendered. -/
theorem markForRendered_covered (image : Nat) (roi : RectI) (w : World) (x y : Int)
    (h1 : roi.contains x y) (h2 : (w.image image).rod.contains x y) :
    (markForRendered image roi w).world.covered image x y := by
  unfold World.covered
  rw [image_markForRendered_same]
  exact (Image.markForRendered_spec _ roi).2.2 x y h1 h2

/-- A computation call allocates, frees and marks no buffer. -/
theorem callRender_images (e : Effect) (time : SequenceTime) (scale : RenderScale) (roi : RectI)
    (view : Int) (image : Nat) (w : World) :
    (callRender e time scale roi view image w).world.images = w.images := by
  unfold callRender
  split <;> rfl

/-- A computation call clears no abort flag. -/
theorem callRender_aborted (e : Effect) (time : SequenceTime) (scale : RenderScale) (roi : RectI)
    (view : Int) (image : Nat) (w : World) (a : Nat) (h : a ∈ w.aborted) :
    a ∈ (callRender e time scale roi view image w).world.aborted := by
  unfold callRender
  split
  · exact List.mem_cons_of_mem _ h
  · exact h

/-- A tile whose computation returns `StatOK`, the abort flag being unset when
the functor returns: the tile is marked rendered in the buffer, every buffer
keeps its region and marks, and the abort flag was unset before. -/
theorem tiledRenderingFunctor_completed (e : Effect) (args : RenderArgs) (tile : RectI)
    (output : Nat) (w : World)
    (hst : ∀ t s r v i w', (e.render t s r v i w').1 = Status.StatOK)
    (hab : e.addr ∉ (tiledRenderingFunctor e args tile output w).world.aborted) :
    (∀ other, World.keeps w (tiledRenderingFunctor e args tile output w).world other) ∧
      (∀ x y, tile.contains x y → (w.image output).rod.contains x y →
        (tiledRenderingFunctor e args tile output w).world.covered output x y) ∧
      e.addr ∉ w.aborted := by
  revert hab
  unfold tiledRenderingFunctor
  simp only [setLocalData_bind_run, callRender_bind_run, hst, ne_eq, not_true_eq_false, if_false,
    aborted_bind_run, Res.prepend_world]
  generalize hw0 : (setLocalData e args w).world = w0
  have himg0 : w0.images = w.images := by rw [← hw0]; rfl
  have hab0 : w0.aborted = w.aborted := by rw [← hw0]; rfl
  generalize hw1 : (callRender e args._time args._scale tile args._view output w0).world = w1
  have himg1 : w1.images = w.images := by rw [← hw1, callRender_images, himg0]
  have hab1 : ∀ a, a ∈ w.aborted → a ∈ w1.aborted := by
    intro a ha
    rw [← hw1]
    exact callRender_aborted _ _ _ _ _ _ _ a (hab0 ▸ ha)
  by_cases hflag : e.addr ∈ w1.aborted
  · simp only [hflag, decide_True, Bool.not_true, Bool.false_eq_true, if_false,
      Render.pure_bind_run, Render.pure_run]
    intro h
    exact absurd trivial h
  · simp only [hflag, decide_False, Bool.not_false, if_true, markForRendered_bind_run,
      Render.pure_run, Res.prepend_world]
    intro _
    have hk1 : ∀ other, World.keeps w w1 other := fun other =>
      World.keeps_of_images_eq other himg1
    refine ⟨fun other => World.keeps_trans (hk1 other) (markForRendered_keeps output tile w1 other),
      fun x y h1 h2 => ?_, fun h => hflag (hab1 _ h)⟩
    apply markForRendered_covered output tile w1 x y h1
    rw [(hk1 output).2.1]
    exact h2

/-- The tiles of a rectangle, all computed with `StatOK`, the abort flag being
unset at the end: every tile is marked rendered. -/
theorem mapped_tiledRenderingFunctor_completed (e : Effect) (args : RenderArgs) (output : Nat)
    (hst : ∀ t s r v i w', (e.render t s r v i w').1 = Status.StatOK) :
    ∀ (tiles : List RectI) (w : World),
      e.addr ∉ (mapped (fun tile => tiledRenderingFunctor e args tile output) tiles w).world.aborted →
      (∀ other, World.keeps w
        (mapped (fun tile => tiledRenderingFunctor e args tile output) tiles w).world other) ∧
      (∀ tile ∈ tiles, ∀ x y, tile.contains x y → (w.image output).rod.contains x y →
        (mapped (fun tile => tiledRenderingFunctor e args tile output) tiles w).world.covered
          output x y) ∧
      e.addr ∉ w.aborted := by
  intro tiles
  induction tiles with
  | nil =>
      intro w hab
      exact ⟨fun other => World.keeps_refl w other, fun _ h => by simp at h, hab⟩
  | cons tile rest ih =>
      intro w
      unfold mapped
      have h1 := tiledRenderingFunctor_ok e args tile output w hst
      simp only [Render.bind_ok _ _ _ _ h1, Res.prepend_world]
      obtain ⟨sts, hsts, _⟩ := mapped_tiledRenderingFunctor_ok e args output hst rest
        (tiledRenderingFunctor e args tile output w).world
      simp only [Render.bind_ok _ _ _ _ hsts, Res.prepend_world, Render.pure_run]
      intro hab
      obtain ⟨hk2, hc2, hab1⟩ := ih _ hab
      obtain ⟨hk1, hc1, hab0⟩ := tiledRenderingFunctor_completed e args tile output w hst hab1
      refine ⟨fun other => World.keeps_trans (hk1 other) (hk2 other), ?_, hab0⟩
      intro t ht x y htc hrod
      rcases List.mem_cons.mp ht with h | h
      · subst h
        exact World.covered_of_keeps (hk2 output) (hc1 x y htc hrod)
      · apply hc2 t h x y htc
        rw [(hk1 output).2.1]
        exact hrod

/-- The `switch` on a rectangle, returning without error, the abort flag being
unset at the end (in the tier `FULLY_SAFE_FRAME`, every computation returning
`StatOK`): the rectangle is marked rendered in the buffer. -/
theorem renderRoI_switch_completed (e : Effect) (args : RenderArgs) (roi : RectI) (image : Nat)
    (w : World)
    (hframe : e.renderThreadSafety = RenderSafety.FULLY_SAFE_FRAME →
      ∀ t s r v i w', (e.render t s r v i w').1 = Status.StatOK)
    (hok : (renderRoI_switch e args roi image w).val = Except.ok ())
    (hab : e.addr ∉ (renderRoI_switch e args roi image w).world.aborted) :
    (∀ other, World.keeps w (renderRoI_switch e args roi image w).world other) ∧
      (∀ x y, roi.contains x y → (w.image image).rod.contains x y →
        (renderRoI_switch e args roi image w).world.covered image x y) ∧
      e.addr ∉ w.aborted := by
  have single : ∀ (w1 : World), w1.images = w.images → (∀ a, a ∈ w.aborted → a ∈ w1.aborted) →
      e.addr ∉ (markForRendered image roi w1).world.aborted →
      (∀ other, World.keeps w (markForRendered image roi w1).world other) ∧
        (∀ x y, roi.contains x y → (w.image image).rod.contains x y →
          (markForRendered image roi w1).world.covered image x y) ∧
        e.addr ∉ w.aborted := by
    intro w1 himg1 hab1 hflag
    have hk1 : ∀ other, World.keeps w w1 other := fun other =>
      World.keeps_of_images_eq other himg1
    refine ⟨fun other => World.keeps_trans (hk1 other) (markForRendered_keeps image roi w1 other),
      fun x y h1 h2 => ?_, fun h => hflag (hab1 _ h)⟩
    apply markForRendered_covered image roi w1 x y h1
    rw [(hk1 image).2.1]
    exact h2
  revert hok hab
  unfold renderRoI_switch
  cases hs : e.renderThreadSafety with
  | FULLY_SAFE_FRAME =>
      have hst := hframe hs
      simp only [Render.get_bind_run]
      obtain ⟨sts, hsts, _⟩ := mapped_tiledRenderingFunctor_ok e args image hst
        (RectI.splitRectIntoSmallerRect roi w.idealThreadCount) w
      simp only [Render.bind_ok _ _ _ _ hsts, Res.prepend_world, Res.prepend_val]
      intro _ hab
      have hab' : e.addr ∉ (mapped (fun tile => tiledRenderingFunctor e args tile image)
          (RectI.splitRectIntoSmallerRect roi w.idealThreadCount) w).world.aborted := by
        intro h
        apply hab
        split <;> exact h
      obtain ⟨hk, hc, hab0⟩ := mapped_tiledRenderingFunctor_completed e args image hst _ w hab'
      have hworld : ∀ (r : Res Unit), r.world = (mapped (fun tile => tiledRenderingFunctor e args tile image)
          (RectI.splitRectIntoSmallerRect roi w.idealThreadCount) w).world →
          ((∀ other, World.keeps w r.world other) ∧
            (∀ x y, roi.contains x y → (w.image image).rod.contains x y →
              r.world.covered image x y) ∧ e.addr ∉ w.aborted) := by
        intro r hr
        rw [hr]
        refine ⟨hk, fun x y h1 h2 => ?_, hab0⟩
        obtain ⟨tile, htile, htc⟩ :=
          (RectI.splitRectIntoSmallerRect_spec roi w.idealThreadCount x y).mpr h1
        exact hc tile htile x y htc h2
      apply hworld
      split <;> rfl
  | UNSAFE =>
      simp only [Render.emit_bind_run, callRender_bind_run, Res.prepend_world, Res.prepend_val,
        aborted_bind_run]
      by_cases hst : (e.render args._time args._scale roi args._view image w).1 = Status.StatOK
      · simp only [hst, ne_eq, not_true_eq_false, if_false, aborted_bind_run]
        by_cases hflag : e.addr ∈ (callRender e args._time args._scale roi args._view image w).world.aborted
        · simp only [hflag, decide_True, Bool.not_true, Bool.false_eq_true, if_false,
            Render.pure_run]
          intro _ h
          exact absurd trivial h
        · simp only [hflag, decide_False, Bool.not_false, if_true]
          intro _ hab
          exact single _ (callRender_images _ _ _ _ _ _ _)
            (fun a ha => callRender_aborted _ _ _ _ _ _ _ a ha) hab
      · simp [hst, Render.raise]
  | INSTANCE_SAFE =>
      simp only [callRender_bind_run, Res.prepend_world, Res.prepend_val, aborted_bind_run]
      by_cases hst : (e.render args._time args._scale roi args._view image w).1 = Status.StatOK
      · simp only [hst, ne_eq, not_true_eq_false, if_false, aborted_bind_run]
        by_cases hflag : e.addr ∈ (callRender e args._time args._scale roi args._view image w).world.aborted
        · simp only [hflag, decide_True, Bool.not_true, Bool.false_eq_true, if_false,
            Render.pure_run]
          intro _ h
          exact absurd trivial h
        · simp only [hflag, decide_False, Bool.not_false, if_true]
          intro _ hab
          exact single _ (callRender_images _ _ _ _ _ _ _)
            (fun a ha => callRender_aborted _ _ _ _ _ _ _ a ha) hab
      · simp [hst, Render.raise]
  | FULLY_SAFE =>
      simp only [callRender_bind_run, Res.prepend_world, Res.prepend_val, aborted_bind_run]
      by_cases hst : (e.render args._time args._scale roi args._view image w).1 = Status.StatOK
      · simp only [hst, ne_eq, not_true_eq_false, if_false, aborted_bind_run]
        by_cases hflag : e.addr ∈ (callRender e args._time args._scale roi args._view image w).world.aborted
        · simp only [hflag, decide_True, Bool.not_true, Bool.false_eq_true, if_false,
            Render.pure_run]
          intro _ h
          exact absurd trivial h
        · simp only [hflag, decide_False, Bool.not_false, if_true]
          intro _ hab
          exact single _ (callRender_images _ _ _ _ _ _ _)
            (fun a ha => callRender_aborted _ _ _ _ _ _ _ a ha) hab
      · simp [hst, Render.raise]

/-- The tile functor allocates and frees no buffer. -/
theorem tiledRenderingFunctor_length (e : Effect) (args : RenderArgs) (tile : RectI) (output : Nat)
    (w : World) :
    (tiledRenderingFunctor e args tile output w).world.images.length = w.images.length := by
  unfold tiledRenderingFunctor
  simp only [setLocalData_bind_run, callRender_bind_run, Res.prepend_world]
  have h0 : (callRender e args._time args._scale tile args._view output
      (setLocalData e args w).world).world.images = w.images := by
    rw [callRender_images]
    rfl
  split
  · simp only [Render.pure_run, h0]
  · simp only [aborted_bind_run]
    split
    · simp only [markForRendered_bind_run, Render.pure_run, Res.prepend_world, markForRendered,
        List.length_modify, h0]
    · simp only [Render.pure_bind_run, Render.pure_run, h0]

/-- The tiles of a rectangle allocate and free no buffer. -/
theorem mapped_tiledRenderingFunctor_length (e : Effect) (args : RenderArgs) (output : Nat) :
    ∀ (tiles : List RectI) (w : World),
      (mapped (fun tile => tiledRenderingFunctor e args tile output) tiles w).world.images.length
        = w.images.length := by
  intro tiles
  induction tiles with
  | nil => intro w; rfl
  | cons tile rest ih =>
      intro w
      unfold mapped
      cases h1 : (tiledRenderingFunctor e args tile output w).val with
      | error err =>
          simp only [Render.bind_error _ _ _ _ h1]
          exact tiledRenderingFunctor_length e args tile output w
      | ok st =>
          simp only [Render.bind_ok _ _ _ _ h1, Res.prepend_world]
          cases h2 : (mapped (fun tile => tiledRenderingFunctor e args tile output) rest
              (tiledRenderingFunctor e args tile output w).world).val with
          | error err =>
              simp only [Render.bind_error _ _ _ _ h2]
              rw [ih, tiledRenderingFunctor_length]
          | ok sts =>
              simp only [Render.bind_ok _ _ _ _ h2, Res.prepend_world, Render.pure_run]
              rw [ih, tiledRenderingFunctor_length]

/-- The `switch` allocates and frees no buffer. -/
theorem renderRoI_switch_length (e : Effect) (args : RenderArgs) (roi : RectI) (image : Nat)
    (w : World) :
    (renderRoI_switch e args roi image w).world.images.length = w.images.length := by
  have h0 : (callRender e args._time args._scale roi args._view image w).world.images = w.images :=
    callRender_images _ _ _ _ _ _ _
  unfold renderRoI_switch
  cases e.renderThreadSafety with
  | FULLY_SAFE_FRAME =>
      simp only [Render.get_bind_run]
      cases h2 : (mapped (fun tile => tiledRenderingFunctor e args tile image)
          (RectI.splitRectIntoSmallerRect roi w.idealThreadCount) w).val with
      | error err =>
          simp only [Render.bind_error _ _ _ _ h2]
          exact mapped_tiledRenderingFunctor_length e args image _ w
      | ok sts =>
          simp only [Render.bind_ok _ _ _ _ h2, Res.prepend_world]
          split
          · exact mapped_tiledRenderingFunctor_length e args image _ w
          · exact mapped_tiledRenderingFunctor_length e args image _ w
  | UNSAFE =>
      simp only [Render.emit_bind_run, callRender_bind_run, Res.prepend_world]
      split
      · simp only [Render.raise, h0]
      · simp only [aborted_bind_run]
        split
        · simp only [markForRendered, List.length_modify, h0]
        · simp only [Render.pure_run, h0]
  | INSTANCE_SAFE =>
      simp only [callRender_bind_run, Res.prepend_world]
      split
      · simp only [Render.raise, h0]
      · simp only [aborted_bind_run]
        split
        · simp only [markForRendered, List.length_modify, h0]
        · simp only [Render.pure_run, h0]
  | FULLY_SAFE =>
      simp only [callRender_bind_run, Res.prepend_world]
      split
      · simp only [Render.raise, h0]
      · simp only [aborted_bind_run]
        split
        · simp only [markForRendered, List.length_modify, h0]
        · simp only [Render.pure_run, h0]

/-- The loop over the inputs, when it finds no abort: the buffer keeps its
region and marks, and the abort flag was unset before if it is unset after. -/
theorem renderRoI_inputs_completed (e : Effect) (time : SequenceTime) (scale : RenderScale)
    (view : Int) (byPassCache : Bool) (image : Nat) (hleave : e.inputsLeave image) :
    ∀ (inputsRoi : RoIMap), (∀ it ∈ inputsRoi, some it.1 ∈ e.inputs) → ∀ (w : World),
      image < w.images.length →
      (renderRoI_inputs e time scale view byPassCache image inputsRoi w).val = Except.ok false →
      World.keeps w (renderRoI_inputs e time scale view byPassCache image inputsRoi w).world image ∧
        (e.addr ∉ (renderRoI_inputs e time scale view byPassCache image inputsRoi w).world.aborted →
          e.addr ∉ w.aborted) := by
  intro inputsRoi
  induction inputsRoi with
  | nil =>
      intro _ w _ _
      exact ⟨World.keeps_refl w image, fun h => h⟩
  | cons it2 rest ih =>
      intro hmem w hlt
      have hin : some it2.1 ∈ e.inputs := hmem it2 (List.mem_cons_self _ _)
      have hrest : ∀ it ∈ rest, some it.1 ∈ e.inputs :=
        fun it hit => hmem it (List.mem_cons_of_mem _ hit)
      obtain ⟨hk, hmono⟩ := hleave it2.1 hin time scale view it2.2 byPassCache w hlt
      unfold renderRoI_inputs
      simp only [getInputNumber_ne e it2.1 hin, if_false, Render.emit_bind_run, Res.prepend_val,
        Res.prepend_world]
      cases hr : (it2.1.renderRoI time scale view it2.2 byPassCache w).val with
      | error err => simp [Render.bind_error _ _ _ _ hr]
      | ok inputImg =>
          simp only [Render.bind_ok _ _ _ _ hr, Render.emit_bind_run, aborted_bind_run,
            Res.prepend_val, Res.prepend_world]
          by_cases hab : e.addr ∈ (it2.1.renderRoI time scale view it2.2 byPassCache w).world.aborted
          · simp [hab]
          · simp only [hab, decide_False, Bool.false_eq_true, if_false]
            intro hval
            obtain ⟨hk2, hmono2⟩ := ih hrest _ (hk.1 hlt) hval
            exact ⟨World.keeps_trans hk hk2, fun h hw => hmono2 h (hmono hw)⟩

/-- The loop over the rectangles, when it runs to its end and the abort flag
is unset at the end: every rectangle is marked rendered in the buffer, which
keeps its region and earlier marks. -/
theorem renderRoI_rects_completed (e : Effect) (time : SequenceTime) (scale : RenderScale)
    (view : Int) (byPassCache : Bool) (image : Nat) (hleave : e.inputsLeave image)
    (hframe : e.renderThreadSafety = RenderSafety.FULLY_SAFE_FRAME →
      ∀ t s r v i w', (e.render t s r v i w').1 = Status.StatOK) :
    ∀ (rects : List RectI) (w : World),
      image < w.images.length →
      (renderRoI_rects e time scale view byPassCache image rects w).val = Except.ok false →
      e.addr ∉ (renderRoI_rects e time scale view byPassCache image rects w).world.aborted →
      World.keeps w (renderRoI_rects e time scale view byPassCache image rects w).world image ∧
        (∀ rect ∈ rects, ∀ x y, rect.contains x y → (w.image image).rod.contains x y →
          (renderRoI_rects e time scale view byPassCache image rects w).world.covered image x y) ∧
        e.addr ∉ w.aborted := by
  intro rects
  induction rects with
  | nil =>
      intro w _ _ hab
      exact ⟨World.keeps_refl w image, fun _ h => by simp at h, hab⟩
  | cons it rest ih =>
      intro w hlt
      unfold renderRoI_rects
      simp only [setLocalData_bind_run]
      generalize hw0 : (setLocalData e ⟨it, time, scale, view⟩ w).world = w0
      have hk0 : World.keeps w w0 image := World.keeps_of_images_eq image (by rw [← hw0]; rfl)
      have hab0 : w0.aborted = w.aborted := by rw [← hw0]; rfl
      cases hr : (renderRoI_inputs e time scale view byPassCache image
          (getRegionOfInterest e time scale it) w0).val with
      | error err => simp [Render.bind_error _ _ _ _ hr]
      | ok returned =>
          simp only [Render.bind_ok _ _ _ _ hr, Res.prepend_val, Res.prepend_world]
          cases returned with
          | true => simp
          | false =>
              obtain ⟨hk1, hmono1⟩ := renderRoI_inputs_completed e time scale view byPassCache image
                hleave (getRegionOfInterest e time scale it)
                (fun x hx => (getRegionOfInterest_mem e time scale it x hx).1) w0 (hk0.1 hlt) hr
              simp only [Bool.false_eq_true, if_false, Render.emit_bind_run, Res.prepend_val,
                Res.prepend_world]
              generalize (renderRoI_inputs e time scale view byPassCache image
                (getRegionOfInterest e time scale it) w0).world = w1 at hk1 hmono1 ⊢
              cases hs : (renderRoI_switch e ⟨it, time, scale, view⟩ it image w1).val with
              | error err => simp [Render.bind_error _ _ _ _ hs]
              | ok u =>
                  simp only [Render.bind_ok _ _ _ _ hs, Res.prepend_val, Res.prepend_world,
                    Render.emit_bind_run]
                  intro hval hab
                  have hk01 : World.keeps w w1 image := World.keeps_trans hk0 hk1
                  have hlt2 : image <
                      (renderRoI_switch e ⟨it, time, scale, view⟩ it image w1).world.images.length := by
                    rw [renderRoI_switch_length]
                    exact hk01.1 hlt
                  obtain ⟨hk3, hc3, hab2⟩ := ih _ hlt2 hval hab
                  obtain ⟨hk2, hc2, hab1⟩ := renderRoI_switch_completed e ⟨it, time, scale, view⟩
                    it image w1 hframe hs hab2
                  have hk02 : World.keeps w _ image := World.keeps_trans hk01 (hk2 image)
                  refine ⟨World.keeps_trans hk02 hk3, ?_, ?_⟩
                  · intro rect hrect x y hrc hrod
                    rcases List.mem_cons.mp hrect with h | h
                    · subst h
                      apply World.covered_of_keeps hk3
                      apply hc2 x y hrc
                      rw [hk01.2.1]
                      exact hrod
                    · apply hc3 rect h x y hrc
                      rw [hk02.2.1]
                      exact hrod
                  · have := hmono1 hab1
                    rw [hab0] at this
                    exact this

/-- The rendering of `image`, when it returns with the abort flag unset: every
pixel of the requested region inside the bounding region of the buffer is
marked rendered, and the buffer keeps its region. -/
theorem renderRoI_image_completed (e : Effect) (time : SequenceTime) (scale : RenderScale)
    (view : Int) (renderWindow : RectI) (byPassCache : Bool) (image : Nat) (w : World)
    (res : Option Nat) (hleave : e.inputsLeave image)
    (hframe : e.renderThreadSafety = RenderSafety.FULLY_SAFE_FRAME →
      ∀ t s r v i w', (e.render t s r v i w').1 = Status.StatOK)
    (hlt : image < w.images.length)
    (hok : (renderRoI_image e time scale view renderWindow byPassCache image w).val = Except.ok res)
    (hab : e.addr ∉ (renderRoI_image e time scale view renderWindow byPassCache image w).world.aborted) :
    World.keeps w (renderRoI_image e time scale view renderWindow byPassCache image w).world image ∧
      ∀ x y, renderWindow.contains x y → (w.image image).rod.contains x y →
        (renderRoI_image e time scale view renderWindow byPassCache image w).world.covered
          image x y := by
  revert hok hab
  unfold renderRoI_image
  simp only [addImageBeingRendered_bind_run, Render.get_bind_run, Res.prepend_world,
    Res.prepend_val]
  generalize hw0 : (addImageBeingRendered e image time view w).world = w0
  have hk0 : World.keeps w w0 image := World.keeps_of_images_eq image (by rw [← hw0]; rfl)
  have himg0 : w0.image image = w.image image := by
    unfold World.image
    rw [← hw0]
    rfl
  cases hr : (renderRoI_rects e time scale view byPassCache image
      ((w0.image image).getRestToRender (renderWindow.intersect (w0.image image).getRoD)) w0).val with
  | error err => simp [Render.bind_error _ _ _ _ hr]
  | ok returned =>
      simp only [Render.bind_ok _ _ _ _ hr, Res.prepend_world, Res.prepend_val]
      cases returned with
      | true =>
          simp only [if_true, Render.pure_run]
          intro _ hab
          exact absurd (renderRoI_rects_returned e time scale view byPassCache image _ w0 hr).1 hab
      | false =>
          simp only [Bool.false_eq_true, if_false, removeImageBeingRendered_bind_run,
            clearExceedingEntriesFromNodeCache_bind_run, aborted_bind_run, Res.prepend_world,
            Res.prepend_val]
          generalize hw1 : (renderRoI_rects e time scale view byPassCache image
            ((w0.image image).getRestToRender (renderWindow.intersect (w0.image image).getRoD))
            w0).world = w1
          have hfinal : ∀ (r : Res (Option Nat)), r.world.images = w1.images →
              r.world.aborted = w1.aborted → e.addr ∉ r.world.aborted →
              World.keeps w r.world image ∧
                ∀ x y, renderWindow.contains x y → (w.image image).rod.contains x y →
                  r.world.covered image x y := by
            intro r himg habs hab
            have hk2 : World.keeps w1 r.world image := World.keeps_of_images_eq image himg
            have hab1 : e.addr ∉ w1.aborted := habs ▸ hab
            rw [← hw1] at hab1
            obtain ⟨hk1, hc1, _⟩ := renderRoI_rects_completed e time scale view byPassCache image
              hleave hframe _ w0 (hk0.1 hlt) hr hab1
            rw [hw1] at hk1 hc1
            refine ⟨World.keeps_trans (World.keeps_trans hk0 hk1) hk2, fun x y hrw hrod => ?_⟩
            apply World.covered_of_keeps hk2
            by_cases hcov : ∃ m ∈ (w0.image image).rendered, m.contains x y
            · exact World.covered_of_keeps hk1 hcov
            · have hin : (renderWindow.intersect (w0.image image).getRoD).contains x y := by
                rw [RectI.contains_intersect, Image.getRoD, himg0]
                exact ⟨hrw, hrod⟩
              obtain ⟨p, hp, hpc⟩ := ((Image.getRestToRender_spec (w0.image image)
                (renderWindow.intersect (w0.image image).getRoD)).2 x y).mpr
                ⟨hin, fun m hm hmc => hcov ⟨m, hm, hmc⟩⟩
              apply hc1 p hp x y hpc
              rw [himg0]
              exact hrod
          by_cases hflag : e.addr ∈ (clearExceedingEntriesFromNodeCache
                (removeImageBeingRendered e time view w1).world).world.aborted
          · simp only [hflag, decide_True, if_true, removeFromNodeCache_bind_run, Render.pure_run,
              Res.prepend_world]
            intro _ hab
            exact absurd hflag hab
          · simp only [hflag, decide_False, Bool.false_eq_true, if_false, Render.pure_bind_run,
              Render.pure_run]
            intro _ _
            exact hfinal ⟨Except.ok (some image), _, []⟩ rfl rfl hflag

/-- A cache lookup that finds the key returns the buffer entered under it and
leaves every buffer as it is. -/
theorem renderRoI_lookup_hit (key : ImageKey) (scale : RenderScale) (time : SequenceTime)
    (w : World) (image : Nat)
    (hcached : w.nodeCache.find? (fun p => decide (p.1 = key)) = some (key, image)) :
    (renderRoI_lookup key scale time false w).val = Except.ok (some image) ∧
      (renderRoI_lookup key scale time false w).events = [Event.getImageFromCache key true] ∧
      (renderRoI_lookup key scale time false w).world.images = w.images ∧
      (renderRoI_lookup key scale time false w).world.aborted = w.aborted := by
  have h1 : getImageFromCache key w = ⟨Except.ok (true, some image),
      { w with nodeCache := (key, image) :: w.nodeCache.filter fun q => decide (q.1 ≠ key) },
      [Event.getImageFromCache key true]⟩ := by
    simp [getImageFromCache, hcached]
  unfold renderRoI_lookup
  have hv : (getImageFromCache key w).val = Except.ok (true, some image) := by rw [h1]
  simp only [Bool.not_false, if_true, Render.bind_ok _ _ _ _ hv, Bool.not_true, Bool.false_and,
    Bool.false_eq_true, if_false, Render.pure_run, Res.prepend, h1, List.append_nil, and_self]

/-- The pointer returned by the cache lookup or the allocation designates an
allocated buffer, when every pointer held by the cache does. -/
theorem renderRoI_lookup_allocated (key : ImageKey) (scale : RenderScale) (time : SequenceTime)
    (byPassCache : Bool) (w : World) (image : Nat)
    (hwf : ∀ q ∈ w.nodeCache, q.2 < w.images.length)
    (hok : (renderRoI_lookup key scale time byPassCache w).val = Except.ok (some image)) :
    image < (renderRoI_lookup key scale time byPassCache w).world.images.length := by
  revert hok
  unfold renderRoI_lookup
  cases byPassCache with
  | true =>
      simp only [Bool.not_true, Bool.false_eq_true, if_false, Render.pure_bind_run, Bool.not_false,
        Bool.and_self, if_true]
      intro h
      have : image = w.images.length := by
        have h' : Except.ok (some w.images.length) = (Except.ok (some image) : Except Err _) := h
        exact (Option.some.inj (Except.ok.inj h')).symm
      subst this
      show w.images.length < (w.images ++ [Image.new key.rod scale time]).length
      simp
  | false =>
      simp only [Bool.not_false, if_true]
      cases hfind : w.nodeCache.find? (fun p => decide (p.1 = key)) with
      | some p =>
          have h1 : getImageFromCache key w = ⟨Except.ok (true, some p.2),
              { w with nodeCache := (key, p.2) :: w.nodeCache.filter fun q => decide (q.1 ≠ key) },
              [Event.getImageFromCache key true]⟩ := by
            simp [getImageFromCache, hfind]
          have hv : (getImageFromCache key w).val = Except.ok (true, some p.2) := by rw [h1]
          simp only [Render.bind_ok _ _ _ _ hv, Bool.not_true, Bool.false_and, Bool.false_eq_true,
            if_false, Render.pure_run, Res.prepend, h1]
          intro h
          have : image = p.2 := (Option.some.inj (Except.ok.inj h)).symm
          subst this
          exact hwf p (List.mem_of_find?_eq_some hfind)
      | none =>
          have h1 : getImageFromCache key w = ⟨Except.ok (false, some w.images.length),
              { w with
                images := w.images ++ [Image.new key.rod key.scale key.time]
                nodeCache := (key, w.images.length) :: w.nodeCache },
              [Event.getImageFromCache key false]⟩ := by
            simp [getImageFromCache, hfind]
          have hv : (getImageFromCache key w).val = Except.ok (false, some w.images.length) := by
            rw [h1]
          simp only [Render.bind_ok _ _ _ _ hv, Bool.not_false, Bool.true_and, Bool.false_eq_true,
            if_false, Render.pure_run, Res.prepend, h1]
          intro h
          have : image = w.images.length := (Option.some.inj (Except.ok.inj h)).symm
          subst this
          simp

/-- The rendering of `image` returns `image` when it returns. -/
theorem renderRoI_image_val (e : Effect) (time : SequenceTime) (scale : RenderScale)
    (view : Int) (renderWindow : RectI) (byPassCache : Bool) (image : Nat) (w : World)
    (res : Option Nat)
    (hok : (renderRoI_image e time scale view renderWindow byPassCache image w).val = Except.ok res) :
    res = some image := by
  revert hok
  unfold renderRoI_image
  simp only [addImageBeingRendered_bind_run, Render.get_bind_run, Res.prepend_val]
  generalize (addImageBeingRendered e image time view w).world = w0
  cases hr : (renderRoI_rects e time scale view byPassCache image
      ((w0.image image).getRestToRender (renderWindow.intersect (w0.image image).getRoD)) w0).val with
  | error err => simp [Render.bind_error _ _ _ _ hr]
  | ok returned =>
      simp only [Render.bind_ok _ _ _ _ hr, Res.prepend_val]
      cases returned with
      | true =>
          simp only [if_true, Render.pure_run]
          intro h
          exact (Except.ok.inj h).symm
      | false =>
          simp only [Bool.false_eq_true, if_false, removeImageBeingRendered_bind_run,
            clearExceedingEntriesFromNodeCache_bind_run, aborted_bind_run, Res.prepend_val]
          split
          · simp only [removeFromNodeCache_bind_run, Render.pure_run, Res.prepend_val]
            intro h
            exact (Except.ok.inj h).symm
          · simp only [Render.pure_bind_run, Render.pure_run]
            intro h
            exact (Except.ok.inj h).symm

/-- The rendering of a buffer in which nothing of the requested region is left
to render, the abort flag being unset: the buffer is registered, deregistered
and returned, and the cache is asked to drop its excess; no input is rendered
and no computation is called. -/
theorem renderRoI_image_nothing_left (e : Effect) (time : SequenceTime) (scale : RenderScale)
    (view : Int) (renderWindow : RectI) (byPassCache : Bool) (image : Nat) (w : World)
    (hrest : (w.image image).getRestToRender (renderWindow.intersect (w.image image).getRoD) = [])
    (hab : e.addr ∉ w.aborted) :
    (renderRoI_image e time scale view renderWindow byPassCache image w).val
        = Except.ok (some image) ∧
      (renderRoI_image e time scale view renderWindow byPassCache image w).events =
        [Event.addImageBeingRendered e.addr image time view,
          Event.removeImageBeingRendered e.addr time view,
          Event.clearExceedingEntriesFromNodeCache] := by
  have himg : (addImageBeingRendered e image time view w).world.image image = w.image image := rfl
  have hab' : e.addr ∉ (clearExceedingEntriesFromNodeCache (removeImageBeingRendered e time view
      (addImageBeingRendered e image time view w).world).world).world.aborted := hab
  unfold renderRoI_image
  simp only [addImageBeingRendered_bind_run, Render.get_bind_run, himg, hrest, renderRoI_rects,
    Render.pure_bind_run, Bool.false_eq_true, if_false, removeImageBeingRendered_bind_run,
    clearExceedingEntriesFromNodeCache_bind_run, aborted_bind_run, hab', decide_False,
    Render.pure_run, Res.prepend_val, Res.prepend_events, List.singleton_append, List.append_nil,
    and_self]

/-- C3 (counterexample): a writer whose cache policy is `NEVER_CACHE`. The
first request completes without error and unaborted after one computation
call; the same request issued again, from the state the first one left, makes
one computation call again. -/
theorem C3_counterexample_never_cached_effect_renders_again :
    (renderRoI (neverCachedEffect 1) 0 ⟨1, 1⟩ 0 ⟨0, 0, 4, 4⟩ false World.init).val
        = Except.ok (some 0) ∧
      (renderRoI (neverCachedEffect 1) 0 ⟨1, 1⟩ 0 ⟨0, 0, 4, 4⟩ false World.init).world.aborted
        = [] ∧
      (renderRoI (neverCachedEffect 1) 0 ⟨1, 1⟩ 0 ⟨0, 0, 4, 4⟩ false
          (renderRoI (neverCachedEffect 1) 0 ⟨1, 1⟩ 0 ⟨0, 0, 4, 4⟩ false World.init).world).val
        = Except.ok (some 1) ∧
      (renderRoI (neverCachedEffect 1) 0 ⟨1, 1⟩ 0 ⟨0, 0, 4, 4⟩ false
          (renderRoI (neverCachedEffect 1) 0 ⟨1, 1⟩ 0 ⟨0, 0, 4, 4⟩ false World.init).world).events.filter
          Event.isRender
        = [Event.render 1 0 ⟨1, 1⟩ ⟨0, 0, 4, 4⟩ 0 1 Status.StatOK] := by
  decide

/-- C3 (amended): a request that is not an identity, on an effect whose cache
policy is not `NEVER_CACHE`, issued without cache bypass from a state whose
cache holds pointers to allocated buffers only, whose first call returns a
buffer with the abort flag unset (in the tier `FULLY_SAFE_FRAME`, every
computation returning `StatOK`), the inputs leaving that buffer and the abort
flag alone and the buffer still being in the cache under the key of the
request. The second call, made from the state the first one left, returns the
same buffer and makes exactly these calls: the report of the format if the
effect is a reader, the cache lookup (a hit), the registration and
deregistration of the buffer and the eviction request; it makes no computation
call and renders no input. -/
theorem C3_second_render_served_from_cache (e : Effect) (time : SequenceTime)
    (scale : RenderScale) (view : Int) (renderWindow : RectI) (w : World) (image : Nat)
    (hid : e.isIdentity time scale renderWindow view = none)
    (hpolicy : e.getCachePolicy time ≠ CachePolicy.NEVER_CACHE)
    (hwf : ∀ q ∈ w.nodeCache, q.2 < w.images.length)
    (hleave : e.inputsLeave image)
    (hframe : e.renderThreadSafety = RenderSafety.FULLY_SAFE_FRAME →
      ∀ t s r v i w', (e.render t s r v i w').1 = Status.StatOK)
    (hfirst : (renderRoI e time scale view renderWindow false w).val = Except.ok (some image))
    (hunaborted : e.addr ∉ (renderRoI e time scale view renderWindow false w).world.aborted)
    (hcached : (renderRoI e time scale view renderWindow false w).world.nodeCache.find?
        (fun p => decide (p.1 =
          (⟨if e.shouldRenderedDataBePersistent then 1 else 0, e.hashValue, time, scale, view,
            (getRegionOfDefinition e time RectI.empty).2⟩ : ImageKey)))
      = some (⟨if e.shouldRenderedDataBePersistent then 1 else 0, e.hashValue, time, scale, view,
            (getRegionOfDefinition e time RectI.empty).2⟩, image)) :
    (renderRoI e time scale view renderWindow false
        (renderRoI e time scale view renderWindow false w).world).val = Except.ok (some image) ∧
      (renderRoI e time scale view renderWindow false
        (renderRoI e time scale view renderWindow false w).world).events =
        (if e.isReader then
            [Event.setOrAddProjectFormat (getRegionOfDefinition e time RectI.empty).2]
          else []) ++
          [Event.getImageFromCache
              ⟨if e.shouldRenderedDataBePersistent then 1 else 0, e.hashValue, time, scale, view,
                (getRegionOfDefinition e time RectI.empty).2⟩ true,
            Event.addImageBeingRendered e.addr image time view,
            Event.removeImageBeingRendered e.addr time view,
            Event.clearExceedingEntriesFromNodeCache] ∧
      (renderRoI e time scale view renderWindow false
        (renderRoI e time scale view renderWindow false w).world).events.filter Event.isRender
        = [] := by
  generalize hkey : (⟨if e.shouldRenderedDataBePersistent then 1 else 0, e.hashValue, time, scale,
    view, (getRegionOfDefinition e time RectI.empty).2⟩ : ImageKey) = key at hcached ⊢
  have hbp : (false || decide (e.getCachePolicy time = CachePolicy.NEVER_CACHE)) = false := by
    simp [hpolicy]
  -- both calls go through the part after the identity test, on the same key
  have hcall : ∀ w0 : World, renderRoI e time scale view renderWindow false w0 =
      if (getRegionOfDefinition e time RectI.empty).1 = Status.StatFailed then
        (⟨Except.ok none, w0, []⟩ : Res (Option Nat))
      else
        ((match (renderRoI_lookup key scale time false w0).val with
          | Except.error err =>
              (⟨Except.error err, (renderRoI_lookup key scale time false w0).world,
                (renderRoI_lookup key scale time false w0).events⟩ : Res (Option Nat))
          | Except.ok none =>
              ⟨Except.error (Err.undefined_behaviour "image is NULL"),
                (renderRoI_lookup key scale time false w0).world,
                (renderRoI_lookup key scale time false w0).events⟩
          | Except.ok (some img) =>
              (renderRoI_image e time scale view renderWindow false img
                (renderRoI_lookup key scale time false w0).world).prepend
                (renderRoI_lookup key scale time false w0).events).prepend
          (if e.isReader then
            [Event.setOrAddProjectFormat (getRegionOfDefinition e time RectI.empty).2]
          else [])) := by
    intro w0
    simp only [renderRoI, hid, renderRoI_render, hbp, hkey]
    split
    · rfl
    · cases e.isReader with
      | true =>
          simp only [if_true, Render.emit_bind_run]
          congr 1
          cases hl : (renderRoI_lookup key scale time false w0).val with
          | error err => simp [Render.bind_error _ _ _ _ hl]
          | ok img =>
              cases img with
              | none => simp [Render.bind_ok _ _ _ _ hl, Render.raise, Res.prepend]
              | some img => simp [Render.bind_ok _ _ _ _ hl]
      | false =>
          simp only [Bool.false_eq_true, if_false, Render.pure_bind_run, Res.prepend_nil]
          cases hl : (renderRoI_lookup key scale time false w0).val with
          | error err => simp [Render.bind_error _ _ _ _ hl]
          | ok img =>
              cases img with
              | none => simp [Render.bind_ok _ _ _ _ hl, Render.raise, Res.prepend]
              | some img => simp [Render.bind_ok _ _ _ _ hl]
  by_cases hrod : (getRegionOfDefinition e time RectI.empty).1 = Status.StatFailed
  · rw [hcall w] at hfirst
    simp [hrod] at hfirst
  · -- the first call
    obtain ⟨img0, himg0⟩ := renderRoI_lookup_ok key scale time false w
    have hfirst_eq := hcall w
    simp only [hrod, if_false, himg0] at hfirst_eq
    rw [hfirst_eq] at hfirst hunaborted hcached ⊢
    simp only [Res.prepend_val, Res.prepend_world] at hfirst hunaborted hcached ⊢
    have hsame : some image = some img0 :=
      renderRoI_image_val e time scale view renderWindow false img0 _ _ hfirst
    have himage : img0 = image := (Option.some.inj hsame).symm
    subst himage
    obtain ⟨hkeep, hcov⟩ := renderRoI_image_completed e time scale view renderWindow false img0
      (renderRoI_lookup key scale time false w).world (some img0) hleave hframe
      (renderRoI_lookup_allocated key scale time false w img0 hwf himg0) hfirst hunaborted
    generalize (renderRoI_lookup key scale time false w).world = wl at hfirst hunaborted hcached hkeep hcov ⊢
    generalize (renderRoI_image e time scale view renderWindow false img0 wl).world = w1
      at hunaborted hcached hkeep hcov ⊢
    -- the second call
    obtain ⟨hv2, hev2, himg2, hab2⟩ := renderRoI_lookup_hit key scale time w1 img0 hcached
    have hsecond_eq := hcall w1
    simp only [hrod, if_false, hv2] at hsecond_eq
    have himage2 : (renderRoI_lookup key scale time false w1).world.image img0 = w1.image img0 := by
      unfold World.image
      rw [himg2]
    have hrest : ((renderRoI_lookup key scale time false w1).world.image img0).getRestToRender
        (renderWindow.intersect
          ((renderRoI_lookup key scale time false w1).world.image img0).getRoD) = [] := by
      rw [himage2, Image.getRestToRender_eq_nil_iff]
      intro x y hc
      rw [RectI.contains_intersect, Image.getRoD, hkeep.2.1] at hc
      exact hcov x y hc.1 hc.2
    obtain ⟨hv3, hev3⟩ := renderRoI_image_nothing_left e time scale view renderWindow false img0
      (renderRoI_lookup key scale time false w1).world hrest (hab2 ▸ hunaborted)
    rw [hsecond_eq]
    simp only [Res.prepend_val, Res.prepend_events, hv3, hev3, hev2, List.singleton_append,
      true_and]
    cases e.isReader <;> simp [Event.isRender]

/-- An input that only allocates a buffer of its own leaves the buffers and
the abort flags of the others alone. -/
theorem sourceRef_leaves (e : Effect) (addr : Nat) (rod : RectI) (first last : SequenceTime)
    (image : Nat) (hin : ∀ inp, some inp ∈ e.inputs → inp = sourceRef addr rod first last) :
    e.inputsLeave image := by
  intro inp hinp t s v r b w hlt
  rw [hin inp hinp]
  have hworld : ((sourceRef addr rod first last).renderRoI t s v r b w).world
      = { w with images := w.images ++ [Image.new rod s t] } := rfl
  rw [hworld]
  refine ⟨⟨fun _ => ?_, ?_, ?_⟩, fun h => h⟩
  · simp only [List.length_append, List.length_singleton]
    omega
  · simp only [World.image, List.getD_eq_getElem?_getD, List.getElem?_append_left hlt]
  · intro m hm
    simpa only [World.image, List.getD_eq_getElem?_getD, List.getElem?_append_left hlt] using hm

/-- C3 (amended), at an effect whose input 0 has the region of definition
(0,0,4,4), asked twice for (0,0,4,4) from the initial state: the second call
returns buffer 0 again after a cache hit and no computation call. -/
theorem C3_second_render_served_from_cache_witness :
    (plainEffect 1 [some (sourceRef 2 ⟨0, 0, 4, 4⟩ 1 10)]).isIdentity 0 ⟨1, 1⟩ ⟨0, 0, 4, 4⟩ 0
        = none ∧
      (renderRoI (plainEffect 1 [some (sourceRef 2 ⟨0, 0, 4, 4⟩ 1 10)]) 0 ⟨1, 1⟩ 0 ⟨0, 0, 4, 4⟩
        false World.init).val = Except.ok (some 0) ∧
      (renderRoI (plainEffect 1 [some (sourceRef 2 ⟨0, 0, 4, 4⟩ 1 10)]) 0 ⟨1, 1⟩ 0 ⟨0, 0, 4, 4⟩
        false World.init).events.filter Event.isRender
        = [Event.render 1 0 ⟨1, 1⟩ ⟨0, 0, 4, 4⟩ 0 0 Status.StatOK] ∧
      (renderRoI (plainEffect 1 [some (sourceRef 2 ⟨0, 0, 4, 4⟩ 1 10)]) 0 ⟨1, 1⟩ 0 ⟨0, 0, 4, 4⟩
        false
        (renderRoI (plainEffect 1 [some (sourceRef 2 ⟨0, 0, 4, 4⟩ 1 10)]) 0 ⟨1, 1⟩ 0 ⟨0, 0, 4, 4⟩
          false World.init).world).val = Except.ok (some 0) ∧
      (renderRoI (plainEffect 1 [some (sourceRef 2 ⟨0, 0, 4, 4⟩ 1 10)]) 0 ⟨1, 1⟩ 0 ⟨0, 0, 4, 4⟩
        false
        (renderRoI (plainEffect 1 [some (sourceRef 2 ⟨0, 0, 4, 4⟩ 1 10)]) 0 ⟨1, 1⟩ 0 ⟨0, 0, 4, 4⟩
          false World.init).world).events.filter Event.isRender = [] :=
  have h := C3_second_render_served_from_cache
    (plainEffect 1 [some (sourceRef 2 ⟨0, 0, 4, 4⟩ 1 10)]) 0 ⟨1, 1⟩ 0 ⟨0, 0, 4, 4⟩ World.init 0
    rfl (by decide) (by intro q hq; simp [World.init] at hq)
    (sourceRef_leaves _ 2 ⟨0, 0, 4, 4⟩ 1 10 0 (by
      intro inp hinp
      simpa [plainEffect] using hinp))
    (by intro h; exact absurd h (by decide)) (by decide) (by decide) (by decide)
  ⟨rfl, by decide, by decide, h.1, h.2.2⟩

/-! ## `computeHash` -/

/-- Appending values one after the other extends the accumulated values and
leaves the computed hash as it is. -/
theorem Hash64.foldl_append (values : List Nat) :
    ∀ h : Hash64, values.foldl Hash64.append h = ⟨h.node_values ++ values, h.hash⟩ := by
  induction values with
  | nil => intro h; simp
  | cons v rest ih =>
      intro h
      simp only [List.foldl_cons, ih, Hash64.append, List.append_assoc, List.singleton_append]

/-- The parameters appended one after the other. -/
theorem Knob.foldl_appendHashVectorToHash (knobs : List Knob) :
    ∀ h : Hash64, knobs.foldl (fun h knob => knob.appendHashVectorToHash h) h =
      ⟨h.node_values ++ knobs.flatMap (fun knob => knob.hashVector), h.hash⟩ := by
  induction knobs with
  | nil => intro h; simp
  | cons knob rest ih =>
      intro h
      rw [List.foldl_cons, ih]
      simp only [Knob.appendHashVectorToHash, Hash64.foldl_append, List.flatMap_cons,
        List.append_assoc]

/-- The string appended character after character. -/
theorem Hash64_appendQString_eq (h : Hash64) (str : String) :
    Hash64_appendQString h str = ⟨h.node_values ++ str.toList.map Char.toNat, h.hash⟩ := by
  unfold Hash64_appendQString
  generalize str.toList = cs
  induction cs generalizing h with
  | nil => simp
  | cons c rest ih =>
      rw [List.foldl_cons, ih]
      simp only [Hash64.append, List.map_cons, List.append_assoc, List.singleton_append]

/-- The loop over the parameters, on fewer than 2^32 parameters and with
enough tests, appends the parameters from `i` on. -/
theorem computeHash_knobs_eq (knobs : List Knob) (hlen : knobs.length < 2 ^ 32) :
    ∀ (fuel i : Nat) (h : Hash64), i ≤ knobs.length → knobs.length - i < fuel →
      computeHash_knobs knobs fuel i h =
        some ((knobs.drop i).foldl (fun h knob => knob.appendHashVectorToHash h) h) := by
  intro fuel
  induction fuel with
  | zero => intro i h _ hf; omega
  | succ fuel ih =>
      intro i h hi hf
      unfold computeHash_knobs
      by_cases hlt : i < knobs.length
      · have hmod : (i + 1) % 2 ^ 32 = i + 1 := Nat.mod_eq_of_lt (by omega)
        simp only [hlt, dite_true, hmod]
        rw [ih (i + 1) _ (by omega) (by omega), List.drop_eq_getElem_cons hlt, List.foldl_cons]
      · have : i = knobs.length := by omega
        simp [hlt, this]

/-- The loop over the parameters never ends on 2^32 parameters or more. -/
theorem computeHash_knobs_none (knobs : List Knob) (hlen : 2 ^ 32 ≤ knobs.length) :
    ∀ (fuel i : Nat) (h : Hash64), i < 2 ^ 32 → computeHash_knobs knobs fuel i h = none := by
  intro fuel
  induction fuel with
  | zero => intro i h _; rfl
  | succ fuel ih =>
      intro i h hi
      unfold computeHash_knobs
      have hlt : i < knobs.length := by omega
      simp only [hlt, dite_true]
      exact ih _ _ (Nat.mod_lt _ (by decide))

/-- The loop over the input hashes, on fewer than 2^32 of them and with enough
tests, appends them from `i` on. -/
theorem computeHash_inputs_eq (inputsHashs : List Nat) (hlen : inputsHashs.length < 2 ^ 32) :
    ∀ (fuel i : Nat) (h : Hash64), i ≤ inputsHashs.length → inputsHashs.length - i < fuel →
      computeHash_inputs inputsHashs fuel i h = some ((inputsHashs.drop i).foldl Hash64.append h) := by
  intro fuel
  induction fuel with
  | zero => intro i h _ hf; omega
  | succ fuel ih =>
      intro i h hi hf
      unfold computeHash_inputs
      by_cases hlt : i < inputsHashs.length
      · have hmod : (i + 1) % 2 ^ 32 = i + 1 := Nat.mod_eq_of_lt (by omega)
        simp only [hlt, dite_true, hmod]
        rw [ih (i + 1) _ (by omega) (by omega), List.drop_eq_getElem_cons hlt, List.foldl_cons]
      · have : i = inputsHashs.length := by omega
        simp [hlt, this]

/-- The loop over the input hashes never ends on 2^32 of them or more. -/
theorem computeHash_inputs_none (inputsHashs : List Nat) (hlen : 2 ^ 32 ≤ inputsHashs.length) :
    ∀ (fuel i : Nat) (h : Hash64), i < 2 ^ 32 → computeHash_inputs inputsHashs fuel i h = none := by
  intro fuel
  induction fuel with
  | zero => intro i h _; rfl
  | succ fuel ih =>
      intro i h hi
      unfold computeHash_inputs
      have hlt : i < inputsHashs.length := by omega
      simp only [hlt, dite_true]
      exact ih _ _ (Nat.mod_lt _ (by decide))

/-- What `computeHash` returns and leaves: on vectors of fewer than 2^32
elements, the mix of the parameter values, the input hashes and the characters
of the plug-in identity, in this order, whatever the hash fields held; on
longer vectors it does not return. -/
theorem computeHash_eq (e : Effect) (knobs : List Knob) (inputsHashs : List Nat) (knobsAge : Int)
    (imp : HashFields) :
    computeHash e knobs inputsHashs knobsAge imp =
      if knobs.length < 2 ^ 32 ∧ inputsHashs.length < 2 ^ 32 then
        some (Hash64.mix (knobs.flatMap (fun knob => knob.hashVector) ++ inputsHashs ++
            e.pluginID.toList.map Char.toNat),
          ⟨⟨knobs.flatMap (fun knob => knob.hashVector) ++ inputsHashs ++
              e.pluginID.toList.map Char.toNat,
            Hash64.mix (knobs.flatMap (fun knob => knob.hashVector) ++ inputsHashs ++
              e.pluginID.toList.map Char.toNat)⟩, knobsAge⟩)
      else none := by
  simp only [computeHash]
  by_cases hk : knobs.length < 2 ^ 32
  · have h3 := computeHash_knobs_eq knobs hk (knobs.length + 1) 0 imp.hashValue.reset
      (Nat.zero_le _) (by omega)
    simp only [List.drop_zero, Knob.foldl_appendHashVectorToHash, Hash64.reset,
      List.nil_append] at h3
    simp only [Hash64.reset, h3]
    by_cases hi : inputsHashs.length < 2 ^ 32
    · have h4 := computeHash_inputs_eq inputsHashs hi (inputsHashs.length + 1) 0
        ⟨knobs.flatMap (fun knob => knob.hashVector), 0⟩ (Nat.zero_le _) (by omega)
      simp only [List.drop_zero, Hash64.foldl_append] at h4
      simp only [h4, Hash64_appendQString_eq, Hash64.computeHash, Hash64.value, hk, hi, and_self,
        if_true]
    · have h4 := computeHash_inputs_none inputsHashs (by omega) (inputsHashs.length + 1) 0
        ⟨knobs.flatMap (fun knob => knob.hashVector), 0⟩ (by decide)
      simp only [h4, hi, and_false, if_false]
  · have h3 := computeHash_knobs_none knobs (by omega) (knobs.length + 1) 0 imp.hashValue.reset
      (by decide)
    simp only [Hash64.reset] at h3
    simp only [Hash64.reset, h3, hk, false_and, if_false]

/-- C11: two calls of `computeHash` made with equal parameter values, the same
list of input hashes and equal plug-in identities, whatever hash state and
generation were stored before each call and whatever generation is passed to
each: if both return, they return the same value, which is the mix, from a
reset accumulator, of the parameter values, then the input hashes in list
order, then the characters of the plug-in identity; and both return when the
parameters and the input hashes are fewer than 2^32. -/
theorem C11_computeHash_depends_on_knobs_inputs_and_plugin_only (e1 e2 : Effect)
    (knobs1 knobs2 : List Knob) (inputsHashs : List Nat) (knobsAge1 knobsAge2 : Int)
    (imp1 imp2 : HashFields)
    (hplugin : e1.pluginID = e2.pluginID)
    (hknobs : knobs1.map (fun knob => knob.hashVector) = knobs2.map (fun knob => knob.hashVector)) :
    (∀ v1 v2 imp1' imp2',
      computeHash e1 knobs1 inputsHashs knobsAge1 imp1 = some (v1, imp1') →
      computeHash e2 knobs2 inputsHashs knobsAge2 imp2 = some (v2, imp2') →
      v1 = v2 ∧
        v1 = Hash64.mix (knobs1.flatMap (fun knob => knob.hashVector) ++ inputsHashs ++
          e1.pluginID.toList.map Char.toNat) ∧
        imp1'.hashValue.value = v1 ∧ imp1'.hashAge = knobsAge1) ∧
      (knobs1.length < 2 ^ 32 → inputsHashs.length < 2 ^ 32 →
        ∃ v imp1' imp2',
          computeHash e1 knobs1 inputsHashs knobsAge1 imp1 = some (v, imp1') ∧
          computeHash e2 knobs2 inputsHashs knobsAge2 imp2 = some (v, imp2')) := by
  have hflat : knobs1.flatMap (fun knob => knob.hashVector)
      = knobs2.flatMap (fun knob => knob.hashVector) := by
    rw [List.flatMap_def, List.flatMap_def, hknobs]
  have hlen : knobs1.length = knobs2.length := by
    have := congrArg List.length hknobs
    simpa using this
  rw [computeHash_eq, computeHash_eq, ← hflat, ← hplugin, ← hlen]
  constructor
  · intro v1 v2 imp1' imp2' h1 h2
    by_cases hlt : knobs1.length < 2 ^ 32 ∧ inputsHashs.length < 2 ^ 32
    · simp only [hlt, and_self, if_true, Option.some.injEq, Prod.mk.injEq] at h1 h2
      obtain ⟨hv1, hi1⟩ := h1
      obtain ⟨hv2, _⟩ := h2
      subst hi1
      exact ⟨hv1.symm.trans hv2, hv1.symm, hv1, rfl⟩
    · simp only [hlt, if_false] at h1
      cases h1
  · intro hk hi
    simp only [hk, hi, and_self, if_true]
    exact ⟨_, _, _, rfl, rfl⟩

/-- C11, at an effect of plug-in identity "Plain" with two parameters and two
input hashes: called with generation 4 on hash fields holding the value 9, and
with generation 7 on hash fields holding other values, `computeHash` returns
the same value, the mix of 1, 2, 3, 7, 8 and the characters of "Plain". -/
theorem C11_computeHash_depends_on_knobs_inputs_and_plugin_only_witness :
    (plainEffect 1 []).pluginID = (plainEffect 2 []).pluginID ∧
      computeHash (plainEffect 1 []) [⟨[1, 2]⟩, ⟨[3]⟩] [7, 8] 4 ⟨⟨[9], 5⟩, 0⟩
        = some (11519620914581263344,
            ⟨⟨[1, 2, 3, 7, 8, 80, 108, 97, 105, 110], 11519620914581263344⟩, 4⟩) ∧
      computeHash (plainEffect 2 []) [⟨[1, 2]⟩, ⟨[3]⟩] [7, 8] 7 ⟨⟨[5, 6], 1⟩, 3⟩
        = some (11519620914581263344,
            ⟨⟨[1, 2, 3, 7, 8, 80, 108, 97, 105, 110], 11519620914581263344⟩, 7⟩) ∧
      (11519620914581263344 : Nat) = 11519620914581263344 ∧
      (11519620914581263344 : Nat) = Hash64.mix ([⟨[1, 2]⟩, ⟨[3]⟩].flatMap
        (fun knob : Knob => knob.hashVector) ++ [7, 8] ++
          (plainEffect 1 []).pluginID.toList.map Char.toNat) :=
  have h := (C11_computeHash_depends_on_knobs_inputs_and_plugin_only (plainEffect 1 [])
    (plainEffect 2 []) [⟨[1, 2]⟩, ⟨[3]⟩] [⟨[1, 2]⟩, ⟨[3]⟩] [7, 8] 4 7 ⟨⟨[9], 5⟩, 0⟩ ⟨⟨[5, 6], 1⟩, 3⟩
    rfl (by decide)).1 11519620914581263344 11519620914581263344
    ⟨⟨[1, 2, 3, 7, 8, 80, 108, 97, 105, 110], 11519620914581263344⟩, 4⟩
    ⟨⟨[1, 2, 3, 7, 8, 80, 108, 97, 105, 110], 11519620914581263344⟩, 7⟩ (by decide) (by decide)
  ⟨rfl, by decide, by decide, h.1, h.2.1⟩

/-! ## `renderRoI`: the rendering of the inputs -/

/-- With slot 0 unconnected, a failing call has merged the regions of the
inputs before the failing one into what the rectangle held: slot 1 bound to an
input of region (10,10,20,20), slot 2 bound to an input that fails. The call
fails and leaves (0,0,100,100) in a rectangle that held (0,0,100,100), and
(0,0,20,20) in a rectangle that held (0,0,15,15). -/
theorem getRegionOfDefinition_failure_slot_0_unconnected_example :
    getRegionOfDefinition
        (plainEffect 1 [none, some (sourceRef 2 ⟨10, 10, 20, 20⟩ 1 10), some (failingRef 3)]) 0
        ⟨0, 0, 100, 100⟩ = (Status.StatFailed, ⟨0, 0, 100, 100⟩) ∧
      getRegionOfDefinition
        (plainEffect 1 [none, some (sourceRef 2 ⟨10, 10, 20, 20⟩ 1 10), some (failingRef 3)]) 0
        ⟨0, 0, 15, 15⟩ = (Status.StatFailed, ⟨0, 0, 20, 20⟩) := by
  decide

/-- A value satisfies a weaker property. -/
theorem Render.respects_mono (F : Frame) {α : Type} {V V' : α → Prop} (m : Render α)
    (h : Render.respects F V m) (hV : ∀ a, V a → V' a) : Render.respects F V' m := by
  intro w hw
  obtain ⟨h1, h2, h3, h4⟩ := h w hw
  exact ⟨h1, h2, h3, fun a ha => hV a (h4 a ha)⟩

/-- Returning a value respects every frame condition. -/
theorem Render.respects_pure (F : Frame) {α : Type} (V : α → Prop) (a : α) (ha : V a) :
    Render.respects F V (pure a : Render α) := by
  intro w hw
  refine ⟨hw, F.refl w, fun ev hev => by simp at hev, fun b hb => ?_⟩
  have : a = b := by simpa using hb
  exact this ▸ ha

/-- Raising respects every frame condition. -/
theorem Render.respects_raise (F : Frame) {α : Type} (V : α → Prop) (err : Err) :
    Render.respects F V (Render.raise err : Render α) := by
  intro w hw
  refine ⟨hw, F.refl w, fun ev hev => by simp [Render.raise] at hev, fun b hb => ?_⟩
  simp [Render.raise] at hb

/-- Reading the state respects every frame condition. -/
theorem Render.respects_get (F : Frame) :
    Render.respects F (fun _ => True) Render.get := by
  intro w hw
  exact ⟨hw, F.refl w, fun ev hev => by simp [Render.get] at hev, fun _ _ => trivial⟩

/-- Reading the abort flag respects every frame condition. -/
theorem aborted_respects (F : Frame) (x : Effect) :
    Render.respects F (fun _ => True) (aborted x) := by
  intro w hw
  exact ⟨hw, F.refl w, fun ev hev => by simp [aborted] at hev, fun _ _ => trivial⟩

/-- Recording a call with the property respects the frame condition. -/
theorem Render.respects_emit (F : Frame) (ev : Event) (h : F.ev ev) :
    Render.respects F (fun _ => True) (Render.emit ev) := by
  intro w hw
  refine ⟨hw, F.refl w, fun ev' hev => ?_, fun _ _ => trivial⟩
  have : ev' = ev := by simpa [Render.emit] using hev
  exact this ▸ h

/-- A sequence respects a frame condition that its parts respect. -/
theorem Render.respects_bind (F : Frame) {α β : Type} {V : α → Prop} {V' : β → Prop}
    (m : Render α) (f : α → Render β) (hm : Render.respects F V m)
    (hf : ∀ a, V a → Render.respects F V' (f a)) : Render.respects F V' (m >>= f) := by
  intro w hw
  obtain ⟨h1, h2, h3, h4⟩ := hm w hw
  cases hv : (m w).val with
  | error err =>
      rw [Render.bind_error _ _ _ _ hv]
      exact ⟨h1, h2, h3, fun b hb => by simp at hb⟩
  | ok a =>
      rw [Render.bind_ok _ _ _ _ hv]
      obtain ⟨g1, g2, g3, g4⟩ := hf a (h4 a hv) (m w).world h1
      refine ⟨g1, F.trans _ _ _ h2 g2, ?_, g4⟩
      intro ev hev
      simp only [Res.prepend_events, List.mem_append] at hev
      rcases hev with h | h
      · exact h3 ev h
      · exact g3 ev h

/-- The tile functor respects a frame condition that holds of its steps. -/
theorem tiledRenderingFunctor_respects (F : Frame) (x : Effect) (img : Nat)
    (hT : F.ToleratesSwitch x img) (args : RenderArgs) (tile : RectI) :
    Render.respects F (fun _ => True) (tiledRenderingFunctor x args tile img) := by
  unfold tiledRenderingFunctor
  refine Render.respects_bind F _ _ (hT.setLocalData args) (fun _ _ => ?_)
  refine Render.respects_bind F _ _ (hT.callRender _ _ _ _) (fun st _ => ?_)
  split
  · exact Render.respects_pure F _ _ trivial
  · refine Render.respects_bind F _ _ (aborted_respects F x) (fun isAborted _ => ?_)
    dsimp only
    split
    · exact Render.respects_bind F _ _ (hT.markForRendered tile)
        (fun _ _ => Render.respects_pure F _ _ trivial)
    · exact Render.respects_bind F _ _ (Render.respects_pure F (fun _ => True) _ trivial)
        (fun _ _ => Render.respects_pure F _ _ trivial)

/-- The tiles of a rectangle respect a frame condition that holds of the steps
of the tile functor. -/
theorem mapped_tiledRenderingFunctor_respects (F : Frame) (x : Effect) (img : Nat)
    (hT : F.ToleratesSwitch x img) (args : RenderArgs) :
    ∀ (tiles : List RectI),
      Render.respects F (fun _ => True)
        (mapped (fun tile => tiledRenderingFunctor x args tile img) tiles) := by
  intro tiles
  induction tiles with
  | nil =>
      unfold mapped
      exact Render.respects_pure F _ _ trivial
  | cons tile rest ih =>
      unfold mapped
      refine Render.respects_bind F _ _ (tiledRenderingFunctor_respects F x img hT args tile)
        (fun _ _ => ?_)
      exact Render.respects_bind F _ _ ih (fun _ _ => Render.respects_pure F _ _ trivial)

/-- The `switch` respects a frame condition that holds of its steps. -/
theorem renderRoI_switch_respects (F : Frame) (x : Effect) (img : Nat)
    (hT : F.ToleratesSwitch x img) (args : RenderArgs) (roi : RectI) :
    Render.respects F (fun _ => True) (renderRoI_switch x args roi img) := by
  have single : Render.respects F (fun _ => True)
      (callRender x args._time args._scale roi args._view img >>= fun st =>
        if st ≠ Status.StatOK then Render.raise (Err.runtime_error "rendering failed")
        else do
          let isAborted ← aborted x
          if !isAborted then markForRendered img roi) := by
    refine Render.respects_bind F _ _ (hT.callRender _ _ _ _) (fun st _ => ?_)
    split
    · exact Render.respects_raise F _ _
    · refine Render.respects_bind F _ _ (aborted_respects F x) (fun isAborted _ => ?_)
      split
      · exact hT.markForRendered roi
      · exact Render.respects_pure F _ _ trivial
  unfold renderRoI_switch
  cases x.renderThreadSafety with
  | FULLY_SAFE_FRAME =>
      dsimp only
      refine Render.respects_bind F _ _ (Render.respects_get F) (fun w' _ => ?_)
      refine Render.respects_bind F _ _
        (mapped_tiledRenderingFunctor_respects F x img hT args _) (fun ret _ => ?_)
      split
      · exact Render.respects_raise F _ _
      · exact Render.respects_pure F _ _ trivial
  | INSTANCE_SAFE => exact single
  | FULLY_SAFE => exact single
  | UNSAFE =>
      dsimp only
      refine Render.respects_bind F _ _ (Render.respects_emit F _ hT.lock) (fun _ _ => ?_)
      refine Render.respects_bind F _ _ (hT.callRender _ _ _ _) (fun st _ => ?_)
      refine Render.respects_bind F _ _ (Render.respects_emit F _ hT.unlock) (fun _ _ => ?_)
      split
      · exact Render.respects_raise F _ _
      · refine Render.respects_bind F _ _ (aborted_respects F x) (fun isAborted _ => ?_)
        split
        · exact hT.markForRendered roi
        · exact Render.respects_pure F _ _ trivial

/-- The loop over the inputs respects a frame condition that holds of its
steps and that the calls of `renderRoI` on the inputs respect. -/
theorem renderRoI_inputs_respects (F : Frame) (x : Effect) (img : Nat)
    (hT : F.ToleratesInputs x img)
    (hin : ∀ inp, some inp ∈ x.inputs → ∀ t s v r b,
      Render.respects F (fun _ => True) (inp.renderRoI t s v r b))
    (time : SequenceTime) (scale : RenderScale) (view : Int) (byPassCache : Bool) :
    ∀ (inputsRoi : RoIMap), (∀ it ∈ inputsRoi, some it.1 ∈ x.inputs) →
      Render.respects F (fun _ => True)
        (renderRoI_inputs x time scale view byPassCache img inputsRoi) := by
  intro inputsRoi
  induction inputsRoi with
  | nil =>
      intro _
      unfold renderRoI_inputs
      exact Render.respects_pure F _ _ trivial
  | cons it2 rest ih =>
      intro hmem
      have hhead : some it2.1 ∈ x.inputs := hmem it2 (List.mem_cons_self _ _)
      have hrest : ∀ it ∈ rest, some it.1 ∈ x.inputs :=
        fun it hit => hmem it (List.mem_cons_of_mem _ hit)
      unfold renderRoI_inputs
      dsimp only
      split
      · exact Render.respects_raise F _ _
      · refine Render.respects_bind F _ _
          (Render.respects_emit F _ (hT.notifyInputNIsRendering _)) (fun _ _ => ?_)
        refine Render.respects_bind F _ _ (hin it2.1 hhead _ _ _ _ _) (fun _ _ => ?_)
        refine Render.respects_bind F _ _
          (Render.respects_emit F _ (hT.notifyInputNIsFinishedRendering _)) (fun _ _ => ?_)
        refine Render.respects_bind F _ _ (aborted_respects F x) (fun isAborted _ => ?_)
        split
        · refine Render.respects_bind F _ _ hT.removeFromNodeCache (fun _ _ => ?_)
          exact Render.respects_bind F _ _ (hT.removeImageBeingRendered _ _)
            (fun _ _ => Render.respects_pure F _ _ trivial)
        · exact ih hrest

/-- The loop over the rectangles respects a frame condition that holds of its
steps and that the calls of `renderRoI` on the inputs respect. -/
theorem renderRoI_rects_respects (F : Frame) (x : Effect) (img : Nat)
    (hT : F.Tolerates x img)
    (hin : ∀ inp, some inp ∈ x.inputs → ∀ t s v r b,
      Render.respects F (fun _ => True) (inp.renderRoI t s v r b))
    (time : SequenceTime) (scale : RenderScale) (view : Int) (byPassCache : Bool) :
    ∀ (rects : List RectI),
      Render.respects F (fun _ => True)
        (renderRoI_rects x time scale view byPassCache img rects) := by
  intro rects
  induction rects with
  | nil =>
      unfold renderRoI_rects
      exact Render.respects_pure F _ _ trivial
  | cons it rest ih =>
      unfold renderRoI_rects
      dsimp only
      refine Render.respects_bind F _ _ (hT.switch.setLocalData _) (fun _ _ => ?_)
      refine Render.respects_bind F _ _
        (renderRoI_inputs_respects F x img hT.inputs hin time scale view byPassCache _
          (fun y hy => (getRegionOfInterest_mem x time scale it y hy).1)) (fun returned _ => ?_)
      split
      · exact Render.respects_pure F _ _ trivial
      · refine Render.respects_bind F _ _
          (Render.respects_emit F _ hT.notifyRenderingStarted) (fun _ _ => ?_)
        refine Render.respects_bind F _ _ (renderRoI_switch_respects F x img hT.switch _ _)
          (fun _ _ => ?_)
        exact Render.respects_bind F _ _
          (Render.respects_emit F _ hT.notifyRenderingEnded) (fun _ _ => ih)

/-- The rendering of a buffer respects a frame condition that holds of its
steps and that the calls of `renderRoI` on the inputs respect. -/
theorem renderRoI_image_respects (F : Frame) (x : Effect) (img : Nat)
    (hT : F.Tolerates x img)
    (hin : ∀ inp, some inp ∈ x.inputs → ∀ t s v r b,
      Render.respects F (fun _ => True) (inp.renderRoI t s v r b))
    (time : SequenceTime) (scale : RenderScale) (view : Int) (renderWindow : RectI)
    (byPassCache : Bool) :
    Render.respects F (fun _ => True)
      (renderRoI_image x time scale view renderWindow byPassCache img) := by
  unfold renderRoI_image
  refine Render.respects_bind F _ _ (hT.addImageBeingRendered _ _) (fun _ _ => ?_)
  refine Render.respects_bind F _ _ (Render.respects_get F) (fun w' _ => ?_)
  dsimp only
  refine Render.respects_bind F _ _
    (renderRoI_rects_respects F x img hT hin time scale view byPassCache _) (fun returned _ => ?_)
  split
  · exact Render.respects_pure F _ _ trivial
  · refine Render.respects_bind F _ _ (hT.inputs.removeImageBeingRendered _ _) (fun _ _ => ?_)
    refine Render.respects_bind F _ _ hT.clearExceedingEntriesFromNodeCache (fun _ _ => ?_)
    refine Render.respects_bind F _ _ (aborted_respects F x) (fun isAborted _ => ?_)
    dsimp only
    split
    · exact Render.respects_bind F _ _ hT.inputs.removeFromNodeCache
        (fun _ _ => Render.respects_pure F _ _ trivial)
    · exact Render.respects_bind F _ _ (Render.respects_pure F (fun _ => True) _ trivial)
        (fun _ _ => Render.respects_pure F _ _ trivial)

/-- A call of `renderRoI` respects a frame condition when the calls of
`renderRoI` on the inputs respect it, the lookup of the buffer respects it and
yields a buffer of whose steps it holds, and it holds of the call
`setOrAddProjectFormat`. -/
theorem renderRoI_respects (F : Frame) (x : Effect)
    (hin : ∀ inp, some inp ∈ x.inputs → ∀ t s v r b,
      Render.respects F (fun _ => True) (inp.renderRoI t s v r b))
    (hlookup : ∀ key s t b,
      key.nodeHashKey = x.hashValue →
      Render.respects F (fun o => ∀ img, o = some img → F.Tolerates x img)
        (renderRoI_lookup key s t b))
    (hformat : ∀ rod, F.ev (Event.setOrAddProjectFormat rod))
    (time : SequenceTime) (scale : RenderScale) (view : Int) (renderWindow : RectI)
    (byPassCache : Bool) :
    Render.respects F (fun _ => True) (renderRoI x time scale view renderWindow byPassCache) := by
  unfold renderRoI
  split
  · rename_i inputTimeIdentity inputNbIdentity _
    have hget : Render.respects F (fun _ => True)
        (getImage x inputNbIdentity inputTimeIdentity scale view) := by
      unfold getImage
      cases hinput : input x inputNbIdentity with
      | error err => exact Render.respects_raise F _ _
      | ok slot =>
          cases slot with
          | none => exact Render.respects_pure F _ _ trivial
          | some n =>
              have hn : some n ∈ x.inputs := by
                unfold input at hinput
                split at hinput
                · split at hinput
                  · cases hinput
                  · have h := Except.ok.inj hinput
                    rw [List.getD_eq_getElem?_getD] at h
                    cases hget : x.inputs[inputNbIdentity.toNat]? with
                    | none => rw [hget] at h; cases h
                    | some slot =>
                        rw [hget] at h
                        simp only [Option.getD_some] at h
                        rw [h] at hget
                        exact List.getElem?_mem hget
                · cases hinput
              dsimp only
              refine Render.respects_bind F (V := fun _ => True) _ _ ?_
                (fun _ _ => hin n hn _ _ _ _ _)
              intro w hw
              unfold getImage_roi
              split
              · exact ⟨hw, F.refl w, fun ev hev => by simp at hev, fun _ _ => trivial⟩
              · split
                · exact ⟨hw, F.refl w, fun ev hev => by simp at hev, fun _ _ => trivial⟩
                · exact ⟨hw, F.refl w, fun ev hev => by simp at hev, fun _ _ => trivial⟩
    refine Render.respects_bind F _ _ hget (fun inputImage _ => ?_)
    split
    · exact Render.respects_raise F _ _
    · exact Render.respects_pure F _ _ trivial
  · unfold renderRoI_render
    dsimp only
    split
    · exact Render.respects_pure F _ _ trivial
    · have hrest : Render.respects F (fun _ => True)
          (renderRoI_lookup
              ⟨if x.shouldRenderedDataBePersistent then 1 else 0, x.hashValue, time, scale, view,
                (getRegionOfDefinition x time RectI.empty).2⟩
              scale time (byPassCache || decide (x.getCachePolicy time = CachePolicy.NEVER_CACHE))
            >>= fun image =>
              match image with
              | none => Render.raise (Err.undefined_behaviour "image is NULL")
              | some image =>
                  renderRoI_image x time scale view renderWindow
                    (byPassCache || decide (x.getCachePolicy time = CachePolicy.NEVER_CACHE))
                    image) := by
        refine Render.respects_bind F _ _ (hlookup _ _ _ _ rfl) (fun image himage => ?_)
        cases image with
        | none => exact Render.respects_raise F _ _
        | some img =>
            exact renderRoI_image_respects F x img (himage img rfl) hin time scale view
              renderWindow _
      split
      · exact Render.respects_bind F _ _ (Render.respects_emit F _ (hformat _))
          (fun _ _ => hrest)
      · exact Render.respects_bind F _ _ (Render.respects_pure F (fun _ => True) _ trivial)
          (fun _ _ => hrest)

/-- Eviction drops entries and adds none. -/
theorem evictOldest_mem (inFlight : List Nat) :
    ∀ (excess : Nat) (entries : List (ImageKey × Nat)) (q : ImageKey × Nat),
      q ∈ evictOldest inFlight excess entries → q ∈ entries := by
  intro excess entries
  induction entries generalizing excess with
  | nil =>
      intro q hq
      cases excess <;> simp [evictOldest] at hq
  | cons hd tl ih =>
      intro q hq
      cases excess with
      | zero => simpa [evictOldest] using hq
      | succ n =>
          unfold evictOldest at hq
          split at hq
          · rcases List.mem_cons.mp hq with h | h
            · exact h ▸ List.mem_cons_self _ _
            · exact List.mem_cons_of_mem _ (ih _ q h)
          · exact List.mem_cons_of_mem _ (ih _ q hq)

/-- Code that leaves the buffers as they are and clears no abort flag keeps
every buffer and every abort flag. -/
theorem leavesFrame_respects_of (node image : Nat) {α : Type} (m : Render α)
    (h : ∀ w, (m w).world.images = w.images ∧
      (node ∈ w.aborted → node ∈ (m w).world.aborted)) :
    Render.respects (leavesFrame node image) (fun _ => True) m := by
  intro w hw
  obtain ⟨himg, hab⟩ := h w
  refine ⟨?_, ⟨World.keeps_of_images_eq image himg, hab⟩, fun _ _ => trivial,
    fun _ _ => trivial⟩
  show image < (m w).world.images.length
  rw [himg]
  exact hw

/-- Every step `renderRoI` makes on a buffer keeps every buffer and clears no
abort flag. -/
theorem leavesFrame_tolerates (node image : Nat) (x : Effect) (img : Nat) :
    (leavesFrame node image).Tolerates x img := by
  have hcall : ∀ t s roi v,
      Render.respects (leavesFrame node image) (fun _ => True) (callRender x t s roi v img) := by
    intro t s roi v
    apply leavesFrame_respects_of
    intro w
    exact ⟨callRender_images _ _ _ _ _ _ _, callRender_aborted _ _ _ _ _ _ _ node⟩
  have hmark : ∀ roi,
      Render.respects (leavesFrame node image) (fun _ => True) (markForRendered img roi) := by
    intro roi w hw
    refine ⟨?_, ⟨markForRendered_keeps img roi w image, fun h => h⟩, fun _ _ => trivial,
      fun _ _ => trivial⟩
    exact (markForRendered_keeps img roi w image).1 hw
  exact
    { switch :=
        { setLocalData := fun args =>
            leavesFrame_respects_of node image _ (fun w => ⟨rfl, fun h => h⟩)
          callRender := hcall
          markForRendered := hmark
          lock := trivial
          unlock := trivial }
      inputs :=
        { notifyInputNIsRendering := fun _ => trivial
          notifyInputNIsFinishedRendering := fun _ => trivial
          removeFromNodeCache :=
            leavesFrame_respects_of node image _ (fun w => ⟨rfl, fun h => h⟩)
          removeImageBeingRendered := fun t v =>
            leavesFrame_respects_of node image _ (fun w => ⟨rfl, fun h => h⟩) }
      notifyRenderingStarted := trivial
      notifyRenderingEnded := trivial
      addImageBeingRendered := fun t v =>
        leavesFrame_respects_of node image _ (fun w => ⟨rfl, fun h => h⟩)
      clearExceedingEntriesFromNodeCache :=
        leavesFrame_respects_of node image _ (fun w => ⟨rfl, fun h => h⟩) }

/-- Code that allocates and frees no buffer, enters nothing in the cache,
leaves the ideal thread count as it is and makes only calls with the property
keeps a buffer allocated and cached under no other key. -/
theorem ownsFrame_respects_of (key : ImageKey) (image : Nat) (P : Event → Prop) {α : Type}
    (m : Render α)
    (h : ∀ w, (m w).world.images.length = w.images.length ∧
      (∀ q ∈ (m w).world.nodeCache, q ∈ w.nodeCache) ∧
      (m w).world.idealThreadCount = w.idealThreadCount ∧
      ∀ ev ∈ (m w).events, P ev) :
    Render.respects (ownsFrame key image P) (fun _ => True) m := by
  intro w hw
  obtain ⟨hlen, hcache, hth, hev⟩ := h w
  refine ⟨⟨?_, fun q hq hq2 => hw.2 q (hcache q hq) hq2⟩, hth, hev, fun _ _ => trivial⟩
  rw [hlen]
  exact hw.1

/-- The steps of the loop over the inputs keep a buffer allocated and cached
under no other key, when the notifications and the removals have the
property. -/
theorem ownsFrame_toleratesInputs (key : ImageKey) (image : Nat) (P : Event → Prop) (x : Effect)
    (img : Nat)
    (hstart : ∀ n, P (Event.notifyInputNIsRendering x.addr n))
    (hfinish : ∀ n, P (Event.notifyInputNIsFinishedRendering x.addr n))
    (hcache : P (Event.removeFromNodeCache img))
    (hregistry : ∀ t v, P (Event.removeImageBeingRendered x.addr t v)) :
    (ownsFrame key image P).ToleratesInputs x img :=
  { notifyInputNIsRendering := hstart
    notifyInputNIsFinishedRendering := hfinish
    removeFromNodeCache := by
      apply ownsFrame_respects_of
      intro w
      refine ⟨rfl, fun q hq => ?_, rfl, fun ev hev => ?_⟩
      · exact (List.mem_filter.mp hq).1
      · rw [List.mem_singleton.mp hev]
        exact hcache
    removeImageBeingRendered := by
      intro t v
      apply ownsFrame_respects_of
      intro w
      refine ⟨rfl, fun q hq => hq, rfl, fun ev hev => ?_⟩
      rw [List.mem_singleton.mp hev]
      exact hregistry t v }

/-- The steps of the `switch` keep a buffer allocated and cached under no other
key, when the computation calls, the marks and the locks have the property. -/
theorem ownsFrame_toleratesSwitch (key : ImageKey) (image : Nat) (P : Event → Prop) (x : Effect)
    (img : Nat)
    (hrender : ∀ t s roi v st, P (Event.render x.addr t s roi v img st))
    (hmark : ∀ roi, P (Event.markForRendered img roi))
    (hlock : P (Event.lock x.pluginID)) (hunlock : P (Event.unlock x.pluginID)) :
    (ownsFrame key image P).ToleratesSwitch x img :=
  { setLocalData := by
      intro args
      apply ownsFrame_respects_of
      intro w
      exact ⟨rfl, fun q hq => hq, rfl, fun ev hev => by simp [setLocalData, Render.modify] at hev⟩
    callRender := by
      intro t s roi v
      apply ownsFrame_respects_of
      intro w
      refine ⟨by rw [callRender_images], fun q hq => ?_, ?_, fun ev hev => ?_⟩
      · unfold callRender at hq
        simp only at hq
        split at hq <;> exact hq
      · unfold callRender
        simp only
        split <;> rfl
      · rw [List.mem_singleton.mp hev]
        exact hrender _ _ _ _ _
    markForRendered := by
      intro roi
      apply ownsFrame_respects_of
      intro w
      refine ⟨?_, fun q hq => hq, rfl, fun ev hev => ?_⟩
      · simp only [markForRendered, List.length_modify]
      · rw [List.mem_singleton.mp hev]
        exact hmark roi
    lock := hlock
    unlock := hunlock }

/-- Every step `renderRoI` makes on a buffer keeps a buffer allocated and
cached under no other key, when the calls it makes have the property. -/
theorem ownsFrame_tolerates (key : ImageKey) (image : Nat) (P : Event → Prop) (x : Effect)
    (img : Nat)
    (hrender : ∀ t s roi v st, P (Event.render x.addr t s roi v img st))
    (hmark : ∀ roi, P (Event.markForRendered img roi))
    (hother : ∀ ev, Event.isRender ev = false → (∀ i roi, ev ≠ Event.markForRendered i roi) →
      P ev) :
    (ownsFrame key image P).Tolerates x img :=
  { switch := ownsFrame_toleratesSwitch key image P x img hrender hmark
      (hother _ rfl (fun _ _ h => by cases h)) (hother _ rfl (fun _ _ h => by cases h))
    inputs := ownsFrame_toleratesInputs key image P x img
      (fun _ => hother _ rfl (fun _ _ h => by cases h))
      (fun _ => hother _ rfl (fun _ _ h => by cases h))
      (hother _ rfl (fun _ _ h => by cases h))
      (fun _ _ => hother _ rfl (fun _ _ h => by cases h))
    notifyRenderingStarted := hother _ rfl (fun _ _ h => by cases h)
    notifyRenderingEnded := hother _ rfl (fun _ _ h => by cases h)
    addImageBeingRendered := by
      intro t v
      apply ownsFrame_respects_of
      intro w
      refine ⟨rfl, fun q hq => hq, rfl, fun ev hev => ?_⟩
      rw [List.mem_singleton.mp hev]
      exact hother _ rfl (fun _ _ h => by cases h)
    clearExceedingEntriesFromNodeCache := by
      apply ownsFrame_respects_of
      intro w
      refine ⟨rfl, fun q hq => ?_, rfl, fun ev hev => ?_⟩
      · have hq' : q ∈ (evictOldest (w.imagesBeingRendered.map fun r => r.2.2.2)
            (w.nodeCache.length - w.maximumCacheSize) w.nodeCache.reverse).reverse := hq
        rw [List.mem_reverse] at hq'
        exact List.mem_reverse.mp (evictOldest_mem _ _ _ q hq')
      · rw [List.mem_singleton.mp hev]
        exact hother _ rfl (fun _ _ h => by cases h) }

/-- The result of the cache lookup or allocation, case by case: the cache is
bypassed and a new buffer is allocated; or the key is found and its entry
moves to the front; or the key is not found and a new buffer is allocated and
entered under the key. -/
theorem renderRoI_lookup_cases (key : ImageKey) (scale : RenderScale) (time : SequenceTime)
    (byPassCache : Bool) (w : World) :
    (byPassCache = true ∧
        renderRoI_lookup key scale time byPassCache w =
          ⟨Except.ok (some w.images.length),
            { w with images := w.images ++ [Image.new key.rod scale time] },
            [Event.newImage w.images.length]⟩) ∨
      (byPassCache = false ∧
        ∃ p, w.nodeCache.find? (fun p => decide (p.1 = key)) = some p ∧
          renderRoI_lookup key scale time byPassCache w =
            ⟨Except.ok (some p.2),
              { w with
                nodeCache := (key, p.2) :: w.nodeCache.filter fun q => decide (q.1 ≠ key) },
              [Event.getImageFromCache key true]⟩) ∨
      (byPassCache = false ∧
        w.nodeCache.find? (fun p => decide (p.1 = key)) = none ∧
          renderRoI_lookup key scale time byPassCache w =
            ⟨Except.ok (some w.images.length),
              { w with
                images := w.images ++ [Image.new key.rod key.scale key.time]
                nodeCache := (key, w.images.length) :: w.nodeCache },
              [Event.getImageFromCache key false]⟩) := by
  unfold renderRoI_lookup
  cases byPassCache with
  | true =>
      left
      exact ⟨rfl, rfl⟩
  | false =>
      right
      simp only [Bool.not_false, if_true]
      cases hfind : w.nodeCache.find? (fun p => decide (p.1 = key)) with
      | some p =>
          left
          have h1 : getImageFromCache key w = ⟨Except.ok (true, some p.2),
              { w with nodeCache := (key, p.2) :: w.nodeCache.filter fun q => decide (q.1 ≠ key) },
              [Event.getImageFromCache key true]⟩ := by
            simp [getImageFromCache, hfind]
          have hv : (getImageFromCache key w).val = Except.ok (true, some p.2) := by rw [h1]
          refine ⟨trivial, p, rfl, ?_⟩
          simp only [Render.bind_ok _ _ _ _ hv, Bool.not_true, Bool.false_and, Bool.false_eq_true,
            if_false, Render.pure_run, Res.prepend, h1, List.append_nil]
      | none =>
          right
          have h1 : getImageFromCache key w = ⟨Except.ok (false, some w.images.length),
              { w with
                images := w.images ++ [Image.new key.rod key.scale key.time]
                nodeCache := (key, w.images.length) :: w.nodeCache },
              [Event.getImageFromCache key false]⟩ := by
            simp [getImageFromCache, hfind]
          have hv : (getImageFromCache key w).val = Except.ok (false, some w.images.length) := by
            rw [h1]
          refine ⟨trivial, rfl, ?_⟩
          simp only [Render.bind_ok _ _ _ _ hv, Bool.not_false, Bool.true_and, Bool.false_eq_true,
            if_false, Render.pure_run, Res.prepend, h1, List.append_nil]

/-- Allocating buffers keeps the buffers that were allocated. -/
theorem World.keeps_of_images_append (w w' : World) (image : Nat) (more : List Image)
    (h : w'.images = w.images ++ more) (hlt : image < w.images.length) :
    World.keeps w w' image := by
  refine ⟨fun _ => ?_, ?_, ?_⟩
  · rw [h, List.length_append]
    omega
  · simp only [World.image, h, List.getD_eq_getElem?_getD, List.getElem?_append_left hlt]
  · intro m hm
    simpa only [World.image, h, List.getD_eq_getElem?_getD, List.getElem?_append_left hlt]
      using hm

/-- The cache lookup or allocation keeps every allocated buffer and clears no
abort flag. -/
theorem renderRoI_lookup_leaves (node image : Nat) (key : ImageKey) (scale : RenderScale)
    (time : SequenceTime) (byPassCache : Bool) :
    Render.respects (leavesFrame node image) (fun _ => True)
      (renderRoI_lookup key scale time byPassCache) := by
  intro w hw
  rcases renderRoI_lookup_cases key scale time byPassCache w with
    ⟨_, h⟩ | ⟨_, p, _, h⟩ | ⟨_, _, h⟩
  · rw [h]
    have hk := World.keeps_of_images_append w
      { w with images := w.images ++ [Image.new key.rod scale time] } image _ rfl hw
    exact ⟨hk.1 hw, ⟨hk, fun h => h⟩, fun _ _ => trivial, fun _ _ => trivial⟩
  · rw [h]
    exact ⟨hw, ⟨World.keeps_of_images_eq image rfl, fun h => h⟩, fun _ _ => trivial,
      fun _ _ => trivial⟩
  · rw [h]
    have hk := World.keeps_of_images_append w
      { w with
        images := w.images ++ [Image.new key.rod key.scale key.time]
        nodeCache := (key, w.images.length) :: w.nodeCache } image _ rfl hw
    exact ⟨hk.1 hw, ⟨hk, fun h => h⟩, fun _ _ => trivial, fun _ _ => trivial⟩

/-- The cache lookup or allocation under another key yields another buffer,
and keeps the buffer allocated and cached under no other key than its own. -/
theorem renderRoI_lookup_apart (key : ImageKey) (image : Nat) (P : Event → Prop)
    (other : ImageKey) (scale : RenderScale) (time : SequenceTime) (byPassCache : Bool)
    (hkey : other ≠ key)
    (hcache : ∀ isCached, P (Event.getImageFromCache other isCached))
    (hnew : ∀ i, P (Event.newImage i)) :
    Render.respects (ownsFrame key image P) (fun o => ∀ img, o = some img → img ≠ image)
      (renderRoI_lookup other scale time byPassCache) := by
  intro w hw
  have hlt : image < w.images.length := hw.1
  rcases renderRoI_lookup_cases other scale time byPassCache w with
    ⟨_, h⟩ | ⟨_, p, hfind, h⟩ | ⟨_, _, h⟩
  · rw [h]
    refine ⟨⟨?_, hw.2⟩, rfl, fun ev hev => ?_, fun a ha img himg => ?_⟩
    · show image < (w.images ++ [Image.new other.rod scale time]).length
      rw [List.length_append]
      omega
    · rw [List.mem_singleton.mp hev]
      exact hnew _
    · have h1 : some w.images.length = a := Except.ok.inj ha
      have h2 : w.images.length = img := Option.some.inj (h1.trans himg)
      omega
  · have hp1 : p.1 = other := by
      have := List.find?_some hfind
      simpa using this
    have hp2 : p.2 ≠ image := by
      intro heq
      exact hkey (hp1 ▸ hw.2 p (List.mem_of_find?_eq_some hfind) heq)
    rw [h]
    refine ⟨⟨hlt, fun q hq hq2 => ?_⟩, rfl, fun ev hev => ?_, fun a ha img himg => ?_⟩
    · rcases List.mem_cons.mp hq with hhead | htail
      · exact absurd (by rw [hhead] at hq2; exact hq2) hp2
      · exact hw.2 q (List.mem_filter.mp htail).1 hq2
    · rw [List.mem_singleton.mp hev]
      exact hcache _
    · have h1 : some p.2 = a := Except.ok.inj ha
      have h2 : p.2 = img := Option.some.inj (h1.trans himg)
      exact h2 ▸ hp2
  · rw [h]
    refine ⟨⟨?_, fun q hq hq2 => ?_⟩, rfl, fun ev hev => ?_, fun a ha img himg => ?_⟩
    · show image < (w.images ++ [Image.new other.rod other.scale other.time]).length
      rw [List.length_append]
      omega
    · rcases List.mem_cons.mp hq with hhead | htail
      · rw [hhead] at hq2
        have : w.images.length = image := hq2
        omega
      · exact hw.2 q htail hq2
    · rw [List.mem_singleton.mp hev]
      exact hcache _
    · have h1 : some w.images.length = a := Except.ok.inj ha
      have h2 : w.images.length = img := Option.some.inj (h1.trans himg)
      omega

/-- An effect of this class whose inputs leave a buffer and an abort flag
alone leaves them alone too, as an input of another effect. -/
theorem Effect.toRef_leaves (x : Effect) (node image : Nat)
    (hin : ∀ inp, some inp ∈ x.inputs → inp.leaves node image) :
    x.toRef.leaves node image := by
  intro t s v r b w hw
  have h := renderRoI_respects (leavesFrame node image) x
    (fun inp hinp t s v r b w hw =>
      ⟨(hin inp hinp t s v r b w hw).1.1 hw, hin inp hinp t s v r b w hw, fun _ _ => trivial,
        fun _ _ => trivial⟩)
    (fun key s t b _ =>
      Render.respects_mono _ _ (renderRoI_lookup_leaves node image key s t b)
        (fun _ _ img _ => leavesFrame_tolerates node image x img))
    (fun _ => trivial) t s v r b w hw
  exact h.2.1

/-- An effect of this class at another address and of another hash, whose
inputs are apart from the effect at `node` and its buffer, is apart from them
too, as an input of another effect. -/
theorem Effect.toRef_apart (x : Effect) (node : Nat) (key : ImageKey) (image : Nat)
    (haddr : x.addr ≠ node) (hhash : x.hashValue ≠ key.nodeHashKey)
    (hin : ∀ inp, some inp ∈ x.inputs → inp.apart node key image) :
    x.toRef.apart node key image := by
  intro t s v r b w hw
  have hother : ∀ ev, Event.isRender ev = false → (∀ i roi, ev ≠ Event.markForRendered i roi) →
      Event.isOwn node image ev = false := by
    intro ev h1 h2
    cases ev <;> first | exact absurd rfl (h2 _ _) | rfl | cases h1
  have h := renderRoI_respects (ownsFrame key image (fun ev => Event.isOwn node image ev = false)) x
    (fun inp hinp t s v r b w hw =>
      ⟨(hin inp hinp t s v r b w hw).1, (hin inp hinp t s v r b w hw).2.1,
        (hin inp hinp t s v r b w hw).2.2, fun _ _ => trivial⟩)
    (fun other s t b hother_hash =>
      Render.respects_mono _ _
        (renderRoI_lookup_apart key image _ other s t b
          (fun heq => hhash (by rw [← hother_hash, heq]))
          (fun _ => rfl) (fun _ => rfl))
        (fun o ho img himg =>
          ownsFrame_tolerates key image _ x img
            (fun t s roi v st => by
              simp [Event.isOwn, Event.isRenderOf, Event.isMarkOf, haddr])
            (fun roi => by
              simp [Event.isOwn, Event.isRenderOf, Event.isMarkOf, ho img himg])
            hother))
    (fun _ => rfl) t s v r b w hw
  exact ⟨h.1, h.2.1, h.2.2.1⟩

/-- The inputs of an effect leave a buffer and its abort flag alone exactly
when each of them does. -/
theorem Effect.inputsLeave_iff (e : Effect) (image : Nat) :
    e.inputsLeave image ↔ ∀ inp, some inp ∈ e.inputs → inp.leaves e.addr image :=
  Iff.rfl

/-! ## `renderRoI`: the regions computed -/

/-- The pieces that `subtract` returns do not overlap. -/
theorem RectI.subtract_pairwise (a m : RectI) : (a.subtract m).Pairwise RectI.disjoint := by
  unfold RectI.subtract
  by_cases hi : (a.intersect m).isNull = true
  · simp only [hi, if_true]
    split
    · exact List.Pairwise.nil
    · exact List.pairwise_singleton _ _
  · simp only [hi, Bool.false_eq_true, if_false]
    have hnn : ¬ ((a.right ≤ a.left ∨ a.top ≤ a.bottom) ∨ (m.right ≤ m.left ∨ m.top ≤ m.bottom) ∨
        (min a.right m.right ≤ max a.left m.left ∨ min a.top m.top ≤ max a.bottom m.bottom)) := by
      intro h
      apply hi
      simp only [RectI.intersect, RectI.isNull, RectI.empty, Bool.or_eq_true, decide_eq_true_eq]
      rw [if_pos (by simpa [or_assoc] using h)]
      simp
    simp only [List.pairwise_append, List.mem_append, List.mem_ite_nil_right, List.mem_singleton]
    refine ⟨⟨⟨?_, ?_, ?_⟩, ?_, ?_⟩, ?_, ?_⟩
    any_goals (split <;> simp)
    all_goals
      intro p hp q hq x y hc
      unfold RectI.contains at hc
      rcases hq with ⟨hq1, rfl⟩
    · rcases hp with ⟨hp1, rfl⟩
      simp only at hc
      omega
    · rcases hp with ⟨hp1, rfl⟩ | ⟨hp1, rfl⟩ <;> simp only at hc <;> omega
    · rcases hp with (⟨hp1, rfl⟩ | ⟨hp1, rfl⟩) | ⟨hp1, rfl⟩ <;> simp only at hc <;> omega

/-- Removing the regions `ms` one after the other from pieces that do not
overlap leaves pieces that do not overlap. -/
theorem getRestToRender_foldl_pairwise (ms : List RectI) :
    ∀ (acc : List RectI), acc.Pairwise RectI.disjoint →
      (ms.foldl (fun rest m => rest.flatMap fun a => a.subtract m) acc).Pairwise RectI.disjoint := by
  induction ms with
  | nil => intro acc hacc; exact hacc
  | cons m rest ih =>
      intro acc hacc
      simp only [List.foldl_cons]
      apply ih
      rw [List.pairwise_flatMap]
      refine ⟨fun a _ => RectI.subtract_pairwise a m, ?_⟩
      refine hacc.imp ?_
      intro a b hab p hp q hq x y hc
      exact hab x y ⟨(((RectI.subtract_spec a m).2 x y).mp ⟨p, hp, hc.1⟩).1,
        (((RectI.subtract_spec b m).2 x y).mp ⟨q, hq, hc.2⟩).1⟩

/-- The sub-regions that `getRestToRender` returns do not overlap. -/
theorem Image.getRestToRender_pairwise (img : Image) (roi : RectI) :
    (img.getRestToRender roi).Pairwise RectI.disjoint := by
  unfold Image.getRestToRender
  apply getRestToRender_foldl_pairwise
  split
  · exact List.Pairwise.nil
  · exact List.pairwise_singleton _ _

/-- The tiles of a region are not null and do not overlap. -/
theorem RectI.splitRectIntoSmallerRect_pairwise (rect : RectI) (splitsCount : Int) :
    (∀ tile ∈ RectI.splitRectIntoSmallerRect rect splitsCount, tile.isNull = false) ∧
      (RectI.splitRectIntoSmallerRect rect splitsCount).Pairwise RectI.disjoint := by
  unfold RectI.splitRectIntoSmallerRect
  by_cases hnull : rect.isNull = true
  · simp only [hnull, if_true, List.not_mem_nil, false_implies, implies_true, true_and]
    exact List.Pairwise.nil
  · simp only [hnull, Bool.false_eq_true, if_false]
    have hdim : rect.left < rect.right ∧ rect.bottom < rect.top := by
      simp only [RectI.isNull, Bool.or_eq_true, decide_eq_true_eq, not_or, not_le] at hnull
      exact hnull
    generalize hn : max 1 splitsCount.toNat = n
    have hn1 : 1 ≤ n := by rw [← hn]; exact le_max_left _ _
    have hnpos : (0 : Int) < (n : Int) := by exact_mod_cast hn1
    have hh : 0 < rect.top - rect.bottom := by omega
    constructor
    · intro tile htile
      have := (List.mem_filter.mp htile).2
      simpa using this
    · apply List.Pairwise.filter
      rw [List.pairwise_map]
      refine (List.pairwise_lt_range n).imp ?_
      intro i j hij x y hc
      simp only [RectI.contains] at hc
      have hle : (((i : Int) + 1) * (rect.top - rect.bottom)) / n
          ≤ ((j : Int) * (rect.top - rect.bottom)) / n := by
        apply Int.ediv_le_ediv hnpos
        apply mul_le_mul_of_nonneg_right _ hh.le
        exact_mod_cast hij
      omega

/-- The regions of one sub-region are not null when it is not, do not overlap,
and cover exactly the sub-region. -/
theorem renderRoI_tiles_spec (e : Effect) (threads : Int) (rect : RectI)
    (hrect : rect.isNull = false) :
    (∀ tile ∈ renderRoI_tiles e threads rect, tile.isNull = false) ∧
      (renderRoI_tiles e threads rect).Pairwise RectI.disjoint ∧
      ∀ x y, (∃ tile ∈ renderRoI_tiles e threads rect, tile.contains x y) ↔ rect.contains x y := by
  unfold renderRoI_tiles
  split
  · exact ⟨(RectI.splitRectIntoSmallerRect_pairwise rect threads).1,
      (RectI.splitRectIntoSmallerRect_pairwise rect threads).2,
      RectI.splitRectIntoSmallerRect_spec rect threads⟩
  · refine ⟨fun tile ht => ?_, List.pairwise_singleton _ _, fun x y => ?_⟩
    · rw [List.mem_singleton.mp ht]
      exact hrect
    · simp

/-- The regions the specification has `renderRoI` compute are not null, do not
overlap, and lie in the requested region and in the bounding region of the
buffer, outside every sub-region marked rendered. -/
theorem renderRoI_regions_spec (e : Effect) (renderWindow : RectI) (threads : Int)
    (buffer : Image) :
    (renderRoI_regions e renderWindow threads buffer).Pairwise RectI.disjoint ∧
      ∀ region ∈ renderRoI_regions e renderWindow threads buffer,
        region.isNull = false ∧
          ∀ x y, region.contains x y →
            renderWindow.contains x y ∧ buffer.rod.contains x y ∧
              ∀ m ∈ buffer.rendered, ¬ m.contains x y := by
  obtain ⟨hnull, hpix⟩ := Image.getRestToRender_spec buffer (renderWindow.intersect buffer.getRoD)
  have hin : ∀ p ∈ buffer.getRestToRender (renderWindow.intersect buffer.getRoD),
      ∀ x y, p.contains x y →
        renderWindow.contains x y ∧ buffer.rod.contains x y ∧
          ∀ m ∈ buffer.rendered, ¬ m.contains x y := by
    intro p hp x y hc
    obtain ⟨h1, h2⟩ := (hpix x y).mp ⟨p, hp, hc⟩
    rw [RectI.contains_intersect] at h1
    exact ⟨h1.1, h1.2, h2⟩
  have hpw := Image.getRestToRender_pairwise buffer (renderWindow.intersect buffer.getRoD)
  unfold renderRoI_regions
  constructor
  · rw [List.pairwise_flatMap]
    refine ⟨fun a ha => (renderRoI_tiles_spec e threads a (hnull a ha)).2.1, ?_⟩
    have hpw2 : (buffer.getRestToRender (renderWindow.intersect buffer.getRoD)).Pairwise
        (fun a b => (a.isNull = false ∧ b.isNull = false) ∧ RectI.disjoint a b) :=
      List.Pairwise.and (List.pairwise_of_forall_mem_list
        (fun a ha b hb => ⟨hnull a ha, hnull b hb⟩)) hpw
    refine hpw2.imp ?_
    intro a b hab p hp q hq x y hc
    exact hab.2 x y ⟨((renderRoI_tiles_spec e threads a hab.1.1).2.2 x y).mp ⟨p, hp, hc.1⟩,
      ((renderRoI_tiles_spec e threads b hab.1.2).2.2 x y).mp ⟨q, hq, hc.2⟩⟩
  · intro region hregion
    obtain ⟨a, ha, hra⟩ := List.mem_flatMap.mp hregion
    refine ⟨(renderRoI_tiles_spec e threads a (hnull a ha)).1 region hra, ?_⟩
    intro x y hc
    exact hin a ha x y (((renderRoI_tiles_spec e threads a (hnull a ha)).2.2 x y).mp
      ⟨region, hra, hc⟩)

/-- The calls of a computed region are a computation of the effect and a mark
on the buffer. -/
theorem renderRoI_computed_filter (e : Effect) (time : SequenceTime) (scale : RenderScale)
    (view : Int) (image : Nat) (region : RectI) :
    (renderRoI_computed e time scale view image region).filter (Event.isOwn e.addr image) =
      renderRoI_computed e time scale view image region := by
  simp [renderRoI_computed, Event.isOwn, Event.isRenderOf, Event.isMarkOf]

/-- The calls of computed regions are computations of the effect and marks on
the buffer. -/
theorem renderRoI_computed_flatMap_filter (e : Effect) (time : SequenceTime) (scale : RenderScale)
    (view : Int) (image : Nat) (regions : List RectI) :
    (regions.flatMap (renderRoI_computed e time scale view image)).filter
        (Event.isOwn e.addr image) =
      regions.flatMap (renderRoI_computed e time scale view image) := by
  induction regions with
  | nil => rfl
  | cons r rs ih =>
      simp only [List.flatMap_cons, List.filter_append, ih, renderRoI_computed_filter]

/-- The tile functor, computing with `StatOK`, the abort flag being unset when
it returns: it computes the tile, then marks it. -/
theorem tiledRenderingFunctor_events (e : Effect) (args : RenderArgs) (tile : RectI)
    (output : Nat) (w : World)
    (hst : ∀ t s r v i w', (e.render t s r v i w').1 = Status.StatOK)
    (hab : e.addr ∉ (tiledRenderingFunctor e args tile output w).world.aborted) :
    (tiledRenderingFunctor e args tile output w).events =
        renderRoI_computed e args._time args._scale args._view output tile ∧
      (tiledRenderingFunctor e args tile output w).world.idealThreadCount
        = w.idealThreadCount := by
  revert hab
  unfold tiledRenderingFunctor
  simp only [setLocalData_bind_run, callRender_bind_run, hst, ne_eq, not_true_eq_false, if_false,
    aborted_bind_run, Res.prepend_world, Res.prepend_events]
  have hth : (callRender e args._time args._scale tile args._view output
      (setLocalData e args w).world).world.idealThreadCount = w.idealThreadCount := by
    unfold callRender
    simp only
    split <;> rfl
  by_cases hflag : e.addr ∈ (callRender e args._time args._scale tile args._view output
      (setLocalData e args w).world).world.aborted
  · simp only [hflag, decide_True, Bool.not_true, Bool.false_eq_true, if_false,
      Render.pure_bind_run, Render.pure_run]
    intro h
    exact absurd trivial h
  · simp only [hflag, decide_False, Bool.not_false, if_true, markForRendered_bind_run,
      Render.pure_run, Res.prepend_world, Res.prepend_events]
    intro _
    exact ⟨rfl, hth⟩

/-- The tiles of a rectangle, all computed with `StatOK`, the abort flag being
unset at the end: each tile is computed, then marked, in order. -/
theorem mapped_tiledRenderingFunctor_events (e : Effect) (args : RenderArgs) (output : Nat)
    (hst : ∀ t s r v i w', (e.render t s r v i w').1 = Status.StatOK) :
    ∀ (tiles : List RectI) (w : World),
      e.addr ∉ (mapped (fun tile => tiledRenderingFunctor e args tile output) tiles w).world.aborted →
      (mapped (fun tile => tiledRenderingFunctor e args tile output) tiles w).events =
          tiles.flatMap (renderRoI_computed e args._time args._scale args._view output) ∧
        (mapped (fun tile => tiledRenderingFunctor e args tile output) tiles w).world.idealThreadCount
          = w.idealThreadCount := by
  intro tiles
  induction tiles with
  | nil =>
      intro w _
      exact ⟨rfl, rfl⟩
  | cons tile rest ih =>
      intro w
      unfold mapped
      have h1 := tiledRenderingFunctor_ok e args tile output w hst
      simp only [Render.bind_ok _ _ _ _ h1, Res.prepend_world, Res.prepend_events]
      obtain ⟨sts, hsts, _⟩ := mapped_tiledRenderingFunctor_ok e args output hst rest
        (tiledRenderingFunctor e args tile output w).world
      simp only [Render.bind_ok _ _ _ _ hsts, Res.prepend_world, Res.prepend_events,
        Render.pure_run]
      intro hab
      obtain ⟨hev2, hth2⟩ := ih _ hab
      obtain ⟨_, _, hab1⟩ := mapped_tiledRenderingFunctor_completed e args output hst rest _ hab
      obtain ⟨hev1, hth1⟩ := tiledRenderingFunctor_events e args tile output w hst hab1
      refine ⟨?_, hth2.trans hth1⟩
      rw [hev1, hev2]
      simp only [List.flatMap_cons, List.append_nil]

/-- A computation call leaves the ideal thread count as it is. -/
theorem callRender_threads (e : Effect) (time : SequenceTime) (scale : RenderScale) (roi : RectI)
    (view : Int) (image : Nat) (w : World) :
    (callRender e time scale roi view image w).world.idealThreadCount = w.idealThreadCount := by
  unfold callRender
  simp only
  split <;> rfl

/-- The `switch` on a rectangle, returning without error, the abort flag being
unset at the end (in the tier `FULLY_SAFE_FRAME`, every computation returning
`StatOK`): its computations and marks are those of the regions of the
rectangle, each computed, then marked, in order. -/
theorem renderRoI_switch_events (e : Effect) (args : RenderArgs) (roi : RectI) (image : Nat)
    (w : World)
    (hframe : e.renderThreadSafety = RenderSafety.FULLY_SAFE_FRAME →
      ∀ t s r v i w', (e.render t s r v i w').1 = Status.StatOK)
    (hok : (renderRoI_switch e args roi image w).val = Except.ok ())
    (hab : e.addr ∉ (renderRoI_switch e args roi image w).world.aborted) :
    (renderRoI_switch e args roi image w).events.filter (Event.isOwn e.addr image) =
        (renderRoI_tiles e w.idealThreadCount roi).flatMap
          (renderRoI_computed e args._time args._scale args._view image) ∧
      (renderRoI_switch e args roi image w).world.idealThreadCount = w.idealThreadCount := by
  have hth := callRender_threads e args._time args._scale roi args._view image w
  revert hok hab
  unfold renderRoI_switch renderRoI_tiles
  cases hs : e.renderThreadSafety with
  | FULLY_SAFE_FRAME =>
      have hst := hframe hs
      simp only [Render.get_bind_run, if_true]
      obtain ⟨sts, hsts, _⟩ := mapped_tiledRenderingFunctor_ok e args image hst
        (RectI.splitRectIntoSmallerRect roi w.idealThreadCount) w
      simp only [Render.bind_ok _ _ _ _ hsts, Res.prepend_world, Res.prepend_val,
        Res.prepend_events]
      intro _ hab
      have hab' : e.addr ∉ (mapped (fun tile => tiledRenderingFunctor e args tile image)
          (RectI.splitRectIntoSmallerRect roi w.idealThreadCount) w).world.aborted := by
        intro h
        apply hab
        split <;> exact h
      obtain ⟨hev, hthm⟩ := mapped_tiledRenderingFunctor_events e args image hst _ w hab'
      have hres : ∀ (r : Res Unit), r.events = [] →
          r.world = (mapped (fun tile => tiledRenderingFunctor e args tile image)
            (RectI.splitRectIntoSmallerRect roi w.idealThreadCount) w).world →
          ((mapped (fun tile => tiledRenderingFunctor e args tile image)
            (RectI.splitRectIntoSmallerRect roi w.idealThreadCount) w).events ++ r.events).filter
              (Event.isOwn e.addr image) =
            (RectI.splitRectIntoSmallerRect roi w.idealThreadCount).flatMap
              (renderRoI_computed e args._time args._scale args._view image) ∧
            r.world.idealThreadCount = w.idealThreadCount := by
        intro r hr1 hr2
        rw [hr1, hr2, List.append_nil, hev, renderRoI_computed_flatMap_filter]
        exact ⟨rfl, hthm⟩
      apply hres
      · split <;> rfl
      · split <;> rfl
  | UNSAFE =>
      simp only [Render.emit_bind_run, callRender_bind_run, Res.prepend_world, Res.prepend_val,
        Res.prepend_events, aborted_bind_run]
      by_cases hst : (e.render args._time args._scale roi args._view image w).1 = Status.StatOK
      · simp only [hst, ne_eq, not_true_eq_false, if_false, aborted_bind_run]
        by_cases hflag : e.addr ∈ (callRender e args._time args._scale roi args._view image w).world.aborted
        · simp only [hflag, decide_True, Bool.not_true, Bool.false_eq_true, if_false,
            Render.pure_run]
          intro _ h
          exact absurd trivial h
        · simp only [hflag, decide_False, Bool.not_false, if_true]
          intro _ _
          refine ⟨?_, hth⟩
          simp [markForRendered, renderRoI_computed, Event.isOwn, Event.isRenderOf,
            Event.isMarkOf]
      · simp [hst, Render.raise]
  | INSTANCE_SAFE =>
      simp only [callRender_bind_run, Res.prepend_world, Res.prepend_val, Res.prepend_events,
        aborted_bind_run]
      by_cases hst : (e.render args._time args._scale roi args._view image w).1 = Status.StatOK
      · simp only [hst, ne_eq, not_true_eq_false, if_false, aborted_bind_run]
        by_cases hflag : e.addr ∈ (callRender e args._time args._scale roi args._view image w).world.aborted
        · simp only [hflag, decide_True, Bool.not_true, Bool.false_eq_true, if_false,
            Render.pure_run]
          intro _ h
          exact absurd trivial h
        · simp only [hflag, decide_False, Bool.not_false, if_true]
          intro _ _
          refine ⟨?_, hth⟩
          simp [markForRendered, renderRoI_computed, Event.isOwn, Event.isRenderOf,
            Event.isMarkOf]
      · simp [hst, Render.raise]
  | FULLY_SAFE =>
      simp only [callRender_bind_run, Res.prepend_world, Res.prepend_val, Res.prepend_events,
        aborted_bind_run]
      by_cases hst : (e.render args._time args._scale roi args._view image w).1 = Status.StatOK
      · simp only [hst, ne_eq, not_true_eq_false, if_false, aborted_bind_run]
        by_cases hflag : e.addr ∈ (callRender e args._time args._scale roi args._view image w).world.aborted
        · simp only [hflag, decide_True, Bool.not_true, Bool.false_eq_true, if_false,
            Render.pure_run]
          intro _ h
          exact absurd trivial h
        · simp only [hflag, decide_False, Bool.not_false, if_true]
          intro _ _
          refine ⟨?_, hth⟩
          simp [markForRendered, renderRoI_computed, Event.isOwn, Event.isRenderOf,
            Event.isMarkOf]
      · simp [hst, Render.raise]

/-- Calls none of which is a computation of the effect or a mark on the buffer
are filtered out. -/
theorem filter_isOwn_eq_nil (node image : Nat) (evs : List Event)
    (h : ∀ ev ∈ evs, Event.isOwn node image ev = false) :
    evs.filter (Event.isOwn node image) = [] := by
  rw [List.filter_eq_nil_iff]
  intro ev hev
  rw [h ev hev]
  exact Bool.false_ne_true

/-- The loop over the inputs of an effect whose inputs are apart, whatever its
outcome: the buffer stays allocated and cached under no other key, the ideal
thread count stays, and the loop makes no computation call of the effect and
no mark on the buffer. -/
theorem renderRoI_inputs_own (e : Effect) (time : SequenceTime) (scale : RenderScale)
    (view : Int) (byPassCache : Bool) (image : Nat) (key : ImageKey)
    (hapart : e.inputsApart key image) (inputsRoi : RoIMap)
    (hmem : ∀ it ∈ inputsRoi, some it.1 ∈ e.inputs) (w : World) (hw : w.owns key image) :
    (renderRoI_inputs e time scale view byPassCache image inputsRoi w).world.owns key image ∧
      (renderRoI_inputs e time scale view byPassCache image inputsRoi w).world.idealThreadCount
        = w.idealThreadCount ∧
      (renderRoI_inputs e time scale view byPassCache image inputsRoi w).events.filter
        (Event.isOwn e.addr image) = [] := by
  have h := renderRoI_inputs_respects
    (ownsFrame key image (fun ev => Event.isOwn e.addr image ev = false)) e image
    (ownsFrame_toleratesInputs key image _ e image (fun _ => rfl) (fun _ => rfl) rfl
      (fun _ _ => rfl))
    (fun inp hinp t s v r b w hw =>
      ⟨(hapart inp hinp t s v r b w hw).1, (hapart inp hinp t s v r b w hw).2.1,
        (hapart inp hinp t s v r b w hw).2.2, fun _ _ => trivial⟩)
    time scale view byPassCache inputsRoi hmem w hw
  exact ⟨h.1, h.2.1, filter_isOwn_eq_nil _ _ _ h.2.2.1⟩

/-- The `switch`, whatever its outcome, keeps the buffer allocated and cached
under no other key, and leaves the ideal thread count as it is. -/
theorem renderRoI_switch_owns (e : Effect) (args : RenderArgs) (roi : RectI) (image : Nat)
    (other : Nat) (key : ImageKey) (w : World) (hw : w.owns key other) :
    (renderRoI_switch e args roi image w).world.owns key other ∧
      (renderRoI_switch e args roi image w).world.idealThreadCount = w.idealThreadCount := by
  have h := renderRoI_switch_respects (ownsFrame key other (fun _ => True)) e image
    (ownsFrame_toleratesSwitch key other _ e image (fun _ _ _ _ _ => trivial) (fun _ => trivial)
      trivial trivial) args roi w hw
  exact ⟨h.1, h.2.1⟩

/-- The loop over the rectangles, when it runs to its end and the abort flag
is unset at the end: its computations and marks are those of the regions of the
rectangles, each computed, then marked, in order. -/
theorem renderRoI_rects_events (e : Effect) (time : SequenceTime) (scale : RenderScale)
    (view : Int) (byPassCache : Bool) (image : Nat) (key : ImageKey)
    (hleave : e.inputsLeave image) (hapart : e.inputsApart key image)
    (hframe : e.renderThreadSafety = RenderSafety.FULLY_SAFE_FRAME →
      ∀ t s r v i w', (e.render t s r v i w').1 = Status.StatOK) :
    ∀ (rects : List RectI) (w : World),
      w.owns key image →
      (renderRoI_rects e time scale view byPassCache image rects w).val = Except.ok false →
      e.addr ∉ (renderRoI_rects e time scale view byPassCache image rects w).world.aborted →
      (renderRoI_rects e time scale view byPassCache image rects w).events.filter
          (Event.isOwn e.addr image) =
        (rects.flatMap (renderRoI_tiles e w.idealThreadCount)).flatMap
          (renderRoI_computed e time scale view image) := by
  intro rects
  induction rects with
  | nil =>
      intro w _ _ _
      rfl
  | cons it rest ih =>
      intro w hw
      unfold renderRoI_rects
      simp only [setLocalData_bind_run]
      generalize hw0 : (setLocalData e ⟨it, time, scale, view⟩ w).world = w0
      have hown0 : w0.owns key image := by rw [← hw0]; exact hw
      have hth0 : w0.idealThreadCount = w.idealThreadCount := by rw [← hw0]; rfl
      cases hr : (renderRoI_inputs e time scale view byPassCache image
          (getRegionOfInterest e time scale it) w0).val with
      | error err => simp [Render.bind_error _ _ _ _ hr]
      | ok returned =>
          simp only [Render.bind_ok _ _ _ _ hr, Res.prepend_val, Res.prepend_world,
            Res.prepend_events]
          cases returned with
          | true => simp
          | false =>
              obtain ⟨hown1, hth1, hev1⟩ := renderRoI_inputs_own e time scale view byPassCache
                image key hapart (getRegionOfInterest e time scale it)
                (fun x hx => (getRegionOfInterest_mem e time scale it x hx).1) w0 hown0
              simp only [Bool.false_eq_true, if_false, Render.emit_bind_run, Res.prepend_val,
                Res.prepend_world, Res.prepend_events]
              generalize (renderRoI_inputs e time scale view byPassCache image
                (getRegionOfInterest e time scale it) w0).world = w1 at hown1 hth1 ⊢
              generalize (renderRoI_inputs e time scale view byPassCache image
                (getRegionOfInterest e time scale it) w0).events = ev1 at hev1 ⊢
              cases hs : (renderRoI_switch e ⟨it, time, scale, view⟩ it image w1).val with
              | error err => simp [Render.bind_error _ _ _ _ hs]
              | ok u =>
                  simp only [Render.bind_ok _ _ _ _ hs, Res.prepend_val, Res.prepend_world,
                    Res.prepend_events, Render.emit_bind_run]
                  intro hval hab
                  obtain ⟨hown2, hth2'⟩ := renderRoI_switch_owns e ⟨it, time, scale, view⟩ it
                    image image key w1 hown1
                  have hev3 := ih _ hown2 hval hab
                  obtain ⟨_, _, hab2⟩ := renderRoI_rects_completed e time scale view byPassCache
                    image hleave hframe rest _ hown2.1 hval hab
                  obtain ⟨hev2, hth2⟩ := renderRoI_switch_events e ⟨it, time, scale, view⟩
                    it image w1 hframe hs hab2
                  have hth01 : w1.idealThreadCount = w.idealThreadCount := hth1.trans hth0
                  simp only [List.filter_append, hev1, hev2, hev3, hth2, hth01, List.nil_append,
                    List.flatMap_cons, List.flatMap_append]
                  simp [Event.isOwn, Event.isRenderOf, Event.isMarkOf]

/-- The rendering of `image`, when it returns with the abort flag unset: its
computations and marks are those of the regions the specification has it
compute, each computed, then marked, in order. -/
theorem renderRoI_image_events (e : Effect) (time : SequenceTime) (scale : RenderScale)
    (view : Int) (renderWindow : RectI) (byPassCache : Bool) (image : Nat) (key : ImageKey)
    (w : World) (res : Option Nat) (hleave : e.inputsLeave image)
    (hapart : e.inputsApart key image)
    (hframe : e.renderThreadSafety = RenderSafety.FULLY_SAFE_FRAME →
      ∀ t s r v i w', (e.render t s r v i w').1 = Status.StatOK)
    (hown : w.owns key image)
    (hok : (renderRoI_image e time scale view renderWindow byPassCache image w).val = Except.ok res)
    (hab : e.addr ∉ (renderRoI_image e time scale view renderWindow byPassCache image w).world.aborted) :
    (renderRoI_image e time scale view renderWindow byPassCache image w).events.filter
        (Event.isOwn e.addr image) =
      (renderRoI_regions e renderWindow w.idealThreadCount (w.image image)).flatMap
        (renderRoI_computed e time scale view image) := by
  revert hok hab
  unfold renderRoI_image renderRoI_regions
  simp only [addImageBeingRendered_bind_run, Render.get_bind_run, Res.prepend_world,
    Res.prepend_val, Res.prepend_events]
  generalize hw0 : (addImageBeingRendered e image time view w).world = w0
  have hown0 : w0.owns key image := by rw [← hw0]; exact hown
  have hth0 : w0.idealThreadCount = w.idealThreadCount := by rw [← hw0]; rfl
  have himg0 : w0.image image = w.image image := by
    unfold World.image
    rw [← hw0]
    rfl
  cases hr : (renderRoI_rects e time scale view byPassCache image
      ((w0.image image).getRestToRender (renderWindow.intersect (w0.image image).getRoD)) w0).val with
  | error err => simp [Render.bind_error _ _ _ _ hr]
  | ok returned =>
      simp only [Render.bind_ok _ _ _ _ hr, Res.prepend_world, Res.prepend_val,
        Res.prepend_events]
      cases returned with
      | true =>
          simp only [if_true, Render.pure_run]
          intro _ hab
          exact absurd (renderRoI_rects_returned e time scale view byPassCache image _ w0 hr).1 hab
      | false =>
          simp only [Bool.false_eq_true, if_false, removeImageBeingRendered_bind_run,
            clearExceedingEntriesFromNodeCache_bind_run, aborted_bind_run, Res.prepend_world,
            Res.prepend_val, Res.prepend_events]
          have hfinal : ∀ (r : Res (Option Nat)),
              r.world.aborted = (renderRoI_rects e time scale view byPassCache image
                ((w0.image image).getRestToRender
                  (renderWindow.intersect (w0.image image).getRoD)) w0).world.aborted →
              r.events.filter (Event.isOwn e.addr image) = [] →
              e.addr ∉ r.world.aborted →
              (Event.addImageBeingRendered e.addr image time view ::
                ((renderRoI_rects e time scale view byPassCache image
                  ((w0.image image).getRestToRender
                    (renderWindow.intersect (w0.image image).getRoD)) w0).events ++
                  (Event.removeImageBeingRendered e.addr time view ::
                    Event.clearExceedingEntriesFromNodeCache :: r.events))).filter
                  (Event.isOwn e.addr image) =
                (((w.image image).getRestToRender
                  (renderWindow.intersect (w.image image).getRoD)).flatMap
                    (renderRoI_tiles e w.idealThreadCount)).flatMap
                  (renderRoI_computed e time scale view image) := by
            intro r habs hevr hab
            have hab1 := habs ▸ hab
            have hev1 := renderRoI_rects_events e time scale view byPassCache image key
              hleave hapart hframe _ w0 hown0 hr hab1
            rw [List.filter_cons, List.filter_append, hev1, List.filter_cons, List.filter_cons,
              hevr, himg0, hth0]
            simp [Event.isOwn, Event.isRenderOf, Event.isMarkOf]
          by_cases hflag : e.addr ∈ (clearExceedingEntriesFromNodeCache
                (removeImageBeingRendered e time view (renderRoI_rects e time scale view
                  byPassCache image ((w0.image image).getRestToRender
                    (renderWindow.intersect (w0.image image).getRoD)) w0).world).world).world.aborted
          · simp only [hflag, decide_True, if_true, removeFromNodeCache_bind_run, Render.pure_run,
              Res.prepend_world]
            intro _ hab
            exact absurd hflag hab
          · simp only [hflag, decide_False, Bool.false_eq_true, if_false, Render.pure_bind_run,
              Render.pure_run]
            intro _ _
            exact hfinal ⟨Except.ok (some image), _, []⟩ rfl rfl hflag

/-- The buffer at the first free index of a state that allocates it. -/
theorem World.image_allocated (w w' : World) (img : Image) (h : w'.images = w.images ++ [img]) :
    w'.image w.images.length = img := by
  simp [World.image, h]

/-- The lookup step of a request, when the cache points at allocated buffers
and holds the buffer found under no other key: the buffer found is allocated
and cached under no other key; it is the buffer the state held or a new one;
the step leaves the ideal thread count and the abort flags as they are, and
makes no computation call and no mark. -/
theorem renderRoI_found_spec (e : Effect) (time : SequenceTime) (scale : RenderScale) (view : Int)
    (byPassCache : Bool) (w : World) (image : Nat)
    (hwf : ∀ q ∈ w.nodeCache, q.2 < w.images.length)
    (hown : ∀ q ∈ w.nodeCache, q.2 = image → q.1 = renderRoI_key e time scale view)
    (hfound : (renderRoI_found e time scale view byPassCache w).val = Except.ok (some image)) :
    (renderRoI_found e time scale view byPassCache w).world.owns
        (renderRoI_key e time scale view) image ∧
      (renderRoI_found e time scale view byPassCache w).world.image image
        = renderRoI_buffer e time scale w image ∧
      (renderRoI_found e time scale view byPassCache w).world.idealThreadCount
        = w.idealThreadCount ∧
      (renderRoI_found e time scale view byPassCache w).events.filter
        (Event.isOwn e.addr image) = [] ∧
      (image = w.images.length ∨ (renderRoI_key e time scale view, image) ∈ w.nodeCache) := by
  have hfound' : (renderRoI_lookup (renderRoI_key e time scale view) scale time
      (byPassCache || decide (e.getCachePolicy time = CachePolicy.NEVER_CACHE)) w).val
      = Except.ok (some image) := hfound
  show (renderRoI_lookup (renderRoI_key e time scale view) scale time
      (byPassCache || decide (e.getCachePolicy time = CachePolicy.NEVER_CACHE)) w).world.owns
        (renderRoI_key e time scale view) image ∧
    (renderRoI_lookup (renderRoI_key e time scale view) scale time
      (byPassCache || decide (e.getCachePolicy time = CachePolicy.NEVER_CACHE)) w).world.image image
        = renderRoI_buffer e time scale w image ∧
    (renderRoI_lookup (renderRoI_key e time scale view) scale time
      (byPassCache || decide (e.getCachePolicy time = CachePolicy.NEVER_CACHE))
        w).world.idealThreadCount = w.idealThreadCount ∧
    (renderRoI_lookup (renderRoI_key e time scale view) scale time
      (byPassCache || decide (e.getCachePolicy time = CachePolicy.NEVER_CACHE)) w).events.filter
        (Event.isOwn e.addr image) = [] ∧
    (image = w.images.length ∨ (renderRoI_key e time scale view, image) ∈ w.nodeCache)
  generalize (byPassCache || decide (e.getCachePolicy time = CachePolicy.NEVER_CACHE)) = bp
    at hfound' ⊢
  rcases renderRoI_lookup_cases (renderRoI_key e time scale view) scale time bp w with
    ⟨_, h⟩ | ⟨_, p, hfind, h⟩ | ⟨_, _, h⟩
  · rw [h] at hfound' ⊢
    have himage : image = w.images.length :=
      (Option.some.inj (Except.ok.inj hfound')).symm
    subst himage
    refine ⟨⟨?_, fun q hq hq2 => ?_⟩, ?_, rfl, rfl, Or.inl rfl⟩
    · show w.images.length < (w.images ++ [_]).length
      simp
    · have := hwf q hq
      omega
    · rw [World.image_allocated w _ _ rfl]
      simp [renderRoI_buffer, renderRoI_key]
  · rw [h] at hfound' ⊢
    have himage : image = p.2 := (Option.some.inj (Except.ok.inj hfound')).symm
    have hp1 : p.1 = renderRoI_key e time scale view := by
      have := List.find?_some hfind
      simpa using this
    have hpmem : p ∈ w.nodeCache := List.mem_of_find?_eq_some hfind
    have hlt : image < w.images.length := himage ▸ hwf p hpmem
    refine ⟨⟨hlt, fun q hq hq2 => ?_⟩, ?_, rfl, rfl, Or.inr ?_⟩
    · rcases List.mem_cons.mp hq with hhead | htail
      · rw [hhead]
      · exact hown q (List.mem_filter.mp htail).1 hq2
    · simp only [renderRoI_buffer, hlt, if_true]
      rfl
    · have : p = (renderRoI_key e time scale view, image) := by
        rw [himage, ← hp1]
      exact this ▸ hpmem
  · rw [h] at hfound' ⊢
    have himage : image = w.images.length :=
      (Option.some.inj (Except.ok.inj hfound')).symm
    subst himage
    refine ⟨⟨?_, fun q hq hq2 => ?_⟩, ?_, rfl, rfl, Or.inl rfl⟩
    · show w.images.length < (w.images ++ [_]).length
      simp
    · rcases List.mem_cons.mp hq with hhead | htail
      · rw [hhead]
      · have := hwf q htail
        omega
    · rw [World.image_allocated w _ _ rfl]
      simp [renderRoI_buffer, renderRoI_key]

/-- A request that is not an identity and whose region of definition is
computed is the lookup of the buffer followed by the rendering of the buffer
found. -/
theorem renderRoI_eq_found (e : Effect) (time : SequenceTime) (scale : RenderScale) (view : Int)
    (renderWindow : RectI) (byPassCache : Bool) (w : World)
    (hid : e.isIdentity time scale renderWindow view = none) :
    renderRoI e time scale view renderWindow byPassCache w =
      if (getRegionOfDefinition e time RectI.empty).1 = Status.StatFailed then
        (⟨Except.ok none, w, []⟩ : Res (Option Nat))
      else
        ((match (renderRoI_found e time scale view byPassCache w).val with
          | Except.error err =>
              (⟨Except.error err, (renderRoI_found e time scale view byPassCache w).world,
                (renderRoI_found e time scale view byPassCache w).events⟩ : Res (Option Nat))
          | Except.ok none =>
              ⟨Except.error (Err.undefined_behaviour "image is NULL"),
                (renderRoI_found e time scale view byPassCache w).world,
                (renderRoI_found e time scale view byPassCache w).events⟩
          | Except.ok (some img) =>
              (renderRoI_image e time scale view renderWindow
                (byPassCache || decide (e.getCachePolicy time = CachePolicy.NEVER_CACHE)) img
                (renderRoI_found e time scale view byPassCache w).world).prepend
                (renderRoI_found e time scale view byPassCache w).events).prepend
          (if e.isReader then
            [Event.setOrAddProjectFormat (getRegionOfDefinition e time RectI.empty).2]
          else [])) := by
  simp only [renderRoI, hid, renderRoI_render, renderRoI_found]
  generalize (⟨if e.shouldRenderedDataBePersistent then 1 else 0, e.hashValue, time, scale,
    view, (getRegionOfDefinition e time RectI.empty).2⟩ : ImageKey) = key
  generalize (byPassCache || decide (e.getCachePolicy time = CachePolicy.NEVER_CACHE)) = bp
  split
  · rfl
  · cases e.isReader with
    | true =>
        simp only [if_true, Render.emit_bind_run]
        congr 1
        cases hl : (renderRoI_lookup key scale time bp w).val with
        | error err => simp [Render.bind_error _ _ _ _ hl]
        | ok img =>
            cases img with
            | none => simp [Render.bind_ok _ _ _ _ hl, Render.raise, Res.prepend]
            | some img => simp [Render.bind_ok _ _ _ _ hl]
    | false =>
        simp only [Bool.false_eq_true, if_false, Render.pure_bind_run, Res.prepend_nil]
        cases hl : (renderRoI_lookup key scale time bp w).val with
        | error err => simp [Render.bind_error _ _ _ _ hl]
        | ok img =>
            cases img with
            | none => simp [Render.bind_ok _ _ _ _ hl, Render.raise, Res.prepend]
            | some img => simp [Render.bind_ok _ _ _ _ hl]

/-- A request that is not an identity, whose region of definition is computed
and whose lookup yields `image`, is the rendering of `image` after the calls
of the lookup. -/
theorem renderRoI_eq_image (e : Effect) (time : SequenceTime) (scale : RenderScale) (view : Int)
    (renderWindow : RectI) (byPassCache : Bool) (w : World) (image : Nat)
    (hid : e.isIdentity time scale renderWindow view = none)
    (hrod : (getRegionOfDefinition e time RectI.empty).1 ≠ Status.StatFailed)
    (hfound : (renderRoI_found e time scale view byPassCache w).val = Except.ok (some image)) :
    renderRoI e time scale view renderWindow byPassCache w =
      ((renderRoI_image e time scale view renderWindow
          (byPassCache || decide (e.getCachePolicy time = CachePolicy.NEVER_CACHE)) image
          (renderRoI_found e time scale view byPassCache w).world).prepend
          (renderRoI_found e time scale view byPassCache w).events).prepend
        (if e.isReader then
          [Event.setOrAddProjectFormat (getRegionOfDefinition e time RectI.empty).2]
        else []) := by
  rw [renderRoI_eq_found e time scale view renderWindow byPassCache w hid]
  simp only [hrod, if_false, hfound]

/-- The lookup step of a request raises nothing and yields a buffer. -/
theorem renderRoI_found_ok (e : Effect) (time : SequenceTime) (scale : RenderScale) (view : Int)
    (byPassCache : Bool) (w : World) :
    ∃ image, (renderRoI_found e time scale view byPassCache w).val = Except.ok (some image) :=
  renderRoI_lookup_ok _ scale time _ w

/-- C12: a request that is not an identity, that returns the buffer `image`
with the abort flag unset, and whose computations succeed. The cache of the
state in which the request is made points at allocated buffers, each over the
region of its key, and holds `image` under no other key than the request's;
the inputs are other nodes, which keep the buffer and its marks, do not clear
the abort flag, and neither compute for this node nor mark its buffer. The
buffer is the one the cache held under the key of the request, or a new one,
and its bounding region is the region of definition of the effect. Let the
regions be the sub-regions that `getRestToRender` returns for the requested
region intersected with that region, on the marks the buffer had in the state
of the request, each replaced by its tiles of `splitRectIntoSmallerRect` in
the tier `FULLY_SAFE_FRAME`. Then the computation calls of the effect and the
marks on the buffer are, in order, for each region one computation of the
region returning `StatOK` followed by one mark of that region, and nothing
else; the regions are not null, do not overlap, and lie in the requested region
and in the region of definition, outside everything that was marked rendered;
and on return nothing of the requested region intersected with the region of
definition is left to render. -/
theorem C12_renderRoI_computes_and_marks_the_rest_to_render (e : Effect) (time : SequenceTime)
    (scale : RenderScale) (view : Int) (renderWindow : RectI) (byPassCache : Bool) (w : World)
    (image : Nat)
    (hid : e.isIdentity time scale renderWindow view = none)
    (hwf : ∀ q ∈ w.nodeCache, q.2 < w.images.length ∧ (w.image q.2).rod = q.1.rod)
    (hown : ∀ q ∈ w.nodeCache, q.2 = image → q.1 = renderRoI_key e time scale view)
    (hleave : e.inputsLeave image)
    (hapart : e.inputsApart (renderRoI_key e time scale view) image)
    (hframe : e.renderThreadSafety = RenderSafety.FULLY_SAFE_FRAME →
      ∀ t s r v i w', (e.render t s r v i w').1 = Status.StatOK)
    (hret : (renderRoI e time scale view renderWindow byPassCache w).val
      = Except.ok (some image))
    (hunaborted : e.addr ∉ (renderRoI e time scale view renderWindow byPassCache w).world.aborted) :
    (image = w.images.length ∨ (renderRoI_key e time scale view, image) ∈ w.nodeCache) ∧
      (renderRoI_buffer e time scale w image).rod = (getRegionOfDefinition e time RectI.empty).2 ∧
      (renderRoI e time scale view renderWindow byPassCache w).events.filter
          (Event.isOwn e.addr image) =
        (renderRoI_regions e renderWindow w.idealThreadCount
            (renderRoI_buffer e time scale w image)).flatMap
          (renderRoI_computed e time scale view image) ∧
      (renderRoI_regions e renderWindow w.idealThreadCount
          (renderRoI_buffer e time scale w image)).Pairwise RectI.disjoint ∧
      (∀ region ∈ renderRoI_regions e renderWindow w.idealThreadCount
          (renderRoI_buffer e time scale w image),
        region.isNull = false ∧
          ∀ x y, region.contains x y →
            renderWindow.contains x y ∧
              (getRegionOfDefinition e time RectI.empty).2.contains x y ∧
              ∀ m ∈ (renderRoI_buffer e time scale w image).rendered, ¬ m.contains x y) ∧
      ((renderRoI e time scale view renderWindow byPassCache w).world.image image).getRestToRender
          (renderWindow.intersect (getRegionOfDefinition e time RectI.empty).2) = [] := by
  by_cases hrod : (getRegionOfDefinition e time RectI.empty).1 = Status.StatFailed
  · rw [renderRoI_eq_found e time scale view renderWindow byPassCache w hid] at hret
    simp [hrod] at hret
  · obtain ⟨img0, himg0⟩ := renderRoI_found_ok e time scale view byPassCache w
    have hcall := renderRoI_eq_image e time scale view renderWindow byPassCache w img0 hid hrod
      himg0
    rw [hcall] at hret hunaborted ⊢
    simp only [Res.prepend_val, Res.prepend_world, Res.prepend_events] at hret hunaborted ⊢
    have hsame : some image = some img0 :=
      renderRoI_image_val e time scale view renderWindow _ img0 _ _ hret
    have himage : img0 = image := (Option.some.inj hsame).symm
    subst himage
    obtain ⟨hown0, hbuf, hthl, hevl, hwhich⟩ := renderRoI_found_spec e time scale view
      byPassCache w img0 (fun q hq => (hwf q hq).1) hown himg0
    obtain ⟨hkeep, hcov⟩ := renderRoI_image_completed e time scale view renderWindow _ img0
      (renderRoI_found e time scale view byPassCache w).world (some img0) hleave hframe hown0.1
      hret hunaborted
    have hev := renderRoI_image_events e time scale view renderWindow _ img0
      (renderRoI_key e time scale view) (renderRoI_found e time scale view byPassCache w).world
      (some img0) hleave hapart hframe hown0 hret hunaborted
    rw [hthl, hbuf] at hev
    have hbufrod : (renderRoI_buffer e time scale w img0).rod
        = (getRegionOfDefinition e time RectI.empty).2 := by
      rcases hwhich with hnew | hhit
      · simp [renderRoI_buffer, hnew, Image.new]
      · have h1 := hwf _ hhit
        simp only [renderRoI_buffer, h1.1, if_true]
        exact h1.2
    obtain ⟨hpw, hregions⟩ := renderRoI_regions_spec e renderWindow w.idealThreadCount
      (renderRoI_buffer e time scale w img0)
    refine ⟨hwhich, hbufrod, ?_, hpw, ?_, ?_⟩
    · rw [List.filter_append, List.filter_append, hevl, hev, List.nil_append]
      cases e.isReader <;> simp [Event.isOwn, Event.isRenderOf, Event.isMarkOf]
    · intro region hregion
      obtain ⟨hnull, hpix⟩ := hregions region hregion
      refine ⟨hnull, fun x y hc => ?_⟩
      obtain ⟨h1, h2, h3⟩ := hpix x y hc
      exact ⟨h1, hbufrod ▸ h2, h3⟩
    · rw [Image.getRestToRender_eq_nil_iff]
      intro x y hc
      rw [RectI.contains_intersect] at hc
      apply hcov x y hc.1
      rw [hbuf, hbufrod]
      exact hc.2

/-- C12, at an effect of the tier `FULLY_SAFE_FRAME` whose input 0 is a writer
of this class that renders the region (0,0,4,4), asked for (0,0,4,4) with two
threads in a state where the cache holds its buffer with the lower half
(0,0,4,2) marked rendered: the input computes into a buffer of its own, and of
the effect only the two tiles (0,2,4,3) and (0,3,4,4) of the upper half are
computed, each once and then marked, and nothing is left to render. -/
theorem C12_renderRoI_computes_and_marks_the_rest_to_render_witness :
    (frameEffect 1 [some (writerEffect 2 RenderSafety.FULLY_SAFE).toRef]).isIdentity 0 ⟨1, 1⟩
        ⟨0, 0, 4, 4⟩ 0 = none ∧
      (renderRoI (frameEffect 1 [some (writerEffect 2 RenderSafety.FULLY_SAFE).toRef]) 0 ⟨1, 1⟩ 0
        ⟨0, 0, 4, 4⟩ false halfRenderedWorld).val = Except.ok (some 0) ∧
      (renderRoI (frameEffect 1 [some (writerEffect 2 RenderSafety.FULLY_SAFE).toRef]) 0 ⟨1, 1⟩ 0
        ⟨0, 0, 4, 4⟩ false halfRenderedWorld).world.aborted = [] ∧
      (renderRoI (frameEffect 1 [some (writerEffect 2 RenderSafety.FULLY_SAFE).toRef]) 0 ⟨1, 1⟩ 0
        ⟨0, 0, 4, 4⟩ false halfRenderedWorld).events.filter Event.isRender
        = [Event.render 2 0 ⟨1, 1⟩ ⟨0, 2, 4, 4⟩ 0 1 Status.StatOK,
            Event.render 1 0 ⟨1, 1⟩ ⟨0, 2, 4, 3⟩ 0 0 Status.StatOK,
            Event.render 1 0 ⟨1, 1⟩ ⟨0, 3, 4, 4⟩ 0 0 Status.StatOK] ∧
      renderRoI_regions (frameEffect 1 [some (writerEffect 2 RenderSafety.FULLY_SAFE).toRef])
          ⟨0, 0, 4, 4⟩ 2
          (renderRoI_buffer (frameEffect 1 [some (writerEffect 2 RenderSafety.FULLY_SAFE).toRef])
            0 ⟨1, 1⟩ halfRenderedWorld 0)
        = [⟨0, 2, 4, 3⟩, ⟨0, 3, 4, 4⟩] ∧
      (renderRoI (frameEffect 1 [some (writerEffect 2 RenderSafety.FULLY_SAFE).toRef]) 0 ⟨1, 1⟩ 0
        ⟨0, 0, 4, 4⟩ false halfRenderedWorld).events.filter (Event.isOwn 1 0)
        = [Event.render 1 0 ⟨1, 1⟩ ⟨0, 2, 4, 3⟩ 0 0 Status.StatOK,
            Event.markForRendered 0 ⟨0, 2, 4, 3⟩,
            Event.render 1 0 ⟨1, 1⟩ ⟨0, 3, 4, 4⟩ 0 0 Status.StatOK,
            Event.markForRendered 0 ⟨0, 3, 4, 4⟩] ∧
      ((renderRoI (frameEffect 1 [some (writerEffect 2 RenderSafety.FULLY_SAFE).toRef]) 0 ⟨1, 1⟩ 0
        ⟨0, 0, 4, 4⟩ false halfRenderedWorld).world.image 0).getRestToRender
          (RectI.intersect ⟨0, 0, 4, 4⟩
            (getRegionOfDefinition
              (frameEffect 1 [some (writerEffect 2 RenderSafety.FULLY_SAFE).toRef]) 0
              RectI.empty).2) = [] :=
  have hin : ∀ inp,
      some inp ∈ (frameEffect 1 [some (writerEffect 2 RenderSafety.FULLY_SAFE).toRef]).inputs →
      inp = (writerEffect 2 RenderSafety.FULLY_SAFE).toRef := by
    intro inp hinp
    simpa [frameEffect, plainEffect] using hinp
  have h := C12_renderRoI_computes_and_marks_the_rest_to_render
    (frameEffect 1 [some (writerEffect 2 RenderSafety.FULLY_SAFE).toRef]) 0 ⟨1, 1⟩ 0 ⟨0, 0, 4, 4⟩
    false halfRenderedWorld 0 rfl
    (by intro q hq; simp only [halfRenderedWorld, List.mem_singleton] at hq; rw [hq]; decide)
    (by intro q hq _; simp only [halfRenderedWorld, List.mem_singleton] at hq; rw [hq]; decide)
    (fun inp hinp => by
      rw [hin inp hinp]
      exact Effect.toRef_leaves (writerEffect 2 RenderSafety.FULLY_SAFE) 1 0
        (fun i hi => absurd hi (by simp [writerEffect, plainEffect])))
    (fun inp hinp => by
      rw [hin inp hinp]
      exact Effect.toRef_apart (writerEffect 2 RenderSafety.FULLY_SAFE) 1 _ 0 (by decide)
        (by decide) (fun i hi => absurd hi (by simp [writerEffect, plainEffect])))
    (fun _ _ _ _ _ _ _ => rfl) (by decide) (by decide)
  ⟨rfl, by decide, by decide, by decide, by decide, by decide, h.2.2.2.2.2⟩

/-! ## `renderRoI`: the computations and marks of a run, aborted or not -/

/-- The calls of a computation are a computation of the effect and, if any, a
mark on the buffer. -/
theorem renderRoI_step_filter (e : Effect) (time : SequenceTime) (scale : RenderScale)
    (view : Int) (image : Nat) (c : RectI × World) :
    (renderRoI_step e time scale view image c).filter (Event.isOwn e.addr image) =
      renderRoI_step e time scale view image c := by
  unfold renderRoI_step
  split <;> simp [Event.isOwn, Event.isRenderOf, Event.isMarkOf]

/-- Marking a region leaves the abort flags as they are. -/
theorem markForRendered_aborted (image : Nat) (roi : RectI) (w : World) :
    (markForRendered image roi w).world.aborted = w.aborted := rfl

end Natron
